import Mathlib

/-!
Verification development for the `sui-move-wasm` package-compilation
orchestrator (`src/sui-move-wasm/src/lib.rs`).

The file shallowly embeds the orchestrator's deterministic logic:
manifest-derived address binding, dependency-group assembly, the two-phase
usage-based dependency pruner ("tree shaking"), the dependency-identifier
filtering/sorting, and the manifest-digest routine.  External collaborators
(the Move compiler proper, the bytecode verifiers, TOML and JSON parsers,
the topological-order utility, the package-digest function) are modelled as
opaque function parameters collected in a `Services` record, mirroring the
spec's description of them as opaque services.  Account addresses are
modelled as natural numbers (the value of the 32-byte big-endian buffer);
byte strings are `List Nat`.
-/

namespace SMB

/-- Association-list lookup (first match), modelling `BTreeMap::get`. -/
def alLookup [DecidableEq κ] : List (κ × α) → κ → Option α
  | [], _ => none
  | (k, v) :: rest, s => if k = s then some v else alLookup rest s

/-- Association-list insert that overwrites an existing binding, modelling
`BTreeMap::insert`. -/
def alInsert [DecidableEq κ] : List (κ × α) → κ → α → List (κ × α)
  | [], k, v => [(k, v)]
  | (k', v') :: rest, k, v =>
      if k' = k then (k, v) :: rest else (k', v') :: alInsert rest k v

/-- Set-style insert for lists, modelling `HashSet::insert`. -/
def addIfAbsent [DecidableEq α] (l : List α) (a : α) : List α :=
  if a ∈ l then l else a :: l

/-- Rust `str::ends_with` / `str::starts_with` on character lists (these
reduce well, unlike `String.endsWith`). -/
def strEndsWith (s suffix : String) : Bool := List.isSuffixOf suffix.toList s.toList

def strStartsWith (s pre : String) : Bool := List.isPrefixOf pre.toList s.toList

/-- Rust `str::trim` on the character list (ASCII whitespace scope). -/
def trimChars (l : List Char) : List Char :=
  ((l.dropWhile Char.isWhitespace).reverse.dropWhile Char.isWhitespace).reverse

/-- Rust `str::trim_start_matches("0x")`: removes ALL leading repetitions of
the pattern. -/
def strip0xAll : List Char → List Char
  | '0' :: 'x' :: rest => strip0xAll rest
  | l => l

/-- Removing a single leading "0x" marker (used to state the claim's reading
of the function, which speaks of "a leading 0x marker"). -/
def strip0xOnce : List Char → List Char
  | '0' :: 'x' :: rest => rest
  | l => l

/-- One hex digit to its value; both cases accepted, as by the `hex` crate. -/
def hexNibble (c : Char) : Option Nat :=
  if '0' ≤ c ∧ c ≤ '9' then some (c.toNat - '0'.toNat)
  else if 'a' ≤ c ∧ c ≤ 'f' then some (c.toNat - 'a'.toNat + 10)
  else if 'A' ≤ c ∧ c ≤ 'F' then some (c.toNat - 'A'.toNat + 10)
  else none

/-- `hex::decode` on an even-length character string: consecutive pairs of
hex digits become bytes; any non-hex character (or trailing odd digit)
fails the decode. -/
def hexDecodePairs : List Char → Option (List Nat)
  | [] => some []
  | c1 :: c2 :: rest => do
      let hi ← hexNibble c1
      let lo ← hexNibble c2
      let tail ← hexDecodePairs rest
      pure ((hi * 16 + lo) :: tail)
  | [_] => none

/-- `parse_hex_address_to_bytes` from `src/sui-move-wasm/src/lib.rs`:
trim, strip leading "0x" repetitions, reject the empty remainder, left-pad
odd-length hex with one zero nibble, decode, reject more than 32 bytes,
left-pad the decoded bytes with zero bytes to a 32-byte buffer. -/
def parse_hex_address_to_bytes (addr : String) : Option (List Nat) :=
  let addr_clean := strip0xAll (trimChars addr.toList)
  if addr_clean.isEmpty then none
  else
    let addr_str_normalized :=
      if addr_clean.length % 2 ≠ 0 then '0' :: addr_clean else addr_clean
    match hexDecodePairs addr_str_normalized with
    | none => none
    | some bytes =>
        if bytes.length > 32 then none
        else some (List.replicate (32 - bytes.length) 0 ++ bytes)

/-- Claim C7's description of the parser, taken literally: trim, strip a
(single) leading "0x" marker, pad odd length, decode, return `none` only
when the decoded byte string exceeds 32 bytes, and otherwise left-pad into
a 32-byte buffer.  (The claim does not cover undecodable strings; decode
failure is rendered as `none` here, as in the code.) -/
def c7ClaimSpec (addr : String) : Option (List Nat) :=
  let cleaned := strip0xOnce (trimChars addr.toList)
  let normalized := if cleaned.length % 2 ≠ 0 then '0' :: cleaned else cleaned
  match hexDecodePairs normalized with
  | none => none
  | some bytes =>
      if bytes.length > 32 then none
      else some (List.replicate (32 - bytes.length) 0 ++ bytes)

/-- Left-pad a byte string with zero bytes into a 32-byte buffer. -/
def leftPad32 (bytes : List Nat) : List Nat :=
  List.replicate (32 - bytes.length) 0 ++ bytes

/-- Pad odd-length hex with one zero nibble. -/
def padToEven (l : List Char) : List Char :=
  if l.length % 2 ≠ 0 then '0' :: l else l

/-- The amended description of the parser (claim C7 amended): like
`c7ClaimSpec` but stripping ALL leading "0x" markers and returning `none`
when the remainder is empty. -/
def c7AmendedSpec (addr : String) : Option (List Nat) :=
  let cleaned := strip0xAll (trimChars addr.toList)
  if cleaned.isEmpty then none
  else
    (hexDecodePairs (padToEven cleaned)).bind fun bytes =>
      if bytes.length ≤ 32 then some (leftPad32 bytes) else none

/-- Big-endian byte string to its numeric value (`AccountAddress::new` on
the 32-byte buffer, abstracted to the value it denotes). -/
def bytesToNat (bytes : List Nat) : Nat :=
  bytes.foldl (fun acc b => acc * 256 + b) 0

/-- Address parsing at the value level used throughout the orchestrator. -/
def parseHexAddr (addr : String) : Option Nat :=
  (parse_hex_address_to_bytes addr).map bytesToNat

/-! ## SHA-256 (the standard cryptographic hash used by `compute_manifest_digest`) -/

/-- 32-bit exclusive or (both arguments stay below 2^32 throughout). -/
def xor32 (x y : Nat) : Nat := x ^^^ y

def and32 (x y : Nat) : Nat := x &&& y

/-- 32-bit complement (arguments are kept below 2^32 throughout). -/
def not32 (x : Nat) : Nat := 4294967295 - x

/-- 32-bit rotate right (arithmetically: the low `n` bits wrap to the top). -/
def rotr32 (n x : Nat) : Nat := x / 2 ^ n + x % 2 ^ n * 2 ^ (32 - n)

/-- 32-bit addition. -/
def add32 (a b : Nat) : Nat := (a + b) % 4294967296

def bsig0 (x : Nat) : Nat := xor32 (xor32 (rotr32 2 x) (rotr32 13 x)) (rotr32 22 x)

def bsig1 (x : Nat) : Nat := xor32 (xor32 (rotr32 6 x) (rotr32 11 x)) (rotr32 25 x)

def ssig0 (x : Nat) : Nat := xor32 (xor32 (rotr32 7 x) (rotr32 18 x)) (x / 2 ^ 3)

def ssig1 (x : Nat) : Nat := xor32 (xor32 (rotr32 17 x) (rotr32 19 x)) (x / 2 ^ 10)

def chf (x y z : Nat) : Nat := xor32 (and32 x y) (and32 (not32 x) z)

def majf (x y z : Nat) : Nat := xor32 (xor32 (and32 x y) (and32 x z)) (and32 y z)

/-- Big-endian byte rendering of a value in `k` bytes. -/
def beBytes : Nat → Nat → List Nat
  | 0, _ => []
  | k + 1, v => beBytes k (v / 256) ++ [v % 256]

/-- SHA-256 padding: append 0x80, zero bytes to 56 mod 64, then the bit
length in 8 big-endian bytes. -/
def sha256Pad (msg : List Nat) : List Nat :=
  let len := msg.length
  let padZeros := (119 - len % 64) % 64
  msg ++ [128] ++ List.replicate padZeros 0 ++ beBytes 8 (len * 8)

/-- Group bytes into big-endian 32-bit words. -/
def bytesToWords : List Nat → List Nat
  | b0 :: b1 :: b2 :: b3 :: rest =>
      (((b0 * 256 + b1) * 256 + b2) * 256 + b3) :: bytesToWords rest
  | _ => []

/-- Split into 64-byte blocks (fuel-based structural recursion so that the
kernel can evaluate it; the fuel is the byte count, ample since every
step consumes 64 bytes). -/
def chunks64Fuel : Nat → List Nat → List (List Nat)
  | _, [] => []
  | 0, _ :: _ => []
  | f + 1, a :: rest => ((a :: rest).take 64) :: chunks64Fuel f ((a :: rest).drop 64)

def chunks64 (l : List Nat) : List (List Nat) := chunks64Fuel l.length l

/-- Extend the 16-word message schedule by `k` further words. -/
def schedExtend : Nat → List Nat → List Nat
  | 0, w => w
  | k + 1, w =>
      let i := w.length
      schedExtend k (w ++ [add32 (add32 (ssig1 (w.getD (i - 2) 0)) (w.getD (i - 7) 0))
        (add32 (ssig0 (w.getD (i - 15) 0)) (w.getD (i - 16) 0))])

def sha256K : List Nat :=
  [1116352408, 1899447441, 3049323471, 3921009573, 961987163, 1508970993,
   2453635748, 2870763221, 3624381080, 310598401, 607225278, 1426881987,
   1925078388, 2162078206, 2614888103, 3248222580, 3835390401, 4022224774,
   264347078, 604807628, 770255983, 1249150122, 1555081692, 1996064986,
   2554220882, 2821834349, 2952996808, 3210313671, 3336571891, 3584528711,
   113926993, 338241895, 666307205, 773529912, 1294757372, 1396182291,
   1695183700, 1986661051, 2177026350, 2456956037, 2730485921, 2820302411,
   3259730800, 3345764771, 3516065817, 3600352804, 4094571909, 275423344,
   430227734, 506948616, 659060556, 883997877, 958139571, 1322822218,
   1537002063, 1747873779, 1955562222, 2024104815, 2227730452, 2361852424,
   2428436474, 2756734187, 3204031479, 3329325298]

def sha256Init : List Nat :=
  [1779033703, 3144134277, 1013904242, 2773480762,
   1359893119, 2600822924, 528734635, 1541459225]

/-- One SHA-256 round on the 8-word working state. -/
def sha256Round (st : List Nat) (wk : Nat × Nat) : List Nat :=
  let a := st.getD 0 0
  let b := st.getD 1 0
  let c := st.getD 2 0
  let d := st.getD 3 0
  let e := st.getD 4 0
  let f := st.getD 5 0
  let g := st.getD 6 0
  let h := st.getD 7 0
  let t1 := add32 h (add32 (bsig1 e) (add32 (chf e f g) (add32 wk.2 wk.1)))
  let t2 := add32 (bsig0 a) (majf a b c)
  [add32 t1 t2, a, b, c, add32 d t1, e, f, g]

/-- Compress one 64-byte block into the hash state. -/
def sha256Block (h : List Nat) (block : List Nat) : List Nat :=
  let w := schedExtend 48 (bytesToWords block)
  let st := (w.zip sha256K).foldl sha256Round h
  (h.zip st).map fun p => add32 p.1 p.2

/-- SHA-256 of a byte string, as 32 bytes. -/
def sha256 (msg : List Nat) : List Nat :=
  let hs := (chunks64 (sha256Pad msg)).foldl sha256Block sha256Init
  hs.foldr (fun w acc => beBytes 4 w ++ acc) []

def hexDigitUpper (n : Nat) : Char :=
  "0123456789ABCDEF".toList.getD n '0'

/-- Render bytes as uppercase hex (`format!("{:X}", hash)`). -/
def toUpperHex (bytes : List Nat) : String :=
  String.mk (bytes.foldr (fun b acc => hexDigitUpper (b / 16) :: hexDigitUpper (b % 16) :: acc) [])

/-- UTF-8 bytes of a string (ASCII scope: all strings hashed here are
ASCII, where code points coincide with UTF-8 bytes). -/
def strBytes (s : String) : List Nat := s.toList.map Char.toNat

/-! ## `compute_manifest_digest` (`src/sui-move-wasm/src/lib.rs`, lines 1219-1386) -/

/-- One parsed entry of the `depsJson` input's `deps` array (the `DepInfo`
struct deserialized by the code; `local` is a Rust field name rendered here
as `localPath`). -/
structure DepInfo where
  name : String
  git : Option String
  subdir : Option String
  rev : Option String
  localPath : Option String
  useEnvironment : Option String
deriving DecidableEq

/-- `ManifestDependencyInfo`: externally tagged `Git`/`Local` variants. -/
inductive ManifestDepKind
  | gitDep (repo : String) (rev : Option String) (subdir : String)
  | localDep (path : String)
deriving DecidableEq

/-- `DefaultDependency` (kebab-case field names at serialization). -/
structure DefaultDependency where
  dependencyInfo : ManifestDepKind
  isOverride : Bool
  renameFrom : Option String
  modes : Option (List String)
deriving DecidableEq

/-- `ReplacementDependency`. -/
structure ReplacementDependency where
  dependency : Option DefaultDependency
  addresses : Option (List (String × String))
  useEnvironment : Option String
deriving DecidableEq

/-- How `compute_manifest_digest` turns one `DepInfo` into the
`ReplacementDependency` map value: a git entry if `git` is set, else a
local entry if `local` is set, else no dependency info; `override`,
`rename_from`, `modes` and `addresses` are always `false`/`None`. -/
def depToReplacement (d : DepInfo) : ReplacementDependency :=
  match d.git with
  | some repo =>
      { dependency := some
          { dependencyInfo := ManifestDepKind.gitDep repo d.rev (d.subdir.getD "")
            isOverride := false, renameFrom := none, modes := none }
        addresses := none, useEnvironment := d.useEnvironment }
  | none =>
      match d.localPath with
      | some p =>
          { dependency := some
              { dependencyInfo := ManifestDepKind.localDep p
                isOverride := false, renameFrom := none, modes := none }
            addresses := none, useEnvironment := d.useEnvironment }
      | none => { dependency := none, addresses := none, useEnvironment := d.useEnvironment }

/-- Byte-lexicographic strict order on strings (Rust `String` `Ord`,
ASCII scope). -/
def lexLtNat : List Nat → List Nat → Bool
  | [], [] => false
  | [], _ :: _ => true
  | _ :: _, [] => false
  | a :: as, b :: bs => if a < b then true else if b < a then false else lexLtNat as bs

def strLtBool (a b : String) : Bool :=
  lexLtNat (a.toList.map Char.toNat) (b.toList.map Char.toNat)

/-- Insertion into a key-sorted association list: the `BTreeMap` used by
`compute_manifest_digest` keyed by dependency name, with ascending
byte-lexicographic iteration order and overwrite on an existing key. -/
def smInsert : List (String × ReplacementDependency) → String → ReplacementDependency →
    List (String × ReplacementDependency)
  | [], k, v => [(k, v)]
  | (k', v') :: rest, k, v =>
      if strLtBool k k' then (k, v) :: (k', v') :: rest
      else if strLtBool k' k then (k', v') :: smInsert rest k v
      else (k, v) :: rest

/-- Modelled from the spec: the fixed, deterministic textual encoding
(`toml_edit::ser::to_string` of `RepinTriggers`, external to the
repository) of one map entry, with the lock-file schema's field names;
`None`-valued optional fields are omitted, as TOML serialization of
`Option` fields does. -/
def serializeReplacement (name : String) (rd : ReplacementDependency) : String :=
  "[deps." ++ name ++ "]\n"
  ++ (match rd.dependency with
      | none => ""
      | some dd =>
          "override = " ++ (if dd.isOverride then "true" else "false") ++ "\n"
          ++ (match dd.renameFrom with
              | some r => "rename-from = \x22" ++ r ++ "\x22\n"
              | none => "")
          ++ (match dd.modes with
              | some ms => "modes = [" ++ String.intercalate ", "
                  (ms.map (fun m => "\x22" ++ m ++ "\x22")) ++ "]\n"
              | none => "")
          ++ (match dd.dependencyInfo with
              | ManifestDepKind.gitDep repo rev subdir =>
                  "[deps." ++ name ++ ".Git]\ngit = \x22" ++ repo ++ "\x22\n"
                  ++ (match rev with
                      | some r => "rev = \x22" ++ r ++ "\x22\n"
                      | none => "")
                  ++ "subdir = \x22" ++ subdir ++ "\x22\n"
              | ManifestDepKind.localDep p =>
                  "[deps." ++ name ++ ".Local]\nlocal = \x22" ++ p ++ "\x22\n"))
  ++ (match rd.addresses with
      | some addrs => String.join (addrs.map (fun a => a.1 ++ " = \x22" ++ a.2 ++ "\x22\n"))
      | none => "")
  ++ (match rd.useEnvironment with
      | some e => "use-environment = \x22" ++ e ++ "\x22\n"
      | none => "")

/-- The name-keyed map built by `compute_manifest_digest` (`BTreeMap`
insertion: later entries with the same name overwrite earlier ones). -/
def buildDepsMap (deps : List DepInfo) : List (String × ReplacementDependency) :=
  deps.foldl (fun m d => smInsert m d.name (depToReplacement d)) []

/-- Serialization of the whole `RepinTriggers` map: entries in ascending
key order (`BTreeMap` iteration order, maintained by `smInsert`). -/
def serializeTriggers (m : List (String × ReplacementDependency)) : String :=
  String.join (m.map fun p => serializeReplacement p.1 p.2)

/-- `compute_manifest_digest`: `none` models input that fails to parse as
the structured `{deps: [...]}` form (the legacy plain-string-array
fallback path is not modelled); otherwise the canonical map is built,
serialized, SHA-256 hashed, and rendered as uppercase hex. -/
def compute_manifest_digest (input : Option (List DepInfo)) : String :=
  match input with
  | none => ""
  | some deps => toUpperHex (sha256 (strBytes (serializeTriggers (buildDepsMap deps))))

/-! ## Data model of `compile_impl` (`src/sui-move-wasm/src/lib.rs`) -/

/-- `Edition` (closed set, `parse_edition` defaults to legacy). -/
inductive Edition
  | legacy
  | e2024Alpha
  | e2024Beta
deriving DecidableEq

/-- `parse_edition`. -/
def parse_edition (s : String) : Edition :=
  if s = "legacy" then Edition.legacy
  else if s = "2024" ∨ s = "2024.alpha" then Edition.e2024Alpha
  else if s = "2024.beta" then Edition.e2024Beta
  else Edition.legacy

/-- A decoded entry of `dependenciesJson` (the `PackageGroup` struct). -/
structure PackageGroup where
  name : String
  files : List (String × String)
  edition : Option String
  addressMapping : Option (List (String × String))
  publishedIdForOutput : Option String
deriving DecidableEq

/-- Decoded `optionsJson` (`CompileOptions`). -/
structure CompileOptions where
  silenceWarnings : Bool
  testMode : Bool
  lintFlag : Option String
deriving DecidableEq

/-- `CompileOptions::default()`. -/
def defaultOptions : CompileOptions :=
  { silenceWarnings := false, testMode := false, lintFlag := none }

/-- The fields of a parsed `SourceManifest` the orchestrator reads. -/
structure ManifestPackageInfo where
  name : String
  edition : Option String
  publishedAt : Option String
deriving DecidableEq

/-- Parsed package manifest (`SourceManifest` from `manifest.rs`, restricted
to the fields `compile_impl` consumes; `addresses` entries may be
unresolved, i.e. `none`). -/
structure SourceManifest where
  package : ManifestPackageInfo
  addresses : Option (List (String × Option String))
deriving DecidableEq

/-- `PackageConfig` as constructed by the orchestrator (flavor is always
Sui and the remaining fields are defaults; only these two vary). -/
structure PackageConfig where
  isDependency : Bool
  edition : Edition
deriving DecidableEq

/-- `PackagePaths`: one package group handed to the compiler service. -/
structure PackagePaths where
  name : String
  config : PackageConfig
  paths : List String
  namedAddressMap : List (String × Nat)
deriving DecidableEq

/-- One compiled unit (`AnnotatedCompiledModule`) as the orchestrator
observes it: owning package name, module identifier (address, name),
immediately imported module identifiers, test attribute, per-function
test attributes, and serialized bytecode. -/
structure CUnit where
  packageName : Option String
  addr : Nat
  name : String
  deps : List (Nat × String)
  isTestAttr : Bool
  functionInfos : List (String × Bool)
  bytes : List Nat
deriving DecidableEq

/-- `ModuleId` of a unit (`self_id()`). -/
def unitId (u : CUnit) : Nat × String := (u.addr, u.name)

/-- `FnInfoMap`: (function name, module address) to `is_test`. -/
abbrev FnInfoMap := List ((String × Nat) × Bool)

/-- `fn_info` (lines 168-180): a module-level test attribute propagates to
all of the module's functions. -/
def fn_info (units : List CUnit) : FnInfoMap :=
  units.foldl
    (fun m u => u.functionInfos.foldl
      (fun m' p => alInsert m' (p.1, u.addr) (u.isTestAttr || p.2)) m) []

/-- The outcomes of the opaque compiler service (`Compiler::from_package_paths`
failure, `compiler.build()` failure, rendered diagnostics, or compiled
units). -/
inductive CompilerOutcome
  | createErr (e : String)
  | buildErr (e : String)
  | diagErr (buf : String)
  | ok (units : List CUnit)

/-- The `output` JSON object on success (modules kept as raw serialized
bytes; base64 rendering is injective plumbing). `dependencies` are the
address values later rendered canonically. -/
structure CompilationOutput where
  modules : List (List Nat)
  dependencies : List Nat
  digest : List Nat
deriving DecidableEq

/-- `MoveCompilerResult`: success with the structured output or failure
with a diagnostic string. -/
inductive CompileResult
  | failure (output : String)
  | success (output : CompilationOutput)
deriving DecidableEq

def CompileResult.isSuccess : CompileResult → Bool
  | CompileResult.failure _ => false
  | CompileResult.success _ => true

/-- The opaque external collaborators of the orchestrator: JSON decoding
(serde), TOML parsing (toml crate), the Move compiler (with the testing
flag), the generic and Sui bytecode verifiers, the topological-order
utility (`Modules::compute_topological_order`), and the canonical package
digest (`MovePackage::compute_digest_for_modules_and_deps`). -/
structure Services where
  parseFiles : String → Except String (List (String × String))
  parseDeps : String → Except String (List PackageGroup)
  parseOptions : String → Option CompileOptions
  parseToml : String → Option SourceManifest
  compilerRun : List PackagePaths → Bool → CompilerOutcome
  genVerify : CUnit → Option String
  suiVerify : CUnit → FnInfoMap → Option String
  topoOrder : List CUnit → Except String (List (Nat × String))
  pkgDigest : List (List Nat) → List Nat → List Nat

/-- The unit loop of `verify_bytecode` (lines 187-198): each unit passes
the generic verifier; the Sui verifier runs only when not in test mode;
the first failure aborts with its message prefix. -/
def verifyUnits (sv : Services) (fi : FnInfoMap) (test_mode : Bool) :
    List CUnit → Option String
  | [] => none
  | u :: us =>
      match sv.genVerify u with
      | some e => some ("Module Verification Failure: " ++ e)
      | none =>
          if test_mode then verifyUnits sv fi test_mode us
          else
            match sv.suiVerify u fi with
            | some e => some ("Sui Module Verification Failure: " ++ e)
            | none => verifyUnits sv fi test_mode us

/-- `verify_bytecode` (lines 183-199). -/
def verify_bytecode (sv : Services) (units : List CUnit) (fi : FnInfoMap)
    (test_mode : Bool) : Option String :=
  verifyUnits sv fi test_mode units

/-! ## Manifest resolution and address binding (lines 394-647) -/

/-- Building a named-address map from a manifest address table: unresolved
or unparseable entries are skipped. -/
def manifestAddrMap : List (String × Option String) → List (String × Nat) → List (String × Nat)
  | [], m => m
  | (name, addrOpt) :: rest, m =>
      match addrOpt with
      | some addrStr =>
          match parseHexAddr addrStr with
          | some n => manifestAddrMap rest (alInsert m name n)
          | none => manifestAddrMap rest m
      | none => manifestAddrMap rest m

/-- Root manifest resolution (lines 394-440): package name, edition and
named-address table, with silently-empty defaults on a missing or
unparseable manifest.  (The `published-at` value is parsed into an unused
binding and has no downstream effect; it is elided here.) -/
structure RootInfo where
  packageName : String
  edition : Edition
  namedMap : List (String × Nat)

def resolveRoot (sv : Services) (files : List (String × String)) : RootInfo :=
  match alLookup files "Move.toml" with
  | none => ⟨"root", Edition.legacy, []⟩
  | some content =>
      match sv.parseToml content with
      | none => ⟨"root", Edition.legacy, []⟩
      | some manifest =>
          { packageName := manifest.package.name
            edition :=
              match manifest.package.edition with
              | some e => parse_edition e
              | none => Edition.legacy
            namedMap :=
              match manifest.addresses with
              | some addrs => manifestAddrMap addrs []
              | none => [] }

/-- The `addressMapping` branch for a dependency group (lines 497-508):
build the named-address map from the supplied mapping and take the first
parseable entry named like the package as its compilation address. -/
def mappingFold (pkgName : String) : List (String × String) → List (String × Nat) → Option Nat →
    List (String × Nat) × Option Nat
  | [], m, fb => (m, fb)
  | (name, addrStr) :: rest, m, fb =>
      match parseHexAddr addrStr with
      | some n =>
          mappingFold pkgName rest (alInsert m name n)
            (if name = pkgName ∧ fb = none then some n else fb)
      | none => mappingFold pkgName rest m fb

/-- The manifest branch for a dependency group (lines 509-567): parse the
group's own `Move.toml`; the compilation address (`fallback_dep_id`) is
the manifest's own-name address entry if it parses, else the parsed
`published-at` value; the named-address map collects every parseable
address entry. -/
def resolveGroupManifest (sv : Services) (g : PackageGroup) :
    List (String × Nat) × Edition × Option Nat :=
  match g.files.find? (fun p => strEndsWith p.1 "Move.toml") with
  | none => ([], Edition.legacy, none)
  | some tomlEntry =>
      match sv.parseToml tomlEntry.2 with
      | none => ([], Edition.legacy, none)
      | some manifest =>
          let edition :=
            match manifest.package.edition with
            | some e => parse_edition e
            | none => Edition.legacy
          let publishedAt :=
            match manifest.package.publishedAt with
            | some s => parseHexAddr s
            | none => none
          let ownStep : Option Nat × Bool :=
            match manifest.addresses with
            | some addrs =>
                match alLookup addrs g.name with
                | some (some addrStr) =>
                    match parseHexAddr addrStr with
                    | some n => (some n, true)
                    | none => (none, false)
                | _ => (none, false)
            | none => (none, false)
          let fallback :=
            if ownStep.2 then ownStep.1
            else
              match publishedAt, ownStep.1 with
              | some b, none => some b
              | _, f => f
          let nmap :=
            match manifest.addresses with
            | some addrs => manifestAddrMap addrs []
            | none => []
          (nmap, edition, fallback)

/-- Per-group resolution: the supplied `addressMapping` bypasses manifest
parsing when present. -/
def resolveGroup (sv : Services) (g : PackageGroup) :
    List (String × Nat) × Edition × Option Nat :=
  match g.addressMapping with
  | some am =>
      let r := mappingFold g.name am [] none
      (r.1, Edition.legacy, r.2)
  | none => resolveGroupManifest sv g

/-- The group's local named-address map. -/
def groupNamedMap (sv : Services) (g : PackageGroup) : List (String × Nat) :=
  (resolveGroup sv g).1

/-- The group's compilation address (`fallback_dep_id`). -/
def groupCompId (sv : Services) (g : PackageGroup) : Option Nat :=
  (resolveGroup sv g).2.2

/-- The group's output address (`dep_id_for_output` after the fallback
assignment): a parseable `publishedIdForOutput` takes priority, else the
compilation address. -/
def groupOutId (sv : Services) (g : PackageGroup) : Option Nat :=
  match g.publishedIdForOutput with
  | some s =>
      match parseHexAddr s with
      | some n => some n
      | none => groupCompId sv g
  | none => groupCompId sv g

/-- Merging a dependency's named-address map into the root map: only
symbols not yet bound are added (first-seen-wins; root wins). -/
def mergeAbsent : List (String × Nat) → List (String × Nat) → List (String × Nat)
  | base, [] => base
  | base, (k, v) :: rest =>
      if (alLookup base k).isSome then mergeAbsent base rest
      else mergeAbsent (base ++ [(k, v)]) rest

/-- Accumulator of the per-dependency loop (lines 474-635). -/
structure DepAccum where
  depPaths : List PackagePaths
  depIds : List Nat
  c2o : List (Nat × Nat)
  known : List Nat
  rootMap : List (String × Nat)

/-- One iteration of the dependency loop: resolve the group, apply the
edition override, collect its `.move` files, record its output identifier
(deduplicated, caller order), record compilation-to-output and the known
compilation address, merge its named addresses into the root map, and push
its `PackagePaths` with `is_dependency = true`. -/
def processGroup (sv : Services) (acc : DepAccum) (g : PackageGroup) : DepAccum :=
  let edition :=
    match g.edition with
    | some e => parse_edition e
    | none => (resolveGroup sv g).2.1
  let depFiles := (g.files.map Prod.fst).filter
    (fun n => !strEndsWith n "Move.toml" && strEndsWith n ".move")
  let depIdForOutput := groupOutId sv g
  let depIds :=
    match depIdForOutput with
    | some n => if n ∈ acc.depIds then acc.depIds else acc.depIds ++ [n]
    | none => acc.depIds
  let c2oKnown :=
    match groupCompId sv g, depIdForOutput with
    | some c, some o => (alInsert acc.c2o c o, addIfAbsent acc.known c)
    | some c, none => (alInsert acc.c2o c c, addIfAbsent acc.known c)
    | none, _ => (acc.c2o, acc.known)
  { depPaths := acc.depPaths ++
      [{ name := g.name, config := { isDependency := true, edition := edition },
         paths := depFiles, namedAddressMap := groupNamedMap sv g }]
    depIds := depIds
    c2o := c2oKnown.1
    known := c2oKnown.2
    rootMap := mergeAbsent acc.rootMap (groupNamedMap sv g) }

def processGroups (sv : Services) : DepAccum → List PackageGroup → DepAccum
  | acc, [] => acc
  | acc, g :: gs => processGroups sv (processGroup sv acc g) gs

def initAccum (ri : RootInfo) : DepAccum :=
  { depPaths := [], depIds := [], c2o := [], known := [], rootMap := ri.namedMap }

/-- The dependency-loop result for an invocation. -/
def depAccumOf (sv : Services) (files : List (String × String))
    (deps : List PackageGroup) : DepAccum :=
  processGroups sv (initAccum (resolveRoot sv files)) deps

/-- Framework fallbacks (lines 637-647): bind `std` to 0x1 and `sui` to
0x2 only when still absent after all merges. -/
def addFrameworkFallbacks (m : List (String × Nat)) : List (String × Nat) :=
  let m1 :=
    if (alLookup m "std").isSome then m
    else
      match parseHexAddr "0x1" with
      | some n => m ++ [("std", n)]
      | none => m
  if (alLookup m1 "sui").isSome then m1
  else
    match parseHexAddr "0x2" with
    | some n => m1 ++ [("sui", n)]
    | none => m1

/-- Sort key for root target files: files outside `tests/` before files
inside it, then byte-lexicographic (lines 457-464). -/
def pathWeight (s : String) : Nat := if strStartsWith s "tests/" then 1 else 0

def lexLeNat : List Nat → List Nat → Bool
  | [], _ => true
  | _ :: _, [] => false
  | a :: as, b :: bs => if a < b then true else if b < a then false else lexLeNat as bs

def pathLeBool (a b : String) : Bool :=
  if pathWeight a < pathWeight b then true
  else if pathWeight b < pathWeight a then false
  else lexLeNat (a.toList.map Char.toNat) (b.toList.map Char.toNat)

def pathLe (a b : String) : Prop := pathLeBool a b = true

instance : DecidableRel pathLe := fun a b => by
  unfold pathLe; infer_instance

/-- Root target file list (lines 442-464): `.move` files of `filesJson`
that are not `Move.toml` and not paths of any dependency group, sorted. -/
def rootTargetsOf (files : List (String × String)) (deps : List PackageGroup) : List String :=
  let depPathsAll := (deps.map (fun g => g.files.map Prod.fst)).flatten
  let raw := (files.map Prod.fst).filter
    (fun n => !strEndsWith n "Move.toml" && strEndsWith n ".move" && !(depPathsAll.contains n))
  List.insertionSort pathLe raw

/-- The full target list handed to the compiler service: the root group
(`is_dependency = false`, merged named-address map with framework
fallbacks) followed by the dependency groups in caller order (lines
649-666). -/
def assemble_targets (sv : Services) (files : List (String × String))
    (deps : List PackageGroup) : List PackagePaths :=
  let ri := resolveRoot sv files
  let acc := depAccumOf sv files deps
  { name := "root", config := { isDependency := false, edition := ri.edition },
    paths := rootTargetsOf files deps,
    namedAddressMap := addFrameworkFallbacks acc.rootMap } :: acc.depPaths

/-! ## Usage-based dependency pruning (tree shaking, lines 711-834) -/

/-- A unit belongs to the root package when its package name is "root",
the manifest-declared root package name, or unset (lines 739-740). -/
def isRootUnit (rootName : String) (u : CUnit) : Bool :=
  let pkg := u.packageName.getD ""
  pkg == "root" || pkg == rootName || u.packageName.isNone

/-- The traversal environment: all compiled units, the known
compilation addresses of published dependencies, and the
compilation-to-output address map. -/
structure ShakeEnv where
  units : List CUnit
  published : List Nat
  c2o : List (Nat × Nat)

/-- The traversal state: kept output addresses, visited compilation
addresses, the published-address worklist (stack), and visited source
module ids. -/
structure ShakeState where
  kept : List Nat
  visComp : List Nat
  pubWl : List Nat
  visSrc : List (Nat × String)
deriving DecidableEq

/-- The source branch of phase 1 (lines 782-795): scan all units for ones
whose id equals the imported id; each unseen match is marked visited and
appended to the next batch. -/
def srcScan (d : Nat × String) : List CUnit → ShakeState → List CUnit → ShakeState × List CUnit
  | [], st, acc => (st, acc)
  | v :: rest, st, acc =>
      if unitId v = d then
        if d ∈ st.visSrc then srcScan d rest st acc
        else srcScan d rest { st with visSrc := d :: st.visSrc } (acc ++ [v])
      else srcScan d rest st acc

/-- Processing one import edge in phase 1 (lines 764-796): an import of a
known published compilation address inserts its output address into the
kept set and, only when that insertion is new, enqueues the compilation
address for phase 2; any other import is chased among the compiled units. -/
def procDep (env : ShakeEnv) (st : ShakeState) (acc : List CUnit) (d : Nat × String) :
    ShakeState × List CUnit :=
  if d.1 ∈ env.published then
    match alLookup env.c2o d.1 with
    | some out =>
        if out ∈ st.kept then (st, acc)
        else
          let st1 := { st with kept := out :: st.kept }
          if d.1 ∈ st1.visComp then (st1, acc)
          else ({ st1 with visComp := d.1 :: st1.visComp, pubWl := d.1 :: st1.pubWl }, acc)
    | none => (st, acc)
  else srcScan d env.units st acc

def procDeps (env : ShakeEnv) : ShakeState → List CUnit → List (Nat × String) →
    ShakeState × List CUnit
  | st, acc, [] => (st, acc)
  | st, acc, d :: ds =>
      let r := procDep env st acc d
      procDeps env r.1 r.2 ds

/-- Processing one batch of the phase-1 worklist (`split_off(0)`): every
unit's import edges in order; new units accumulate into the next batch. -/
def procBatch (env : ShakeEnv) : ShakeState → List CUnit → List CUnit →
    ShakeState × List CUnit
  | st, acc, [] => (st, acc)
  | st, acc, u :: us =>
      let r := procDeps env st acc u.deps
      procBatch env r.1 r.2 us

/-- Phase 1: the root-rooted traversal loop (lines 757-798).  The fuel
argument bounds loop iterations; `tree_shake` supplies enough fuel for the
loop to reach its natural exit (each iteration that recurses marks at
least one previously unvisited unit id). -/
def phase1 (env : ShakeEnv) : Nat → ShakeState → List CUnit → ShakeState
  | 0, st, _ => st
  | _ + 1, st, [] => st
  | fuel + 1, st, u :: us =>
      let r := procBatch env st [] (u :: us)
      phase1 env fuel r.1 r.2

/-- One import edge in phase 2 (lines 809-821): identical to the published
branch of phase 1. -/
def procPubDep (env : ShakeEnv) (st : ShakeState) (d : Nat × String) : ShakeState :=
  if d.1 ∈ env.published then
    match alLookup env.c2o d.1 with
    | some out =>
        if out ∈ st.kept then st
        else
          let st1 := { st with kept := out :: st.kept }
          if d.1 ∈ st1.visComp then st1
          else { st1 with visComp := d.1 :: st1.visComp, pubWl := d.1 :: st1.pubWl }
    | none => st
  else st

def procPubDeps (env : ShakeEnv) : ShakeState → List (Nat × String) → ShakeState
  | st, [] => st
  | st, d :: ds => procPubDeps env (procPubDep env st d) ds

/-- Scanning all units for those owned by a popped published compilation
address (lines 804-823). -/
def pubScan (env : ShakeEnv) (addr : Nat) : ShakeState → List CUnit → ShakeState
  | st, [] => st
  | st, u :: us =>
      if u.addr = addr then pubScan env addr (procPubDeps env st u.deps) us
      else pubScan env addr st us

/-- Phase 2: the published-to-published closure loop (lines 800-824),
popping from the published-address worklist until it is empty. -/
def phase2 (env : ShakeEnv) : Nat → ShakeState → ShakeState
  | 0, st => st
  | fuel + 1, st =>
      match st.pubWl with
      | [] => st
      | addr :: rest =>
          phase2 env fuel (pubScan env addr { st with pubWl := rest } env.units)

def rootUnitsOf (units : List CUnit) (rootName : String) : List CUnit :=
  units.filter (isRootUnit rootName)

def initVisSrc : List CUnit → List (Nat × String) → List (Nat × String)
  | [], vs => vs
  | u :: us, vs => initVisSrc us (if unitId u ∈ vs then vs else unitId u :: vs)

/-- The tree shaker: seed with the root units, run the two phases, return
the kept output addresses. -/
def tree_shake (units : List CUnit) (rootName : String) (known : List Nat)
    (c2o : List (Nat × Nat)) : List Nat :=
  let env : ShakeEnv := ⟨units, known, c2o⟩
  let roots := rootUnitsOf units rootName
  let st0 : ShakeState := ⟨[], [], [], initVisSrc roots []⟩
  let st1 := phase1 env (units.length + 1) st0 roots
  let st2 := phase2 env (env.published.length + st1.pubWl.length + 1) st1
  st2.kept

/-! ## Module ordering and the result assembly (lines 846-933) -/

/-- First pass of the reordering (lines 884-890): for every id of the
topological order, append the first matching root module. -/
def reorderFirst (module_infos : List CUnit) : List (Nat × String) → List CUnit → List CUnit
  | [], out => out
  | id :: ids, out =>
      match module_infos.find? (fun u => unitId u == id) with
      | some u => reorderFirst module_infos ids (out ++ [u])
      | none => reorderFirst module_infos ids out

/-- Second pass (lines 891-895): append, in encounter order, every root
module whose id the first pass did not cover. -/
def reorderAppend : List CUnit → List CUnit → List CUnit
  | out, [] => out
  | out, u :: us =>
      if out.any (fun v => unitId v == unitId u) then reorderAppend out us
      else reorderAppend (out ++ [u]) us

def reorderModules (module_infos : List CUnit) (orderedIds : List (Nat × String)) : List CUnit :=
  reorderAppend (reorderFirst module_infos orderedIds []) module_infos

/-- The orchestrator body after input decoding (`compile_impl` lines
394-943): resolve the root manifest, run the dependency loop, assemble the
target groups, invoke the compiler service, verify bytecode, tree-shake,
filter and sort the dependency identifiers, order the root modules, and
produce the output with the canonical digest. -/
def compile_core (sv : Services) (files : List (String × String))
    (deps : List PackageGroup) (options : CompileOptions) : CompileResult :=
  let ri := resolveRoot sv files
  let acc := depAccumOf sv files deps
  match sv.compilerRun (assemble_targets sv files deps) options.testMode with
  | CompilerOutcome.createErr e => CompileResult.failure ("Failed to create compiler: " ++ e)
  | CompilerOutcome.buildErr e => CompileResult.failure ("Compiler initialization error: " ++ e)
  | CompilerOutcome.diagErr buf => CompileResult.failure buf
  | CompilerOutcome.ok units =>
      match verify_bytecode sv units (fn_info units) options.testMode with
      | some e => CompileResult.failure ("Bytecode Verification Failed: " ++ e)
      | none =>
          let kept := tree_shake units ri.packageName acc.known acc.c2o
          let dependency_ids_vec :=
            List.insertionSort (α := Nat) (· ≤ ·) (acc.depIds.filter (fun b => kept.contains b))
          let module_infos := units.filter (isRootUnit ri.packageName)
          match sv.topoOrder module_infos with
          | Except.error e => CompileResult.failure ("Failed to compute module ordering: " ++ e)
          | Except.ok orderedIds =>
              let ordered := reorderModules module_infos orderedIds
              let module_bytes := ordered.map CUnit.bytes
              CompileResult.success
                { modules := module_bytes
                  dependencies := dependency_ids_vec
                  digest := sv.pkgDigest module_bytes dependency_ids_vec }

/-- `setup_vfs` (lines 302-367), input-decoding part: `filesJson` must
decode; an empty `dependenciesJson` decodes to no groups, a non-empty one
must decode.  (Staging the files into the in-memory filesystem is pure
storage plumbing with no effect on the orchestrator's outputs and is
elided.) -/
def setup_vfs (sv : Services) (filesJson depsJson : String) :
    Except String (List (String × String) × List PackageGroup) :=
  match sv.parseFiles filesJson with
  | Except.error e => Except.error ("Failed to parse files JSON: " ++ e)
  | Except.ok files =>
      match (if depsJson = "" then Except.ok [] else sv.parseDeps depsJson) with
      | Except.error e => Except.error ("Failed to parse dependencies JSON: " ++ e)
      | Except.ok deps => Except.ok (files, deps)

/-- `compile_impl` (lines 369-943): options decode leniently to defaults;
`setup_vfs` failures become immediate failure results; otherwise the core
runs. -/
def compile_impl (sv : Services) (filesJson depsJson : String)
    (optionsJson : Option String) : CompileResult :=
  let options := (optionsJson.bind sv.parseOptions).getD defaultOptions
  match setup_vfs sv filesJson depsJson with
  | Except.error e => CompileResult.failure e
  | Except.ok fd => compile_core sv fd.1 fd.2 options

/-! ## Declarative reachability (the claims' traversal notion) -/

/-- A compiled unit is source-reachable when it is a root unit or is the
target of an import edge from a source-reachable unit whose address is not
a known published compilation address (the phase-1 source chains). -/
inductive ReachSrc (env : ShakeEnv) (rootName : String) : CUnit → Prop
  | root (u : CUnit) : u ∈ env.units → isRootUnit rootName u = true → ReachSrc env rootName u
  | step (u : CUnit) (d : Nat × String) (v : CUnit) :
      ReachSrc env rootName u → d ∈ u.deps → d.1 ∉ env.published →
      v ∈ env.units → unitId v = d → ReachSrc env rootName v

/-- A published compilation address is reachable when an import edge from a
source-reachable unit targets it (phase 1), or an import edge from a unit
owned by a reachable published address targets it (phase 2). -/
inductive ReachPub (env : ShakeEnv) (rootName : String) : Nat → Prop
  | ofSrc (u : CUnit) (d : Nat × String) :
      ReachSrc env rootName u → d ∈ u.deps → d.1 ∈ env.published →
      ReachPub env rootName d.1
  | step (p : Nat) (v : CUnit) (d : Nat × String) :
      ReachPub env rootName p → v ∈ env.units → v.addr = p → d ∈ v.deps →
      d.1 ∈ env.published → ReachPub env rootName d.1

/-! ## Statement-level helper definitions -/

/-- Left-biased choice on options (used to state lookup laws). -/
def optOr (a b : Option α) : Option α :=
  match a with
  | some v => some v
  | none => b

/-- The address bound to a symbol by the first dependency group (in caller
order) that declares it. -/
def firstGroupAddr (sv : Services) (gs : List PackageGroup) (sym : String) : Option Nat :=
  gs.findSome? fun g => alLookup (groupNamedMap sv g) sym

/-- The parsed manifest of a dependency group (first `Move.toml`-suffixed
file, handed to the TOML parser). -/
def groupManifestOf (sv : Services) (g : PackageGroup) : Option SourceManifest :=
  (g.files.find? fun p => strEndsWith p.1 "Move.toml").bind fun e => sv.parseToml e.2

/-- Claim C5's description of a dependency's compilation address: the
manifest's own-name address entry when that entry is present and non-zero,
else the published-at address when present. -/
def c5ClaimSpec (pkgName : String) (manifest : SourceManifest) : Option Nat :=
  let own : Option Nat :=
    match manifest.addresses with
    | some addrs =>
        match alLookup addrs pkgName with
        | some (some s) => parseHexAddr s
        | _ => none
    | none => none
  match own with
  | some n =>
      if n ≠ 0 then some n
      else
        match manifest.package.publishedAt with
        | some s => parseHexAddr s
        | none => none
  | none =>
      match manifest.package.publishedAt with
      | some s => parseHexAddr s
      | none => none

/-- The amended description (claim C5 amended): the own-name entry wins
whenever it parses, with no zero test; otherwise the published-at address. -/
def c5AmendedSpec (pkgName : String) (manifest : SourceManifest) : Option Nat :=
  let own : Option Nat :=
    match manifest.addresses with
    | some addrs =>
        match alLookup addrs pkgName with
        | some (some s) => parseHexAddr s
        | _ => none
    | none => none
  match own with
  | some n => some n
  | none =>
      match manifest.package.publishedAt with
      | some s => parseHexAddr s
      | none => none

/-! ## Concrete instances used by witnesses and counterexamples

The opaque services are instantiated with concrete functions; the compiler
instances return fixed unit lists, matching runs the real toolchain can
produce (the spec's end-to-end scenario in section 8). -/

/-- A service bundle whose compiler returns the given units and whose
verifiers pass; parsers return fixed decoded values. -/
def exServices (units : List CUnit) : Services :=
  { parseFiles := fun _ => Except.ok [("sources/a.move", "module a {}")]
    parseDeps := fun _ => Except.ok []
    parseOptions := fun _ => none
    parseToml := fun _ => none
    compilerRun := fun _ _ => CompilerOutcome.ok units
    genVerify := fun _ => none
    suiVerify := fun _ _ => none
    topoOrder := fun _ => Except.ok []
    pkgDigest := fun _ _ => [] }

def exFiles : List (String × String) := [("sources/a.move", "module a {}")]

/-- C1: one root module importing address 0x10. -/
def c1Root : CUnit :=
  { packageName := some "root", addr := 153, name := "m", deps := [(16, "x")]
    isTestAttr := false, functionInfos := [], bytes := [] }

/-- C1: two dependency groups that determine the same compilation address
0x10 but different output addresses (0x21 vs 0x22). -/
def c1GroupA : PackageGroup :=
  { name := "A", files := [], edition := none
    addressMapping := some [("A", "0x10")], publishedIdForOutput := some "0x21" }

def c1GroupB : PackageGroup :=
  { name := "B", files := [], edition := none
    addressMapping := some [("B", "0x10")], publishedIdForOutput := some "0x22" }

def c1Services : Services := exServices [c1Root]

/-- C2: root imports C's module first and A's module second; A's module
imports B's module; C and A share the output address 0x30. -/
def c2Root : CUnit :=
  { packageName := some "root", addr := 153, name := "m"
    deps := [(17, "c"), (16, "a")]
    isTestAttr := false, functionInfos := [], bytes := [] }

def c2UnitA : CUnit :=
  { packageName := some "A", addr := 16, name := "a", deps := [(18, "b")]
    isTestAttr := false, functionInfos := [], bytes := [] }

def c2UnitC : CUnit :=
  { packageName := some "C", addr := 17, name := "c", deps := []
    isTestAttr := false, functionInfos := [], bytes := [] }

def c2Units : List CUnit := [c2Root, c2UnitA, c2UnitC]

def c2GroupA : PackageGroup :=
  { name := "A", files := [], edition := none
    addressMapping := some [("A", "0x10")], publishedIdForOutput := some "0x30" }

def c2GroupC : PackageGroup :=
  { name := "C", files := [], edition := none
    addressMapping := some [("C", "0x11")], publishedIdForOutput := some "0x30" }

def c2GroupB : PackageGroup :=
  { name := "B", files := [], edition := none
    addressMapping := some [("B", "0x12")], publishedIdForOutput := some "0x40" }

def c2Groups : List PackageGroup := [c2GroupA, c2GroupC, c2GroupB]

def c2Services : Services := exServices c2Units

def c2Env : ShakeEnv :=
  { units := c2Units
    published := (depAccumOf c2Services exFiles c2Groups).known
    c2o := (depAccumOf c2Services exFiles c2Groups).c2o }

/-- C3: root imports only Q's module (address 0x20); package P (address
0x10) is unreachable but shares Q's output address 0x30. -/
def c3Root : CUnit :=
  { packageName := some "root", addr := 153, name := "m", deps := [(32, "q")]
    isTestAttr := false, functionInfos := [], bytes := [] }

def c3UnitQ : CUnit :=
  { packageName := some "Q", addr := 32, name := "q", deps := []
    isTestAttr := false, functionInfos := [], bytes := [] }

def c3Units : List CUnit := [c3Root, c3UnitQ]

def c3GroupP : PackageGroup :=
  { name := "P", files := [], edition := none
    addressMapping := some [("P", "0x10")], publishedIdForOutput := some "0x30" }

def c3GroupQ : PackageGroup :=
  { name := "Q", files := [], edition := none
    addressMapping := some [("Q", "0x20")], publishedIdForOutput := some "0x30" }

def c3Groups : List PackageGroup := [c3GroupP, c3GroupQ]

def c3Services : Services := exServices c3Units

def c3Env : ShakeEnv :=
  { units := c3Units
    published := (depAccumOf c3Services exFiles c3Groups).known
    c2o := (depAccumOf c3Services exFiles c3Groups).c2o }

/-- C5: a manifest binding the package's own name to the zero address while
also declaring a published-at address. -/
def c5Manifest : SourceManifest :=
  { package := { name := "P", edition := none, publishedAt := some "0x2" }
    addresses := some [("P", some "0x0")] }

def c5Group : PackageGroup :=
  { name := "P", files := [("Move.toml", "manifest-text")], edition := none
    addressMapping := none, publishedIdForOutput := none }

def c5Services : Services :=
  { exServices [] with parseToml := fun _ => some c5Manifest }

/-- C8: two dependency entries with the same name and different git urls
(duplicate names make the name-keyed map order-sensitive). -/
def c8DupA1 : DepInfo :=
  { name := "A", git := some "g1", subdir := none, rev := none
    localPath := none, useEnvironment := none }

def c8DupA2 : DepInfo :=
  { name := "A", git := some "g2", subdir := none, rev := none
    localPath := none, useEnvironment := none }

/-- Strict ascending key order of the name-keyed map (`BTreeMap`
iteration order invariant maintained by `smInsert`). -/
def SortedKeys (m : List (String × ReplacementDependency)) : Prop :=
  List.Chain' (fun p q => strLtBool p.1 q.1 = true) m

/-- C8 witness inputs: distinct names. -/
def c8DepA : DepInfo :=
  { name := "A", git := some "gA", subdir := some "sub", rev := some "r1"
    localPath := none, useEnvironment := none }

def c8DepB : DepInfo :=
  { name := "B", git := none, subdir := none, rev := none
    localPath := some "p", useEnvironment := some "testnet" }

/-- C8 sensitivity input: `c8DepA` with one field value changed. -/
def c8DepARev : DepInfo :=
  { name := "A", git := some "gA", subdir := some "sub", rev := some "r2"
    localPath := none, useEnvironment := none }

/-- C9: a compiler success scenario (one root module, as in the spec's
end-to-end scenario) with an options parser that rejects every string. -/
def c9Unit : CUnit :=
  { packageName := some "root", addr := 153, name := "m", deps := []
    isTestAttr := false, functionInfos := [], bytes := [1, 2, 3] }

def c9Services : Services := exServices [c9Unit]

/-- C9 witness: parsers that fail on demand. -/
def c9FailServices : Services :=
  { exServices [c9Unit] with
      parseFiles := fun s => if s = "notjson" then Except.error "bad files" else Except.ok exFiles
      parseDeps := fun s => if s = "notjson" then Except.error "bad deps" else Except.ok [] }

/-- C10: a unit rejected by the generic verifier. -/
def c10Unit : CUnit :=
  { packageName := some "root", addr := 153, name := "m", deps := []
    isTestAttr := false, functionInfos := [("f", false)], bytes := [] }

def c10Services : Services :=
  { exServices [c10Unit] with genVerify := fun _ => some "boom" }

/-- C10: the same services with a Sui verifier that rejects everything
(irrelevant in test mode). -/
def c10ServicesSui : Services :=
  { c10Services with suiVerify := fun _ _ => some "sui-reject" }

/-- Test-mode options. -/
def testOptions : CompileOptions :=
  { silenceWarnings := false, testMode := true, lintFlag := none }


/-! ## Statement-level definitions for the permutation, pruning and
closure theorems -/

/-! ### defs destined for the definitions region -/
/-- The compilation-to-output entry a dependency group inserts for address
`a` (`None` when the group determines no compilation address or a
different one), mirroring lines 603-613. -/
def groupC2oEntry (sv : Services) (g : PackageGroup) (a : Nat) : Option Nat :=
  match groupCompId sv g, groupOutId sv g with
  | some c, some o => if c = a then some o else none
  | some c, none => if c = a then some c else none
  | none, _ => none

/-- No two dependency groups determine the same compilation address with
different output addresses. -/
def ConflictFree (sv : Services) (gs : List PackageGroup) : Prop :=
  ∀ g ∈ gs, ∀ g' ∈ gs, ∀ a, groupCompId sv g = some a → groupCompId sv g' = some a →
    groupOutId sv g = groupOutId sv g'

/-- Pointwise equivalence of traversal environments: identical units, the
same published-address set (and set size), and the same
compilation-to-output lookup function. -/
def EnvEquiv (env1 env2 : ShakeEnv) : Prop :=
  env1.units = env2.units ∧
  (∀ a, a ∈ env1.published ↔ a ∈ env2.published) ∧
  env1.published.length = env2.published.length ∧
  (∀ a, alLookup env1.c2o a = alLookup env2.c2o a)

/-- The `dependencies` field of a successful result. -/
def resultDeps : CompileResult → Option (List Nat)
  | CompileResult.success o => some o.dependencies
  | CompileResult.failure _ => none

/-! ### soundness of the tree shaker (claim C3) -/
/-- Soundness invariant of the traversal state: every kept output address
is justified by a reachable published compilation address, and every
worklist entry is reachable. -/
def SoundInv (env : ShakeEnv) (rootName : String) (st : ShakeState) : Prop :=
  (∀ a ∈ st.kept, ∃ p, p ∈ env.published ∧ ReachPub env rootName p ∧
      alLookup env.c2o p = some a) ∧
  (∀ p ∈ st.pubWl, ReachPub env rootName p)

/-! ### claim C3 -/
/-- Witness services for the amended pruning statement: a single non-root
unit and the single dependency group P. -/
def c3wServices : Services := exServices [c3UnitQ]

/-! ### completeness of the tree shaker (claim C2): state extension and
processed-edge predicates -/
/-- The traversal state only grows: kept, visited compilation addresses
and visited source ids are preserved. -/
def StExt (st st' : ShakeState) : Prop :=
  (∀ a ∈ st.kept, a ∈ st'.kept) ∧ (∀ p ∈ st.visComp, p ∈ st'.visComp) ∧
  (∀ i ∈ st.visSrc, i ∈ st'.visSrc)

/-- An import edge has been fully handled by the traversal: a published
target's output address is kept, an unpublished target's matching unit ids
are marked visited. -/
def EdgeDone (env : ShakeEnv) (d : Nat × String) (st : ShakeState) : Prop :=
  (d.1 ∈ env.published → ∀ o, alLookup env.c2o d.1 = some o → o ∈ st.kept) ∧
  (d.1 ∉ env.published → ∀ v ∈ env.units, unitId v = d → d ∈ st.visSrc)

def UnitDone (env : ShakeEnv) (u : CUnit) (st : ShakeState) : Prop :=
  ∀ d ∈ u.deps, EdgeDone env d st

/-- All phase-2 edges of the units owned by a published compilation
address have been handled. -/
def PubDone (env : ShakeEnv) (p : Nat) (st : ShakeState) : Prop :=
  ∀ v ∈ env.units, v.addr = p → ∀ d ∈ v.deps, d.1 ∈ env.published →
    ∀ o, alLookup env.c2o d.1 = some o → o ∈ st.kept

/-- The phase-1 state invariant: kept and visited compilation addresses
justify each other through the c2o map, and the worklist coincides with
the visited set (phase 1 never pops). -/
def P1St (env : ShakeEnv) (st : ShakeState) : Prop :=
  (∀ a ∈ st.kept, ∃ p, p ∈ st.visComp ∧ alLookup env.c2o p = some a) ∧
  (∀ p ∈ st.visComp, ∃ o, alLookup env.c2o p = some o ∧ o ∈ st.kept) ∧
  (∀ p ∈ st.pubWl, p ∈ st.visComp) ∧
  (∀ p ∈ st.visComp, p ∈ st.pubWl)

/-- Units whose id has not yet been visited as a source. -/
def nFresh (env : ShakeEnv) (st : ShakeState) : Nat :=
  (env.units.filter (fun v => decide (unitId v ∉ st.visSrc))).length

/-! phase-2 step lemmas -/
/-- The phase-2 state invariant: kept and visited compilation addresses
justify each other, and the worklist stays inside the visited set. -/
def P2St (env : ShakeEnv) (st : ShakeState) : Prop :=
  (∀ a ∈ st.kept, ∃ p, p ∈ st.visComp ∧ alLookup env.c2o p = some a) ∧
  (∀ p ∈ st.visComp, ∃ o, alLookup env.c2o p = some o ∧ o ∈ st.kept) ∧
  (∀ p ∈ st.pubWl, p ∈ st.visComp)

/-! fuel accounting for phase 2 -/
/-- Published addresses whose compilation address has not been visited. -/
def nFreshPub (env : ShakeEnv) (st : ShakeState) : Nat :=
  (env.published.filter (fun p => decide (p ∉ st.visComp))).length

/-! # Theorems -/

/-! ## Claim C7: address parsing -/

/-- C7 (counterexample).  The claim's description fails on the code in two
places: after trimming and stripping, an empty remainder is rejected by
the code while the claim's reading decodes it to the all-zero buffer
(input `""`); and the code strips ALL leading "0x" repetitions while the
claim strips a single marker (input `"0x0x12"`, which the code accepts as
the byte 0x12 and the claim's reading rejects as non-hex). -/
theorem c7_counterexample :
    parse_hex_address_to_bytes "" ≠ c7ClaimSpec "" ∧
    parse_hex_address_to_bytes "0x0x12" ≠ c7ClaimSpec "0x0x12" := by
  constructor <;> decide

/-- C7 (amended).  For every input string, parsing trims whitespace,
strips all leading "0x" markers, returns `none` when the remainder is
empty, left-pads odd-length hex with one zero nibble, decodes (failing on
non-hex input), returns `none` when the decoded byte string is longer
than 32 bytes, and otherwise left-pads the decoded bytes with zero bytes
into a 32-byte buffer. -/
theorem c7_amended_parse (s : String) :
    parse_hex_address_to_bytes s = c7AmendedSpec s := by
  unfold parse_hex_address_to_bytes c7AmendedSpec padToEven leftPad32
  by_cases h : (strip0xAll (trimChars s.toList)).isEmpty
  · have h' : strip0xAll (trimChars s.data) = [] := List.isEmpty_iff.mp h
    simp [h']
  · simp only [h, if_false]
    cases hd : hexDecodePairs
        (if (strip0xAll (trimChars s.toList)).length % 2 ≠ 0 then
          '0' :: strip0xAll (trimChars s.toList)
         else strip0xAll (trimChars s.toList)) with
    | none => rfl
    | some bytes =>
        simp only [Option.bind_some]
        by_cases hl : bytes.length > 32
        · simp [hl, Nat.not_le_of_lt hl]
        · simp [hl, Nat.le_of_not_lt hl]

/-! ## Claim C4: `is_dependency` flags of the assembled target groups -/

/-- Helper: the dependency loop appends one `PackagePaths` per group, each
carrying `is_dependency = true`. -/
theorem processGroups_depPaths_flags (sv : Services) :
    ∀ (gs : List PackageGroup) (acc : DepAccum),
      ((processGroups sv acc gs).depPaths).map (fun pp => pp.config.isDependency) =
        acc.depPaths.map (fun pp => pp.config.isDependency) ++ gs.map (fun _ => true)
  | [], acc => by simp [processGroups]
  | g :: gs, acc => by
      rw [processGroups, processGroups_depPaths_flags sv gs]
      simp [processGroup]

/-- C4 (counterexample).  With one dependency group supplied, the target
list handed to the compiler service contains a group with
`is_dependency = true`, contradicting the claim that every group carries
`is_dependency = false` at the moment the compiler is invoked. -/
theorem c4_counterexample :
    ¬ ∀ pp ∈ assemble_targets c1Services exFiles [c1GroupA],
        pp.config.isDependency = false := by
  decide

/-- C4 (amended).  The root group is passed with `is_dependency = false`
and every dependency group is passed with `is_dependency = true`, in
caller order; no forcing to `false` occurs. -/
theorem c4_amended_flags (sv : Services) (files : List (String × String))
    (deps : List PackageGroup) :
    (assemble_targets sv files deps).map (fun pp => pp.config.isDependency) =
      false :: deps.map (fun _ => true) := by
  show ((assemble_targets sv files deps).map (fun pp => pp.config.isDependency)) = _
  unfold assemble_targets
  simp only [List.map_cons]
  rw [show (depAccumOf sv files deps) = processGroups sv (initAccum (resolveRoot sv files)) deps from rfl]
  rw [processGroups_depPaths_flags sv deps]
  simp [initAccum]

/-! ## Claim C5: a dependency's compilation address -/

/-- C5 (counterexample).  For a dependency group without an address-mapping
override whose manifest binds the package's own name to the zero address
and declares published-at 0x2, the code records the zero address as the
compilation address, while the claim requires the published-at address:
the code performs no zero test. -/
theorem c5_counterexample :
    groupManifestOf c5Services c5Group = some c5Manifest ∧
    groupCompId c5Services c5Group = some 0 ∧
    c5ClaimSpec "P" c5Manifest = some 2 ∧
    groupCompId c5Services c5Group ≠ c5ClaimSpec "P" c5Manifest := by
  refine ⟨?_, ?_, ?_, ?_⟩ <;> decide

/-- C5 (amended).  For every dependency package group without an explicit
address-mapping override, the compilation address recorded for it equals
the parsed address bound to the package's own name in its manifest's
address table whenever that entry is present and parses (with no zero
test); otherwise it equals the manifest's parsed published-at address
when present; otherwise none is recorded. -/
theorem c5_amended_comp_address (sv : Services) (g : PackageGroup)
    (h : g.addressMapping = none) :
    groupCompId sv g = (groupManifestOf sv g).bind (fun m => c5AmendedSpec g.name m) := by
  unfold groupCompId resolveGroup
  rw [h]
  unfold resolveGroupManifest groupManifestOf
  cases hf : g.files.find? (fun p => strEndsWith p.1 "Move.toml") with
  | none => rfl
  | some e =>
      simp only [Option.some_bind]
      cases ht : sv.parseToml e.2 with
      | none => rfl
      | some m =>
          simp only [Option.some_bind, c5AmendedSpec]
          cases ha : m.addresses with
          | none =>
              dsimp only
              cases hp : m.package.publishedAt with
              | none => rfl
              | some s =>
                  dsimp only
                  cases hx : parseHexAddr s <;> rfl
          | some addrs =>
              dsimp only
              cases hl : alLookup addrs g.name with
              | none =>
                  dsimp only
                  cases hp : m.package.publishedAt with
                  | none => rfl
                  | some s =>
                      dsimp only
                      cases hx : parseHexAddr s <;> rfl
              | some entry =>
                  cases entry with
                  | none =>
                      dsimp only
                      cases hp : m.package.publishedAt with
                      | none => rfl
                      | some s =>
                          dsimp only
                          cases hx : parseHexAddr s <;> rfl
                  | some addrStr =>
                      dsimp only
                      cases hpa : parseHexAddr addrStr with
                      | none =>
                          dsimp only
                          cases hp : m.package.publishedAt with
                          | none => rfl
                          | some s =>
                              dsimp only
                              cases hx : parseHexAddr s <;> rfl
                      | some n => rfl

/-- C5 (amended, witness). -/
theorem c5_amended_witness :
    c5Group.addressMapping = none ∧
    groupCompId c5Services c5Group =
      (groupManifestOf c5Services c5Group).bind (fun m => c5AmendedSpec c5Group.name m) :=
  ⟨rfl, c5_amended_comp_address c5Services c5Group rfl⟩

/-! ## Claim C9: error handling of malformed JSON inputs -/

/-- C9 (counterexample).  A malformed `optionsJson` does not produce an
immediate failure: option parsing falls back to the defaults and the
invocation proceeds, here (with a compiler run matching the spec's
end-to-end scenario) all the way to `success = true`. -/
theorem c9_counterexample :
    c9Services.parseOptions "not valid json" = none ∧
    (compile_impl c9Services "{}" "" (some "not valid json")).isSuccess = true := by
  constructor
  · rfl
  · decide

/-- C9 (amended).  A `filesJson` that fails to decode yields an immediate
failure result carrying the files-parse message; a non-empty
`dependenciesJson` that fails to decode yields an immediate failure
result carrying the dependencies-parse message; a malformed `optionsJson`
is silently replaced by the default options (the invocation behaves as if
no options were supplied). -/
theorem c9_amended_error_handling :
    (∀ (sv : Services) (fj dj : String) (oj : Option String) (e : String),
        sv.parseFiles fj = Except.error e →
        compile_impl sv fj dj oj = CompileResult.failure ("Failed to parse files JSON: " ++ e)) ∧
    (∀ (sv : Services) (fj dj : String) (oj : Option String)
        (files : List (String × String)) (e : String),
        sv.parseFiles fj = Except.ok files → dj ≠ "" → sv.parseDeps dj = Except.error e →
        compile_impl sv fj dj oj = CompileResult.failure ("Failed to parse dependencies JSON: " ++ e)) ∧
    (∀ (sv : Services) (fj dj oj : String),
        sv.parseOptions oj = none →
        compile_impl sv fj dj (some oj) = compile_impl sv fj dj none) := by
  refine ⟨?_, ?_, ?_⟩
  · intro sv fj dj oj e he
    unfold compile_impl setup_vfs
    rw [he]
  · intro sv fj dj oj files e hf hd he
    unfold compile_impl setup_vfs
    rw [hf, if_neg hd, he]
  · intro sv fj dj oj ho
    simp [compile_impl, ho]

/-- C9 (amended, witness). -/
theorem c9_amended_witness :
    compile_impl c9FailServices "notjson" "" none =
      CompileResult.failure "Failed to parse files JSON: bad files" ∧
    compile_impl c9FailServices "{}" "notjson" none =
      CompileResult.failure "Failed to parse dependencies JSON: bad deps" ∧
    compile_impl c9Services "{}" "" (some "not valid json") = compile_impl c9Services "{}" "" none := by
  refine ⟨?_, ?_, ?_⟩
  · exact c9_amended_error_handling.1 c9FailServices "notjson" "" none "bad files" rfl
  · exact c9_amended_error_handling.2.1 c9FailServices "{}" "notjson" none exFiles "bad deps"
      rfl (by decide) rfl
  · exact c9_amended_error_handling.2.2 c9Services "{}" "" "not valid json" rfl

/-! ## Claim C10: verification in test mode -/

/-- C10 (confirmed).  In test mode: (i) the result of bytecode
verification never depends on the Sui (chain-specific) verifier — only it
is skipped; (ii) verification succeeds exactly when every compiled unit
(root and dependency alike) passes the generic Move bytecode verifier;
(iii) a generic-verification failure makes the compile invocation return
a failure result carrying the verifier's message. -/
theorem c10_test_mode_verification :
    (∀ (sv sv' : Services) (units : List CUnit) (fi : FnInfoMap),
        sv.genVerify = sv'.genVerify →
        verify_bytecode sv units fi true = verify_bytecode sv' units fi true) ∧
    (∀ (sv : Services) (units : List CUnit) (fi : FnInfoMap),
        verify_bytecode sv units fi true = none ↔ ∀ u ∈ units, sv.genVerify u = none) ∧
    (∀ (sv : Services) (files : List (String × String)) (deps : List PackageGroup)
        (opts : CompileOptions) (units : List CUnit) (msg : String),
        opts.testMode = true →
        sv.compilerRun (assemble_targets sv files deps) true = CompilerOutcome.ok units →
        verify_bytecode sv units (fn_info units) true = some msg →
        compile_core sv files deps opts =
          CompileResult.failure ("Bytecode Verification Failed: " ++ msg)) := by
  refine ⟨?_, ?_, ?_⟩
  · intro sv sv' units fi hgv
    induction units with
    | nil => rfl
    | cons u us ih =>
        unfold verify_bytecode verifyUnits
        rw [hgv]
        cases sv'.genVerify u with
        | some e => rfl
        | none => simpa [verify_bytecode] using ih
  · intro sv units fi
    induction units with
    | nil => simp [verify_bytecode, verifyUnits]
    | cons u us ih =>
        unfold verify_bytecode verifyUnits
        cases hg : sv.genVerify u with
        | some e => simp [hg]
        | none => simpa [verify_bytecode, hg] using ih
  · intro sv files deps opts units msg htm hrun hv
    unfold compile_core
    rw [htm, hrun]
    dsimp only
    rw [hv]

/-- C10 (witness). -/
theorem c10_witness :
    compile_core c10Services exFiles [] testOptions =
      CompileResult.failure "Bytecode Verification Failed: Module Verification Failure: boom" ∧
    verify_bytecode c10Services [c10Unit] (fn_info [c10Unit]) true =
      verify_bytecode c10ServicesSui [c10Unit] (fn_info [c10Unit]) true ∧
    (verify_bytecode (exServices [c10Unit]) [c10Unit] (fn_info [c10Unit]) true = none ↔
      ∀ u ∈ [c10Unit], (exServices [c10Unit]).genVerify u = none) := by
  refine ⟨?_, ?_, ?_⟩
  · exact c10_test_mode_verification.2.2 c10Services exFiles [] testOptions [c10Unit]
      "Module Verification Failure: boom" rfl rfl (by decide)
  · exact c10_test_mode_verification.1 c10Services c10ServicesSui [c10Unit] (fn_info [c10Unit]) rfl
  · exact c10_test_mode_verification.2.1 (exServices [c10Unit]) [c10Unit] (fn_info [c10Unit])

/-! ## Claim C6: the merged named-address map -/

theorem optOr_none_right (a : Option α) : optOr a none = a := by
  cases a <;> rfl

theorem optOr_assoc (a b c : Option α) : optOr (optOr a b) c = optOr a (optOr b c) := by
  cases a <;> rfl

theorem alLookup_append [DecidableEq κ] (a b : List (κ × α)) (s : κ) :
    alLookup (a ++ b) s = optOr (alLookup a s) (alLookup b s) := by
  induction a with
  | nil => rfl
  | cons p rest ih =>
      obtain ⟨k, v⟩ := p
      simp only [List.cons_append, alLookup]
      by_cases h : k = s
      · simp [h, optOr]
      · simp [h, ih]

/-- Merging with first-seen-wins: a lookup prefers the base map and falls
back to the merged-in map. -/
theorem lookup_mergeAbsent (extra : List (String × Nat)) :
    ∀ (base : List (String × Nat)) (s : String),
      alLookup (mergeAbsent base extra) s = optOr (alLookup base s) (alLookup extra s) := by
  induction extra with
  | nil =>
      intro base s
      simp [mergeAbsent, alLookup, optOr_none_right]
  | cons p rest ih =>
      intro base s
      obtain ⟨k, v⟩ := p
      by_cases hk : (alLookup base k).isSome
      · rw [mergeAbsent, if_pos hk, ih]
        by_cases hs : k = s
        · subst hs
          obtain ⟨w, hw⟩ := Option.isSome_iff_exists.mp hk
          simp [alLookup, hw, optOr]
        · simp [alLookup, hs]
      · rw [mergeAbsent, if_neg hk, ih, alLookup_append]
        by_cases hs : k = s
        · subst hs
          have hb : alLookup base k = none := Option.not_isSome_iff_eq_none.mp hk
          simp [alLookup, hb, optOr]
        · have hol : ∀ (y : Option Nat), optOr none y = y := fun y => rfl
          simp [alLookup, hs, optOr_assoc, hol]

/-- The dependency loop's root-map accumulation: root bindings win, then
the first dependency group (in caller order) that declares the symbol. -/
theorem lookup_processGroups_rootMap (sv : Services) :
    ∀ (gs : List PackageGroup) (acc : DepAccum) (s : String),
      alLookup (processGroups sv acc gs).rootMap s =
        optOr (alLookup acc.rootMap s) (firstGroupAddr sv gs s)
  | [], acc, s => by
      simp [processGroups, firstGroupAddr, optOr_none_right]
  | g :: gs, acc, s => by
      rw [processGroups, lookup_processGroups_rootMap sv gs]
      rw [show (processGroup sv acc g).rootMap = mergeAbsent acc.rootMap (groupNamedMap sv g)
        from rfl]
      rw [lookup_mergeAbsent, optOr_assoc]
      rfl

/-- The framework fallback bindings apply exactly when the symbol is still
unbound after all merges. -/
theorem lookup_addFrameworkFallbacks (m : List (String × Nat)) (s : String) :
    alLookup (addFrameworkFallbacks m) s =
      if s = "std" then some ((alLookup m "std").getD 1)
      else if s = "sui" then some ((alLookup m "sui").getD 2)
      else alLookup m s := by
  have h1 : parseHexAddr "0x1" = some 1 := by decide
  have h2 : parseHexAddr "0x2" = some 2 := by decide
  unfold addFrameworkFallbacks
  rw [h1, h2]
  by_cases hstd : (alLookup m "std").isSome
  · obtain ⟨w, hw⟩ := Option.isSome_iff_exists.mp hstd
    rw [if_pos hstd]
    by_cases hsui : (alLookup m "sui").isSome
    · obtain ⟨w', hw'⟩ := Option.isSome_iff_exists.mp hsui
      rw [if_pos hsui]
      by_cases h1s : s = "std"
      · subst h1s; simp [hw]
      · by_cases h2s : s = "sui"
        · subst h2s; simp [hw']
        · simp [h1s, h2s]
    · have hsn : alLookup m "sui" = none := Option.not_isSome_iff_eq_none.mp hsui
      rw [if_neg hsui]
      by_cases h1s : s = "std"
      · subst h1s; simp [alLookup_append, hw, optOr]
      · by_cases h2s : s = "sui"
        · subst h2s; simp [alLookup_append, hsn, alLookup, optOr]
        · rw [alLookup_append]
          simp [alLookup, Ne.symm h2s, optOr_none_right, h1s, h2s]
  · have hstdn : alLookup m "std" = none := Option.not_isSome_iff_eq_none.mp hstd
    rw [if_neg hstd]
    have hm1 : ∀ t, alLookup (m ++ [("std", 1)]) t =
        optOr (alLookup m t) (if "std" = t then some 1 else none) := by
      intro t; rw [alLookup_append]; rfl
    by_cases hsui : (alLookup (m ++ [("std", 1)]) "sui").isSome
    · obtain ⟨w', hw'⟩ := Option.isSome_iff_exists.mp hsui
      rw [if_pos hsui]
      have hw'' : alLookup m "sui" = some w' := by
        have := hm1 "sui"
        rw [hw'] at this
        simp [optOr] at this
        cases hms : alLookup m "sui" with
        | none => rw [hms] at this; simp [optOr] at this
        | some z => rw [hms] at this; simp [optOr] at this; rw [this]
      by_cases h1s : s = "std"
      · subst h1s; simp [hm1, hstdn, optOr]
      · by_cases h2s : s = "sui"
        · subst h2s; simp [hm1, hw'', optOr]
        · rw [hm1]
          simp [Ne.symm h1s, optOr_none_right, h1s, h2s]
    · have hsn : alLookup (m ++ [("std", 1)]) "sui" = none :=
        Option.not_isSome_iff_eq_none.mp hsui
      have hmsn : alLookup m "sui" = none := by
        have := hm1 "sui"
        rw [hsn] at this
        cases hms : alLookup m "sui" with
        | none => rfl
        | some z => rw [hms] at this; simp [optOr] at this
      rw [if_neg hsui]
      by_cases h1s : s = "std"
      · subst h1s
        simp [alLookup_append, hm1, hstdn, optOr, alLookup]
      · by_cases h2s : s = "sui"
        · subst h2s
          simp [alLookup_append, hm1, hmsn, optOr, alLookup]
        · rw [alLookup_append, hm1]
          simp [alLookup, Ne.symm h1s, Ne.symm h2s, optOr_none_right, h1s, h2s]

/-- C6 (confirmed).  The merged NamedAddressMap handed to the compiler (the
root target group's map) binds each symbol to the root manifest's address
when the root declares it, else to the address declared by the first
dependency group in caller-supplied order that declares it; and the
symbols "std" and "sui" receive the fallback bindings 0x1 and 0x2 exactly
when still unbound after all merges. -/
theorem c6_merged_map (sv : Services) (files : List (String × String))
    (deps : List PackageGroup) (sym : String) :
    assemble_targets sv files deps =
      { name := "root"
        config := { isDependency := false, edition := (resolveRoot sv files).edition }
        paths := rootTargetsOf files deps
        namedAddressMap := addFrameworkFallbacks (depAccumOf sv files deps).rootMap } ::
        (depAccumOf sv files deps).depPaths ∧
    alLookup (addFrameworkFallbacks (depAccumOf sv files deps).rootMap) sym =
      (let base := optOr (alLookup (resolveRoot sv files).namedMap sym)
        (firstGroupAddr sv deps sym)
       if sym = "std" then some (base.getD 1)
       else if sym = "sui" then some (base.getD 2)
       else base) := by
  have hroot : ∀ t, alLookup (depAccumOf sv files deps).rootMap t =
      optOr (alLookup (resolveRoot sv files).namedMap t) (firstGroupAddr sv deps t) := by
    intro t
    unfold depAccumOf
    rw [lookup_processGroups_rootMap]
    rfl
  refine ⟨rfl, ?_⟩
  rw [lookup_addFrameworkFallbacks]
  by_cases h1s : sym = "std"
  · subst h1s; simp [hroot]
  · by_cases h2s : sym = "sui"
    · subst h2s; simp [hroot, h1s]
    · simp [h1s, h2s, hroot]

/-! ## Claim C8: the manifest digest -/

theorem lexLtNat_self : ∀ a : List Nat, lexLtNat a a = false
  | [] => rfl
  | x :: xs => by simp [lexLtNat, lexLtNat_self xs]

theorem lexLtNat_eq_of_not : ∀ a b : List Nat,
    lexLtNat a b = false → lexLtNat b a = false → a = b
  | [], [], _, _ => rfl
  | [], _ :: _, h, _ => by simp [lexLtNat] at h
  | _ :: _, [], _, h' => by simp [lexLtNat] at h'
  | x :: xs, y :: ys, h, h' => by
      simp only [lexLtNat] at h h'
      by_cases hxy : x < y
      · simp [hxy] at h
      · by_cases hyx : y < x
        · simp [hyx, hxy] at h'
        · have hx : x = y := Nat.le_antisymm (Nat.le_of_not_lt hyx) (Nat.le_of_not_lt hxy)
          subst hx
          simp only [Nat.lt_irrefl, if_false] at h h'
          rw [lexLtNat_eq_of_not xs ys h h']

theorem lexLtNat_trans : ∀ a b c : List Nat,
    lexLtNat a b = true → lexLtNat b c = true → lexLtNat a c = true
  | [], [], _, h, _ => by simp [lexLtNat] at h
  | [], _ :: _, [], _, h' => by simp [lexLtNat] at h'
  | [], _ :: _, _ :: _, _, _ => rfl
  | _ :: _, [], _, h, _ => by simp [lexLtNat] at h
  | _ :: _, _ :: _, [], _, h' => by simp [lexLtNat] at h'
  | x :: xs, y :: ys, z :: zs, h, h' => by
      simp only [lexLtNat] at h h' ⊢
      by_cases hxy : x < y
      · by_cases hyz : y < z
        · simp [Nat.lt_trans hxy hyz]
        · by_cases hzy : z < y
          · simp [hyz, hzy] at h'
          · have : y = z := Nat.le_antisymm (Nat.le_of_not_lt hzy) (Nat.le_of_not_lt hyz)
            subst this
            simp [hxy]
      · by_cases hyx : y < x
        · simp [hxy, hyx] at h
        · have hxe : x = y := Nat.le_antisymm (Nat.le_of_not_lt hyx) (Nat.le_of_not_lt hxy)
          subst hxe
          simp only [Nat.lt_irrefl, if_false] at h h'
          by_cases hxz : x < z
          · simp [hxz]
          · by_cases hzx : z < x
            · simp [hxz, hzx] at h'
            · have : x = z := Nat.le_antisymm (Nat.le_of_not_lt hzx) (Nat.le_of_not_lt hxz)
              subst this
              simp only [Nat.lt_irrefl, if_false] at h' ⊢
              exact lexLtNat_trans xs ys zs h h'

theorem charList_eq_of_mapToNat : ∀ a b : List Char,
    a.map Char.toNat = b.map Char.toNat → a = b
  | [], [], _ => rfl
  | [], _ :: _, h => by simp at h
  | _ :: _, [], h => by simp at h
  | c :: cs, d :: ds, h => by
      simp only [List.map_cons, List.cons.injEq] at h
      have hc : c = d := by
        have := congrArg Char.ofNat h.1
        rwa [Char.ofNat_toNat, Char.ofNat_toNat] at this
      rw [hc, charList_eq_of_mapToNat cs ds h.2]

theorem strLtBool_eq_of_not (a b : String)
    (h : strLtBool a b = false) (h' : strLtBool b a = false) : a = b := by
  have hl := lexLtNat_eq_of_not _ _ h h'
  exact String.ext (charList_eq_of_mapToNat _ _ hl)

theorem strLtBool_self (a : String) : strLtBool a a = false := lexLtNat_self _

theorem strLtBool_trans (a b c : String)
    (h : strLtBool a b = true) (h' : strLtBool b c = true) : strLtBool a c = true :=
  lexLtNat_trans _ _ _ h h'

theorem strLtBool_asymm (a b : String) (h : strLtBool a b = true) :
    strLtBool b a = false := by
  cases hb : strLtBool b a with
  | false => rfl
  | true =>
      have := strLtBool_trans a b a h hb
      rw [strLtBool_self] at this
      exact absurd this (by simp)

/-- Lookup after a sorted-map insertion. -/
theorem alLookup_smInsert : ∀ (m : List (String × ReplacementDependency)) (k : String)
    (v : ReplacementDependency) (s : String),
    alLookup (smInsert m k v) s = if k = s then some v else alLookup m s
  | [], _, _, _ => rfl
  | (k', v') :: rest, k, v, s => by
      rw [smInsert]
      by_cases h1 : strLtBool k k' = true
      · rw [if_pos h1]
        simp [alLookup]
      · rw [if_neg h1]
        by_cases h2 : strLtBool k' k = true
        · rw [if_pos h2]
          by_cases hs : k' = s
          · have hks : ¬ k = s := by
              rintro rfl
              rw [hs] at h2
              rw [strLtBool_self] at h2
              exact absurd h2 (by simp)
            simp [alLookup, hs, hks]
          · simp [alLookup, hs, alLookup_smInsert rest k v s]
        · rw [if_neg h2]
          have h1' : strLtBool k k' = false := by
            cases hx : strLtBool k k' with
            | false => rfl
            | true => exact absurd hx h1
          have h2' : strLtBool k' k = false := by
            cases hx : strLtBool k' k with
            | false => rfl
            | true => exact absurd hx h2
          have hk : k' = k := strLtBool_eq_of_not k' k h2' h1'
          subst hk
          by_cases hs : k' = s <;> simp [alLookup, hs]

theorem head_key_lt_smInsert : ∀ (m : List (String × ReplacementDependency)) (k : String)
    (v : ReplacementDependency) (x : String),
    strLtBool x k = true → (∀ y ∈ m.head?, strLtBool x y.1 = true) →
    ∀ y ∈ (smInsert m k v).head?, strLtBool x y.1 = true
  | [], k, v, x, hk, _ => by simp [smInsert, hk]
  | (k', v') :: rest, k, v, x, hk, hall => by
      rw [smInsert]
      by_cases h1 : strLtBool k k' = true
      · rw [if_pos h1]; simp [hk]
      · rw [if_neg h1]
        by_cases h2 : strLtBool k' k = true
        · rw [if_pos h2]
          simpa using hall
        · rw [if_neg h2]; simp [hk]

theorem sortedKeys_smInsert : ∀ (m : List (String × ReplacementDependency)) (k : String)
    (v : ReplacementDependency), SortedKeys m → SortedKeys (smInsert m k v)
  | [], k, v, _ => by simp [smInsert, SortedKeys]
  | (k', v') :: rest, k, v, h => by
      rw [SortedKeys, List.chain'_cons'] at h
      obtain ⟨hhead, hrest⟩ := h
      rw [smInsert]
      by_cases h1 : strLtBool k k' = true
      · rw [if_pos h1]
        rw [SortedKeys, List.chain'_cons']
        exact ⟨by simpa using h1, (List.chain'_cons'.mpr ⟨hhead, hrest⟩ : _)⟩
      · rw [if_neg h1]
        by_cases h2 : strLtBool k' k = true
        · rw [if_pos h2]
          rw [SortedKeys, List.chain'_cons']
          refine ⟨head_key_lt_smInsert rest k v k' h2 hhead, ?_⟩
          exact sortedKeys_smInsert rest k v hrest
        · rw [if_neg h2]
          have h1' : strLtBool k k' = false := by
            cases hx : strLtBool k k' with
            | false => rfl
            | true => exact absurd hx h1
          have h2' : strLtBool k' k = false := by
            cases hx : strLtBool k' k with
            | false => rfl
            | true => exact absurd hx h2
          have hk : k' = k := strLtBool_eq_of_not k' k h2' h1'
          subst hk
          rw [SortedKeys, List.chain'_cons']
          exact ⟨hhead, hrest⟩

/-- In a sorted map the head key is below every tail key. -/
theorem sortedKeys_head_lt_all : ∀ (t : List (String × ReplacementDependency))
    (k : String) (v : ReplacementDependency), SortedKeys ((k, v) :: t) →
    ∀ p ∈ t, strLtBool k p.1 = true
  | [], _, _, _, p, hp => absurd hp (List.not_mem_nil p)
  | q :: t', k, v, h, p, hp => by
      rw [SortedKeys, List.chain'_cons'] at h
      obtain ⟨hhead, hrest⟩ := h
      have hkq : strLtBool k q.1 = true := by simpa using hhead
      rcases List.mem_cons.mp hp with rfl | hp'
      · exact hkq
      · exact strLtBool_trans _ _ _ hkq
          (sortedKeys_head_lt_all t' q.1 q.2 (by simpa [SortedKeys] using hrest) p hp')

theorem alLookup_eq_none_of_lt : ∀ (m : List (String × ReplacementDependency)) (x : String),
    (∀ p ∈ m, strLtBool x p.1 = true) → alLookup m x = none
  | [], _, _ => rfl
  | (k, v) :: rest, x, h => by
      have hxk : strLtBool x k = true := h (k, v) (List.mem_cons_self _ _)
      have : ¬ k = x := by
        rintro rfl
        rw [strLtBool_self] at hxk
        exact absurd hxk (by simp)
      rw [alLookup, if_neg this]
      exact alLookup_eq_none_of_lt rest x (fun p hp => h p (List.mem_cons_of_mem _ hp))

theorem alLookup_some_mem : ∀ (m : List (String × ReplacementDependency)) (s : String)
    (v : ReplacementDependency), alLookup m s = some v → (s, v) ∈ m
  | [], s, v, h => by simp [alLookup] at h
  | (k, w) :: rest, s, v, h => by
      rw [alLookup] at h
      by_cases hk : k = s
      · rw [if_pos hk] at h
        subst hk
        rw [Option.some.injEq] at h
        subst h
        exact List.mem_cons_self _ _
      · rw [if_neg hk] at h
        exact List.mem_cons_of_mem _ (alLookup_some_mem rest s v h)

/-- Sorted maps with identical lookup functions are identical. -/
theorem sortedKeys_ext : ∀ (m1 m2 : List (String × ReplacementDependency)),
    SortedKeys m1 → SortedKeys m2 → (∀ s, alLookup m1 s = alLookup m2 s) → m1 = m2
  | [], [], _, _, _ => rfl
  | [], (k, v) :: t2, _, _, hl => by
      have := hl k
      simp [alLookup] at this
  | (k, v) :: t1, [], _, _, hl => by
      have := hl k
      simp [alLookup] at this
  | (k1, v1) :: t1, (k2, v2) :: t2, h1, h2, hl => by
      have hk : k1 = k2 := by
        by_contra hne
        have hl1 : alLookup ((k1, v1) :: t1) k1 = some v1 := by simp [alLookup]
        have hl2 : alLookup ((k2, v2) :: t2) k2 = some v2 := by simp [alLookup]
        have e1 : alLookup ((k2, v2) :: t2) k1 = some v1 := by rw [← hl k1]; exact hl1
        have e2 : alLookup ((k1, v1) :: t1) k2 = some v2 := by rw [hl k2]; exact hl2
        rw [alLookup, if_neg (fun h => hne (h.symm))] at e1
        rw [alLookup, if_neg (fun h => hne h)] at e2
        have m1 : (k1, v1) ∈ t2 := alLookup_some_mem t2 k1 v1 e1
        have m2' : (k2, v2) ∈ t1 := alLookup_some_mem t1 k2 v2 e2
        have lt1 : strLtBool k2 k1 = true := sortedKeys_head_lt_all t2 k2 v2 h2 (k1, v1) m1
        have lt2 : strLtBool k1 k2 = true := sortedKeys_head_lt_all t1 k1 v1 h1 (k2, v2) m2'
        rw [strLtBool_asymm k1 k2 lt2] at lt1
        exact absurd lt1 (by simp)
      subst hk
      have hv : v1 = v2 := by
        have := hl k1
        simp [alLookup] at this
        exact this
      subst hv
      have htl : ∀ s, alLookup t1 s = alLookup t2 s := by
        intro s
        by_cases hs : s = k1
        · subst hs
          rw [alLookup_eq_none_of_lt t1 s (sortedKeys_head_lt_all t1 s v1 h1),
            alLookup_eq_none_of_lt t2 s (sortedKeys_head_lt_all t2 s v1 h2)]
        · have := hl s
          rw [alLookup, alLookup, if_neg (fun h => hs h.symm), if_neg (fun h => hs h.symm)] at this
          exact this
      have ht1 : SortedKeys t1 := (List.chain'_cons'.mp h1).2
      have ht2 : SortedKeys t2 := (List.chain'_cons'.mp h2).2
      rw [sortedKeys_ext t1 t2 ht1 ht2 htl]

theorem sortedKeys_foldl_smInsert : ∀ (deps : List DepInfo)
    (m : List (String × ReplacementDependency)), SortedKeys m →
    SortedKeys (deps.foldl (fun m d => smInsert m d.name (depToReplacement d)) m)
  | [], _, h => h
  | d :: rest, m, h => by
      rw [List.foldl_cons]
      exact sortedKeys_foldl_smInsert rest _ (sortedKeys_smInsert m d.name _ h)

theorem sortedKeys_buildDepsMap (deps : List DepInfo) : SortedKeys (buildDepsMap deps) :=
  sortedKeys_foldl_smInsert deps [] (by simp [SortedKeys])

theorem lookup_foldl_smInsert : ∀ (deps : List DepInfo)
    (m : List (String × ReplacementDependency)) (s : String),
    (deps.map DepInfo.name).Nodup → (∀ d ∈ deps, alLookup m d.name = none) →
    alLookup (deps.foldl (fun m d => smInsert m d.name (depToReplacement d)) m) s =
      optOr ((deps.find? (fun d => d.name == s)).map depToReplacement) (alLookup m s)
  | [], m, s, _, _ => rfl
  | d :: rest, m, s, hn, hd => by
      rw [List.foldl_cons]
      have hn0 : d.name ∉ rest.map DepInfo.name ∧ (rest.map DepInfo.name).Nodup := by
        have hn' := hn
        rw [List.map_cons, List.nodup_cons] at hn'
        exact hn'
      have hd' : ∀ d' ∈ rest, alLookup (smInsert m d.name (depToReplacement d)) d'.name = none := by
        intro d' hmem
        rw [alLookup_smInsert]
        have hne : d.name ≠ d'.name := fun he => hn0.1 (he ▸ List.mem_map_of_mem DepInfo.name hmem)
        rw [if_neg hne]
        exact hd d' (List.mem_cons_of_mem _ hmem)
      rw [lookup_foldl_smInsert rest _ s hn0.2 hd']
      rw [alLookup_smInsert]
      by_cases hs : d.name = s
      · have hrf : rest.find? (fun d' => d'.name == s) = none := by
          rw [List.find?_eq_none]
          intro x hx hpx
          have hxs : x.name = s := by simpa using hpx
          exact hn0.1 (by rw [hs, ← hxs]; exact List.mem_map_of_mem DepInfo.name hx)
        rw [hrf, if_pos hs, List.find?_cons_of_pos _ (by simpa using hs)]
        rfl
      · rw [if_neg hs, List.find?_cons_of_neg _ (by simpa using hs)]

theorem find?_name_perm (deps deps' : List DepInfo) (s : String)
    (h : deps.Perm deps') (hn : (deps.map DepInfo.name).Nodup) :
    deps.find? (fun d => d.name == s) = deps'.find? (fun d => d.name == s) := by
  cases hf : deps.find? (fun d => d.name == s) with
  | none =>
      have hnone := List.find?_eq_none.mp hf
      symm
      rw [List.find?_eq_none]
      intro x hx
      exact hnone x (h.symm.subset hx)
  | some x =>
      have hpx := List.find?_some hf
      have hmx : x ∈ deps := List.mem_of_find?_eq_some hf
      cases hf' : deps'.find? (fun d => d.name == s) with
      | none => exact absurd (List.find?_some hf) (List.find?_eq_none.mp hf' x (h.subset hmx))
      | some y =>
          have hpy := List.find?_some hf'
          have hmy' : y ∈ deps := h.symm.subset (List.mem_of_find?_eq_some hf')
          have hxy : x = y := by
            apply List.inj_on_of_nodup_map hn hmx hmy'
            have hx1 : x.name = s := by simpa using hpx
            have hy1 : y.name = s := by simpa using hpy
            rw [hx1, hy1]
          rw [hxy]

set_option maxRecDepth 100000 in
set_option maxHeartbeats 4000000 in
/-- C8 (counterexample).  With two entries of the same name, the name-keyed
map keeps the last entry, so reordering the `deps` array changes the map
and with it the digest: the claim fails on well-formed inputs with
duplicate names. -/
theorem c8_counterexample :
    [c8DupA1, c8DupA2].Perm [c8DupA2, c8DupA1] ∧
    compute_manifest_digest (some [c8DupA1, c8DupA2]) ≠
      compute_manifest_digest (some [c8DupA2, c8DupA1]) :=
  ⟨List.Perm.swap c8DupA2 c8DupA1 [], by decide⟩

set_option maxRecDepth 100000 in
set_option maxHeartbeats 4000000 in
/-- C8 (amended).  For every well-formed `depsJson` input whose dependency
names are pairwise distinct, `compute_manifest_digest` returns the same
uppercase-hex digest for any permutation of the `deps` array; and for a
pair of inputs differing in a single field value (here the `rev` of one
entry) it returns different digests. -/
theorem c8_amended_digest :
    (∀ deps deps' : List DepInfo, deps.Perm deps' → (deps.map DepInfo.name).Nodup →
        compute_manifest_digest (some deps) = compute_manifest_digest (some deps')) ∧
    compute_manifest_digest (some [c8DepA]) ≠ compute_manifest_digest (some [c8DepARev]) := by
  constructor
  · intro deps deps' hperm hn
    have hn' : (deps'.map DepInfo.name).Nodup := (hperm.map DepInfo.name).nodup hn
    have hmap : buildDepsMap deps = buildDepsMap deps' := by
      apply sortedKeys_ext _ _ (sortedKeys_buildDepsMap _) (sortedKeys_buildDepsMap _)
      intro s
      rw [show buildDepsMap deps =
          deps.foldl (fun m d => smInsert m d.name (depToReplacement d)) [] from rfl]
      rw [show buildDepsMap deps' =
          deps'.foldl (fun m d => smInsert m d.name (depToReplacement d)) [] from rfl]
      rw [lookup_foldl_smInsert deps [] s hn (fun d _ => rfl),
        lookup_foldl_smInsert deps' [] s hn' (fun d _ => rfl),
        find?_name_perm deps deps' s hperm hn]
    simp only [compute_manifest_digest, hmap]
  · decide

/-- C8 (amended, witness). -/
theorem c8_amended_witness :
    [c8DepA, c8DepB].Perm [c8DepB, c8DepA] ∧
    ([c8DepA, c8DepB].map DepInfo.name).Nodup ∧
    compute_manifest_digest (some [c8DepA, c8DepB]) =
      compute_manifest_digest (some [c8DepB, c8DepA]) :=
  ⟨List.Perm.swap c8DepB c8DepA [], by decide,
    c8_amended_digest.1 [c8DepA, c8DepB] [c8DepB, c8DepA]
      (List.Perm.swap c8DepB c8DepA []) (by decide)⟩

set_option maxRecDepth 100000 in
/-- Development sanity check: the SHA-256 embedding matches the FIPS 180-4
"abc" test vector. -/
theorem sha256_vector_abc :
    toUpperHex (sha256 (strBytes "abc")) =
      "BA7816BF8F01CFEA414140DE5DAE2223B00361A396177A9CB410FF61F20015AD" := by
  decide


/-! ### shared list lemmas -/
theorem alLookup_alInsert [DecidableEq κ] : ∀ (m : List (κ × α)) (k : κ) (v : α) (s : κ),
    alLookup (alInsert m k v) s = if k = s then some v else alLookup m s
  | [], _, _, _ => rfl
  | (k', v') :: rest, k, v, s => by
      rw [alInsert]
      by_cases h : k' = k
      · subst h
        rw [if_pos rfl]
        by_cases hs : k' = s <;> simp [alLookup, hs]
      · rw [if_neg h]
        by_cases hs : k' = s
        · subst hs
          have hne : ¬ k = k' := fun he => h he.symm
          simp [alLookup, hne]
        · simp [alLookup, hs, alLookup_alInsert rest k v s]

theorem mem_addIfAbsent [DecidableEq α] (l : List α) (a x : α) :
    x ∈ addIfAbsent l a ↔ x = a ∨ x ∈ l := by
  unfold addIfAbsent
  by_cases h : a ∈ l
  · rw [if_pos h]
    constructor
    · exact Or.inr
    · rintro (rfl | hx)
      · exact h
      · exact hx
  · rw [if_neg h]
    exact List.mem_cons

theorem nodup_addIfAbsent [DecidableEq α] (l : List α) (a : α) (h : l.Nodup) :
    (addIfAbsent l a).Nodup := by
  unfold addIfAbsent
  by_cases ha : a ∈ l
  · rwa [if_pos ha]
  · rw [if_neg ha]
    exact List.nodup_cons.mpr ⟨ha, h⟩

theorem findSome?_singleton (f : α → Option β) (g : α) : List.findSome? f [g] = f g := by
  rw [List.findSome?_cons]
  cases f g <;> rfl

theorem or_eq_optOr (a b : Option α) : a.or b = optOr a b := by
  cases a <;> rfl

theorem findSome?_congr_perm (f : α → Option β) (l l' : List α) (h : l.Perm l')
    (hag : ∀ a ∈ l, ∀ a' ∈ l, ∀ y y', f a = some y → f a' = some y' → y = y') :
    l.findSome? f = l'.findSome? f := by
  cases hf : l.findSome? f with
  | none =>
      have hnone := List.findSome?_eq_none.mp hf
      symm
      rw [List.findSome?_eq_none]
      intro x hx
      exact hnone x (h.symm.subset hx)
  | some y =>
      obtain ⟨a, ha, hay⟩ := List.exists_of_findSome?_eq_some hf
      cases hf' : l'.findSome? f with
      | none =>
          have := List.findSome?_eq_none.mp hf' a (h.subset ha)
          rw [hay] at this
          cases this
      | some y' =>
          obtain ⟨a', ha', hay'⟩ := List.exists_of_findSome?_eq_some hf'
          rw [hag a ha a' (h.symm.subset ha') y y' hay hay']

/-! ### accumulator characterizations of the dependency loop -/
theorem processGroup_c2o_lookup (sv : Services) (acc : DepAccum) (g : PackageGroup) (a : Nat) :
    alLookup (processGroup sv acc g).c2o a =
      optOr (groupC2oEntry sv g a) (alLookup acc.c2o a) := by
  show alLookup (match groupCompId sv g, groupOutId sv g with
    | some c, some o => (alInsert acc.c2o c o, addIfAbsent acc.known c)
    | some c, none => (alInsert acc.c2o c c, addIfAbsent acc.known c)
    | none, _ => (acc.c2o, acc.known)).1 a = _
  unfold groupC2oEntry
  cases hc : groupCompId sv g with
  | none => cases groupOutId sv g <;> rfl
  | some c =>
      cases ho : groupOutId sv g with
      | none =>
          rw [alLookup_alInsert]
          by_cases hca : c = a <;> simp [hca, optOr]
      | some o =>
          rw [alLookup_alInsert]
          by_cases hca : c = a <;> simp [hca, optOr]

theorem lookup_processGroups_c2o (sv : Services) :
    ∀ (gs : List PackageGroup) (acc : DepAccum) (a : Nat),
      alLookup (processGroups sv acc gs).c2o a =
        optOr (gs.reverse.findSome? (fun g => groupC2oEntry sv g a)) (alLookup acc.c2o a)
  | [], acc, a => by
      rw [processGroups]
      simp [optOr]
  | g :: gs, acc, a => by
      rw [processGroups, lookup_processGroups_c2o sv gs, processGroup_c2o_lookup,
        List.reverse_cons, List.findSome?_append, findSome?_singleton, or_eq_optOr,
        optOr_assoc]

theorem processGroup_known (sv : Services) (acc : DepAccum) (g : PackageGroup) :
    (processGroup sv acc g).known =
      (match groupCompId sv g with
       | some c => addIfAbsent acc.known c
       | none => acc.known) := by
  show (match groupCompId sv g, groupOutId sv g with
    | some c, some o => (alInsert acc.c2o c o, addIfAbsent acc.known c)
    | some c, none => (alInsert acc.c2o c c, addIfAbsent acc.known c)
    | none, _ => (acc.c2o, acc.known)).2 = _
  cases groupCompId sv g <;> cases groupOutId sv g <;> rfl

theorem mem_processGroups_known (sv : Services) :
    ∀ (gs : List PackageGroup) (acc : DepAccum) (a : Nat),
      a ∈ (processGroups sv acc gs).known ↔
        (∃ g ∈ gs, groupCompId sv g = some a) ∨ a ∈ acc.known
  | [], acc, a => by simp [processGroups]
  | g :: gs, acc, a => by
      rw [processGroups, mem_processGroups_known sv gs, processGroup_known]
      cases hc : groupCompId sv g with
      | none =>
          simp only [List.mem_cons]
          constructor
          · rintro (⟨g', hg', hcg'⟩ | hacc)
            · exact Or.inl ⟨g', Or.inr hg', hcg'⟩
            · exact Or.inr hacc
          · rintro (⟨g', (rfl | hg'), hcg'⟩ | hacc)
            · rw [hc] at hcg'; cases hcg'
            · exact Or.inl ⟨g', hg', hcg'⟩
            · exact Or.inr hacc
      | some c =>
          rw [mem_addIfAbsent]
          constructor
          · rintro (⟨g', hg', hcg'⟩ | (rfl | hacc))
            · exact Or.inl ⟨g', List.mem_cons_of_mem _ hg', hcg'⟩
            · exact Or.inl ⟨g, List.mem_cons_self _ _, hc⟩
            · exact Or.inr hacc
          · rintro (⟨g', hg', hcg'⟩ | hacc)
            · rcases List.mem_cons.mp hg' with rfl | hg''
              · rw [hc] at hcg'
                exact Or.inr (Or.inl (Option.some.injEq _ _ ▸ hcg'.symm ▸ rfl))
              · exact Or.inl ⟨g', hg'', hcg'⟩
            · exact Or.inr (Or.inr hacc)

theorem nodup_processGroups_known (sv : Services) :
    ∀ (gs : List PackageGroup) (acc : DepAccum),
      acc.known.Nodup → (processGroups sv acc gs).known.Nodup
  | [], _, h => h
  | g :: gs, acc, h => by
      rw [processGroups]
      apply nodup_processGroups_known sv gs
      rw [processGroup_known]
      cases groupCompId sv g with
      | none => exact h
      | some c => exact nodup_addIfAbsent _ _ h

theorem processGroup_depIds (sv : Services) (acc : DepAccum) (g : PackageGroup) :
    (processGroup sv acc g).depIds =
      (match groupOutId sv g with
       | some n => if n ∈ acc.depIds then acc.depIds else acc.depIds ++ [n]
       | none => acc.depIds) := rfl

theorem mem_processGroups_depIds (sv : Services) :
    ∀ (gs : List PackageGroup) (acc : DepAccum) (a : Nat),
      a ∈ (processGroups sv acc gs).depIds ↔
        (∃ g ∈ gs, groupOutId sv g = some a) ∨ a ∈ acc.depIds
  | [], acc, a => by simp [processGroups]
  | g :: gs, acc, a => by
      rw [processGroups, mem_processGroups_depIds sv gs, processGroup_depIds]
      cases ho : groupOutId sv g with
      | none =>
          simp only [List.mem_cons]
          constructor
          · rintro (⟨g', hg', hog'⟩ | hacc)
            · exact Or.inl ⟨g', Or.inr hg', hog'⟩
            · exact Or.inr hacc
          · rintro (⟨g', (rfl | hg'), hog'⟩ | hacc)
            · rw [ho] at hog'; cases hog'
            · exact Or.inl ⟨g', hg', hog'⟩
            · exact Or.inr hacc
      | some n =>
          have hmem : ∀ x, (x ∈ (if n ∈ acc.depIds then acc.depIds else acc.depIds ++ [n])) ↔
              x = n ∨ x ∈ acc.depIds := by
            intro x
            by_cases hn : n ∈ acc.depIds
            · rw [if_pos hn]
              constructor
              · exact Or.inr
              · rintro (rfl | hx)
                · exact hn
                · exact hx
            · rw [if_neg hn]
              simp [List.mem_append, or_comm]
          rw [hmem]
          constructor
          · rintro (⟨g', hg', hog'⟩ | (rfl | hacc))
            · exact Or.inl ⟨g', List.mem_cons_of_mem _ hg', hog'⟩
            · exact Or.inl ⟨g, List.mem_cons_self _ _, ho⟩
            · exact Or.inr hacc
          · rintro (⟨g', hg', hog'⟩ | hacc)
            · rcases List.mem_cons.mp hg' with rfl | hg''
              · rw [ho] at hog'
                exact Or.inr (Or.inl (Option.some.injEq _ _ ▸ hog'.symm ▸ rfl))
              · exact Or.inl ⟨g', hg'', hog'⟩
            · exact Or.inr (Or.inr hacc)

theorem nodup_processGroups_depIds (sv : Services) :
    ∀ (gs : List PackageGroup) (acc : DepAccum),
      acc.depIds.Nodup → (processGroups sv acc gs).depIds.Nodup
  | [], _, h => h
  | g :: gs, acc, h => by
      rw [processGroups]
      apply nodup_processGroups_depIds sv gs
      rw [processGroup_depIds]
      cases ho : groupOutId sv g with
      | none => exact h
      | some n =>
          dsimp only
          by_cases hn : n ∈ acc.depIds
          · rwa [if_pos hn]
          · rw [if_neg hn]
            rw [List.nodup_append]
            exact ⟨h, List.nodup_singleton n, by simpa using hn⟩

theorem groupOutId_isSome_of_comp (sv : Services) (g : PackageGroup) (c : Nat)
    (h : groupCompId sv g = some c) : (groupOutId sv g).isSome := by
  unfold groupOutId
  cases hp : g.publishedIdForOutput with
  | none => rw [h]; rfl
  | some s =>
      dsimp only
      cases parseHexAddr s with
      | none => rw [h]; rfl
      | some n => rfl

/-! ### congruence of the tree shaker in its environment -/
theorem procDep_congr (env1 env2 : ShakeEnv) (h : EnvEquiv env1 env2)
    (st : ShakeState) (acc : List CUnit) (d : Nat × String) :
    procDep env1 st acc d = procDep env2 st acc d := by
  unfold procDep
  by_cases hd : d.1 ∈ env1.published
  · have hd2 : d.1 ∈ env2.published := (h.2.1 d.1).mp hd
    rw [if_pos hd, if_pos hd2, h.2.2.2 d.1]
  · have hd2 : d.1 ∉ env2.published := fun hx => hd ((h.2.1 d.1).mpr hx)
    rw [if_neg hd, if_neg hd2, h.1]

theorem procDeps_congr (env1 env2 : ShakeEnv) (h : EnvEquiv env1 env2) :
    ∀ (ds : List (Nat × String)) (st : ShakeState) (acc : List CUnit),
      procDeps env1 st acc ds = procDeps env2 st acc ds
  | [], _, _ => rfl
  | d :: ds, st, acc => by
      simp only [procDeps]
      rw [procDep_congr env1 env2 h]
      exact procDeps_congr env1 env2 h ds _ _

theorem procBatch_congr (env1 env2 : ShakeEnv) (h : EnvEquiv env1 env2) :
    ∀ (batch : List CUnit) (st : ShakeState) (acc : List CUnit),
      procBatch env1 st acc batch = procBatch env2 st acc batch
  | [], _, _ => rfl
  | u :: us, st, acc => by
      simp only [procBatch]
      rw [procDeps_congr env1 env2 h]
      exact procBatch_congr env1 env2 h us _ _

theorem phase1_congr (env1 env2 : ShakeEnv) (h : EnvEquiv env1 env2) :
    ∀ (fuel : Nat) (st : ShakeState) (wl : List CUnit),
      phase1 env1 fuel st wl = phase1 env2 fuel st wl
  | 0, _, _ => rfl
  | _ + 1, _, [] => rfl
  | fuel + 1, st, u :: us => by
      simp only [phase1]
      rw [procBatch_congr env1 env2 h]
      exact phase1_congr env1 env2 h fuel _ _

theorem procPubDep_congr (env1 env2 : ShakeEnv) (h : EnvEquiv env1 env2)
    (st : ShakeState) (d : Nat × String) :
    procPubDep env1 st d = procPubDep env2 st d := by
  unfold procPubDep
  by_cases hd : d.1 ∈ env1.published
  · have hd2 : d.1 ∈ env2.published := (h.2.1 d.1).mp hd
    rw [if_pos hd, if_pos hd2, h.2.2.2 d.1]
  · have hd2 : d.1 ∉ env2.published := fun hx => hd ((h.2.1 d.1).mpr hx)
    rw [if_neg hd, if_neg hd2]

theorem procPubDeps_congr (env1 env2 : ShakeEnv) (h : EnvEquiv env1 env2) :
    ∀ (ds : List (Nat × String)) (st : ShakeState),
      procPubDeps env1 st ds = procPubDeps env2 st ds
  | [], _ => rfl
  | d :: ds, st => by
      simp only [procPubDeps]
      rw [procPubDep_congr env1 env2 h]
      exact procPubDeps_congr env1 env2 h ds _

theorem pubScan_congr (env1 env2 : ShakeEnv) (h : EnvEquiv env1 env2) (addr : Nat) :
    ∀ (l : List CUnit) (st : ShakeState),
      pubScan env1 addr st l = pubScan env2 addr st l
  | [], _ => rfl
  | u :: us, st => by
      simp only [pubScan]
      by_cases hu : u.addr = addr
      · rw [if_pos hu, if_pos hu, procPubDeps_congr env1 env2 h]
        exact pubScan_congr env1 env2 h addr us _
      · rw [if_neg hu, if_neg hu]
        exact pubScan_congr env1 env2 h addr us _

theorem phase2_congr (env1 env2 : ShakeEnv) (h : EnvEquiv env1 env2) :
    ∀ (fuel : Nat) (st : ShakeState),
      phase2 env1 fuel st = phase2 env2 fuel st
  | 0, _ => rfl
  | fuel + 1, st => by
      obtain ⟨kept, visComp, pubWl, visSrc⟩ := st
      cases pubWl with
      | nil => rfl
      | cons addr rest =>
          simp only [phase2]
          rw [h.1, pubScan_congr env1 env2 h]
          exact phase2_congr env1 env2 h fuel _

theorem tree_shake_congr (units : List CUnit) (rootName : String)
    (known1 known2 : List Nat) (c2o1 c2o2 : List (Nat × Nat))
    (hmem : ∀ a, a ∈ known1 ↔ a ∈ known2)
    (hlen : known1.length = known2.length)
    (hc2o : ∀ a, alLookup c2o1 a = alLookup c2o2 a) :
    tree_shake units rootName known1 c2o1 = tree_shake units rootName known2 c2o2 := by
  have h : EnvEquiv ⟨units, known1, c2o1⟩ ⟨units, known2, c2o2⟩ := ⟨rfl, hmem, hlen, hc2o⟩
  unfold tree_shake
  dsimp only
  rw [phase1_congr _ _ h, show known1.length = known2.length from hlen, phase2_congr _ _ h]

/-! ### success-shape inversion of the orchestrator -/
theorem compile_core_success_inversion (sv : Services) (files : List (String × String))
    (deps : List PackageGroup) (opts : CompileOptions) (out : CompilationOutput)
    (h : compile_core sv files deps opts = CompileResult.success out) :
    ∃ units orderedIds,
      sv.compilerRun (assemble_targets sv files deps) opts.testMode = CompilerOutcome.ok units ∧
      verify_bytecode sv units (fn_info units) opts.testMode = none ∧
      sv.topoOrder (units.filter (isRootUnit (resolveRoot sv files).packageName)) =
        Except.ok orderedIds ∧
      out = { modules := (reorderModules
                (units.filter (isRootUnit (resolveRoot sv files).packageName)) orderedIds).map
                  CUnit.bytes
              dependencies := List.insertionSort (· ≤ ·)
                ((depAccumOf sv files deps).depIds.filter (fun b =>
                  (tree_shake units (resolveRoot sv files).packageName
                    (depAccumOf sv files deps).known (depAccumOf sv files deps).c2o).contains b))
              digest := sv.pkgDigest
                ((reorderModules
                  (units.filter (isRootUnit (resolveRoot sv files).packageName)) orderedIds).map
                    CUnit.bytes)
                (List.insertionSort (· ≤ ·)
                  ((depAccumOf sv files deps).depIds.filter (fun b =>
                    (tree_shake units (resolveRoot sv files).packageName
                      (depAccumOf sv files deps).known (depAccumOf sv files deps).c2o).contains b))) } := by
  unfold compile_core at h
  cases hco : sv.compilerRun (assemble_targets sv files deps) opts.testMode with
  | createErr e => rw [hco] at h; cases h
  | buildErr e => rw [hco] at h; cases h
  | diagErr buf => rw [hco] at h; cases h
  | ok units =>
      rw [hco] at h
      dsimp only at h
      cases hv : verify_bytecode sv units (fn_info units) opts.testMode with
      | some e => rw [hv] at h; cases h
      | none =>
          rw [hv] at h
          dsimp only at h
          cases ht : sv.topoOrder (units.filter (isRootUnit (resolveRoot sv files).packageName)) with
          | error e => rw [ht] at h; cases h
          | ok orderedIds =>
              rw [ht] at h
              dsimp only at h
              refine ⟨units, orderedIds, rfl, hv, ht, ?_⟩
              injection h with h'
              exact h'.symm

/-! ### claim C1 -/
theorem groupC2oEntry_some (sv : Services) (g : PackageGroup) (a y : Nat)
    (h : groupC2oEntry sv g a = some y) :
    groupCompId sv g = some a ∧ groupOutId sv g = some y := by
  unfold groupC2oEntry at h
  cases hc : groupCompId sv g with
  | none => rw [hc] at h; cases h
  | some c =>
      cases ho : groupOutId sv g with
      | none =>
          have hsome := groupOutId_isSome_of_comp sv g c hc
          rw [ho] at hsome
          cases hsome
      | some o =>
          rw [hc, ho] at h
          dsimp only at h
          by_cases hca : c = a
          · rw [if_pos hca] at h
            subst hca
            exact ⟨rfl, h⟩
          · rw [if_neg hca] at h
            cases h

theorem groupC2oEntry_agree (sv : Services) (gs : List PackageGroup)
    (hcf : ConflictFree sv gs) (a : Nat) :
    ∀ g ∈ gs, ∀ g' ∈ gs, ∀ y y',
      groupC2oEntry sv g a = some y → groupC2oEntry sv g' a = some y' → y = y' := by
  intro g hg g' hg' y y' hy hy'
  obtain ⟨hc, ho⟩ := groupC2oEntry_some sv g a y hy
  obtain ⟨hc', ho'⟩ := groupC2oEntry_some sv g' a y' hy'
  have := hcf g hg g' hg' a hc hc'
  rw [ho, ho'] at this
  exact Option.some.inj this

theorem depAccumOf_known_mem_iff (sv : Services) (files : List (String × String))
    (deps deps' : List PackageGroup) (hperm : deps.Perm deps') (a : Nat) :
    a ∈ (depAccumOf sv files deps).known ↔ a ∈ (depAccumOf sv files deps').known := by
  unfold depAccumOf
  rw [mem_processGroups_known, mem_processGroups_known]
  constructor
  · rintro (⟨g, hg, hcg⟩ | hacc)
    · exact Or.inl ⟨g, hperm.subset hg, hcg⟩
    · exact Or.inr hacc
  · rintro (⟨g, hg, hcg⟩ | hacc)
    · exact Or.inl ⟨g, hperm.symm.subset hg, hcg⟩
    · exact Or.inr hacc

theorem depAccumOf_known_nodup (sv : Services) (files : List (String × String))
    (deps : List PackageGroup) : (depAccumOf sv files deps).known.Nodup :=
  nodup_processGroups_known sv deps _ List.nodup_nil

theorem depAccumOf_depIds_mem_iff (sv : Services) (files : List (String × String))
    (deps deps' : List PackageGroup) (hperm : deps.Perm deps') (a : Nat) :
    a ∈ (depAccumOf sv files deps).depIds ↔ a ∈ (depAccumOf sv files deps').depIds := by
  unfold depAccumOf
  rw [mem_processGroups_depIds, mem_processGroups_depIds]
  constructor
  · rintro (⟨g, hg, hog⟩ | hacc)
    · exact Or.inl ⟨g, hperm.subset hg, hog⟩
    · exact Or.inr hacc
  · rintro (⟨g, hg, hog⟩ | hacc)
    · exact Or.inl ⟨g, hperm.symm.subset hg, hog⟩
    · exact Or.inr hacc

theorem depAccumOf_depIds_nodup (sv : Services) (files : List (String × String))
    (deps : List PackageGroup) : (depAccumOf sv files deps).depIds.Nodup :=
  nodup_processGroups_depIds sv deps _ List.nodup_nil

theorem depAccumOf_c2o_lookup_perm (sv : Services) (files : List (String × String))
    (deps deps' : List PackageGroup) (hperm : deps.Perm deps')
    (hcf : ConflictFree sv deps) (a : Nat) :
    alLookup (depAccumOf sv files deps).c2o a = alLookup (depAccumOf sv files deps').c2o a := by
  unfold depAccumOf
  rw [lookup_processGroups_c2o, lookup_processGroups_c2o]
  congr 1
  apply findSome?_congr_perm
  · exact (deps.reverse_perm.trans hperm).trans deps'.reverse_perm.symm
  · intro g hg g' hg' y y' hy hy'
    exact groupC2oEntry_agree sv deps hcf a g (deps.reverse_perm.subset hg)
      g' (deps.reverse_perm.subset hg') y y' hy hy'

/-- C1 (counterexample): reordering the dependency groups changes the returned
`dependencies` list: with `c1GroupA` first the output address 0x22 is
kept, with `c1GroupB` first it is 0x21, because both groups bind the same
compilation address 0x10 and the c2o map's last insertion wins. -/
theorem c1_counterexample :
    [c1GroupA, c1GroupB].Perm [c1GroupB, c1GroupA] ∧
    resultDeps (compile_core c1Services exFiles [c1GroupA, c1GroupB] defaultOptions) =
      some [34] ∧
    resultDeps (compile_core c1Services exFiles [c1GroupB, c1GroupA] defaultOptions) =
      some [33] :=
  ⟨List.Perm.swap c1GroupB c1GroupA [], rfl, rfl⟩

/-- C1 (amended): when no two dependency groups bind the same compilation
address to different output addresses, and the compiler service's outcome
is unchanged by the reordering of its dependency targets, permuting the
dependency groups leaves the `dependencies` list and the `digest` of a
successful compilation unchanged. -/
theorem c1_amended_perm_invariance (sv : Services) (files : List (String × String))
    (deps deps' : List PackageGroup) (opts : CompileOptions)
    (out out' : CompilationOutput)
    (hperm : deps.Perm deps')
    (hcf : ConflictFree sv deps)
    (hsvc : sv.compilerRun (assemble_targets sv files deps) opts.testMode =
            sv.compilerRun (assemble_targets sv files deps') opts.testMode)
    (h : compile_core sv files deps opts = CompileResult.success out)
    (h' : compile_core sv files deps' opts = CompileResult.success out') :
    out.dependencies = out'.dependencies ∧ out.digest = out'.digest := by
  obtain ⟨units, ids, hrun, hver, htopo, hout⟩ :=
    compile_core_success_inversion sv files deps opts out h
  obtain ⟨units', ids', hrun', hver', htopo', hout'⟩ :=
    compile_core_success_inversion sv files deps' opts out' h'
  rw [hrun, hrun'] at hsvc
  have hueq : units = units' := CompilerOutcome.ok.inj hsvc
  subst hueq
  have hids : ids = ids' := by
    rw [htopo] at htopo'
    exact Except.ok.inj htopo'
  subst hids
  have hknown_len : (depAccumOf sv files deps).known.length =
      (depAccumOf sv files deps').known.length :=
    ((List.perm_ext_iff_of_nodup (depAccumOf_known_nodup sv files deps)
        (depAccumOf_known_nodup sv files deps')).mpr
      (depAccumOf_known_mem_iff sv files deps deps' hperm)).length_eq
  have hts : tree_shake units (resolveRoot sv files).packageName
      (depAccumOf sv files deps).known (depAccumOf sv files deps).c2o =
    tree_shake units (resolveRoot sv files).packageName
      (depAccumOf sv files deps').known (depAccumOf sv files deps').c2o :=
    tree_shake_congr units (resolveRoot sv files).packageName _ _ _ _
      (depAccumOf_known_mem_iff sv files deps deps' hperm) hknown_len
      (depAccumOf_c2o_lookup_perm sv files deps deps' hperm hcf)
  have hdepIds : (depAccumOf sv files deps).depIds.Perm (depAccumOf sv files deps').depIds :=
    (List.perm_ext_iff_of_nodup (depAccumOf_depIds_nodup sv files deps)
        (depAccumOf_depIds_nodup sv files deps')).mpr
      (depAccumOf_depIds_mem_iff sv files deps deps' hperm)
  have hfilter : ((depAccumOf sv files deps).depIds.filter (fun b =>
      (tree_shake units (resolveRoot sv files).packageName
        (depAccumOf sv files deps).known (depAccumOf sv files deps).c2o).contains b)).Perm
      ((depAccumOf sv files deps').depIds.filter (fun b =>
      (tree_shake units (resolveRoot sv files).packageName
        (depAccumOf sv files deps').known (depAccumOf sv files deps').c2o).contains b)) := by
    rw [hts]
    exact hdepIds.filter _
  have hsorted : List.insertionSort (α := Nat) (· ≤ ·)
      ((depAccumOf sv files deps).depIds.filter (fun b =>
        (tree_shake units (resolveRoot sv files).packageName
          (depAccumOf sv files deps).known (depAccumOf sv files deps).c2o).contains b)) =
    List.insertionSort (α := Nat) (· ≤ ·)
      ((depAccumOf sv files deps').depIds.filter (fun b =>
        (tree_shake units (resolveRoot sv files).packageName
          (depAccumOf sv files deps').known (depAccumOf sv files deps').c2o).contains b)) := by
    exact List.eq_of_perm_of_sorted
      (((List.perm_insertionSort _ _).trans hfilter).trans
        (List.perm_insertionSort _ _).symm)
      (List.sorted_insertionSort (· ≤ ·) _) (List.sorted_insertionSort (· ≤ ·) _)
  rw [hout, hout']
  exact ⟨hsorted, by rw [hsorted]⟩

/-- C1 (amended, witness). -/
theorem c1_amended_witness :
    [c1GroupA].Perm [c1GroupA] ∧
    compile_core c1Services exFiles [c1GroupA] defaultOptions =
      CompileResult.success ⟨[[]], [33], []⟩ ∧
    (CompilationOutput.mk [[]] [33] []).dependencies =
      (CompilationOutput.mk [[]] [33] []).dependencies ∧
    (CompilationOutput.mk [[]] [33] []).digest =
      (CompilationOutput.mk [[]] [33] []).digest := by
  have hcf : ConflictFree c1Services [c1GroupA] := by
    intro g hg g' hg' a h1 h2
    rcases List.mem_singleton.mp hg with rfl
    rcases List.mem_singleton.mp hg' with rfl
    rfl
  have hout : compile_core c1Services exFiles [c1GroupA] defaultOptions =
      CompileResult.success ⟨[[]], [33], []⟩ := rfl
  exact ⟨List.Perm.refl _, hout,
    c1_amended_perm_invariance c1Services exFiles [c1GroupA] [c1GroupA] defaultOptions
      ⟨[[]], [33], []⟩ ⟨[[]], [33], []⟩ (List.Perm.refl _) hcf rfl hout hout⟩

theorem reachSrc_mem (env : ShakeEnv) (rootName : String) (u : CUnit)
    (h : ReachSrc env rootName u) : u ∈ env.units := by
  cases h with
  | root u hu _ => exact hu
  | step u d v _ _ _ hv _ => exact hv

theorem srcScan_state (d : Nat × String) :
    ∀ (l : List CUnit) (st : ShakeState) (acc : List CUnit),
      (srcScan d l st acc).1.kept = st.kept ∧ (srcScan d l st acc).1.pubWl = st.pubWl
  | [], _, _ => ⟨rfl, rfl⟩
  | v :: rest, st, acc => by
      rw [srcScan]
      by_cases hv : unitId v = d
      · rw [if_pos hv]
        by_cases hvis : d ∈ st.visSrc
        · rw [if_pos hvis]
          exact srcScan_state d rest st acc
        · rw [if_neg hvis]
          exact srcScan_state d rest _ _
      · rw [if_neg hv]
        exact srcScan_state d rest st acc

theorem srcScan_acc (env : ShakeEnv) (rootName : String) (d : Nat × String)
    (u : CUnit) (hu : ReachSrc env rootName u) (hd : d ∈ u.deps)
    (hdp : d.1 ∉ env.published) :
    ∀ (l : List CUnit) (st : ShakeState) (acc : List CUnit),
      (∀ v ∈ l, v ∈ env.units) → (∀ v ∈ acc, ReachSrc env rootName v) →
      ∀ v ∈ (srcScan d l st acc).2, ReachSrc env rootName v
  | [], _, _, _, hacc => hacc
  | w :: rest, st, acc, hl, hacc => by
      rw [srcScan]
      by_cases hw : unitId w = d
      · rw [if_pos hw]
        by_cases hvis : d ∈ st.visSrc
        · rw [if_pos hvis]
          exact srcScan_acc env rootName d u hu hd hdp rest st acc
            (fun v hv => hl v (List.mem_cons_of_mem _ hv)) hacc
        · rw [if_neg hvis]
          apply srcScan_acc env rootName d u hu hd hdp rest _ _
            (fun v hv => hl v (List.mem_cons_of_mem _ hv))
          intro v hv
          rcases List.mem_append.mp hv with hv | hv
          · exact hacc v hv
          · have hvw : v = w := List.mem_singleton.mp hv
            rw [hvw]
            exact ReachSrc.step u d w hu hd hdp (hl w (List.mem_cons_self _ _)) hw
      · rw [if_neg hw]
        exact srcScan_acc env rootName d u hu hd hdp rest st acc
          (fun v hv => hl v (List.mem_cons_of_mem _ hv)) hacc

theorem procDep_sound (env : ShakeEnv) (rootName : String)
    (st : ShakeState) (acc : List CUnit) (d : Nat × String) (u : CUnit)
    (hu : ReachSrc env rootName u) (hd : d ∈ u.deps)
    (hinv : SoundInv env rootName st) (hacc : ∀ v ∈ acc, ReachSrc env rootName v) :
    SoundInv env rootName (procDep env st acc d).1 ∧
    (∀ v ∈ (procDep env st acc d).2, ReachSrc env rootName v) := by
  unfold procDep
  by_cases hdp : d.1 ∈ env.published
  · rw [if_pos hdp]
    have hreach : ReachPub env rootName d.1 := ReachPub.ofSrc u d hu hd hdp
    cases hlo : alLookup env.c2o d.1 with
    | none => exact ⟨hinv, hacc⟩
    | some out =>
        dsimp only
        by_cases hk : out ∈ st.kept
        · rw [if_pos hk]
          exact ⟨hinv, hacc⟩
        · rw [if_neg hk]
          by_cases hvc : d.1 ∈ st.visComp
          · rw [if_pos hvc]
            refine ⟨⟨?_, hinv.2⟩, hacc⟩
            intro a ha
            rcases List.mem_cons.mp ha with rfl | ha
            · exact ⟨d.1, hdp, hreach, hlo⟩
            · exact hinv.1 a ha
          · rw [if_neg hvc]
            refine ⟨⟨?_, ?_⟩, hacc⟩
            · intro a ha
              rcases List.mem_cons.mp ha with rfl | ha
              · exact ⟨d.1, hdp, hreach, hlo⟩
              · exact hinv.1 a ha
            · intro p hp
              rcases List.mem_cons.mp hp with rfl | hp
              · exact hreach
              · exact hinv.2 p hp
  · rw [if_neg hdp]
    refine ⟨⟨?_, ?_⟩, ?_⟩
    · intro a ha
      rw [(srcScan_state d env.units st acc).1] at ha
      exact hinv.1 a ha
    · intro p hp
      rw [(srcScan_state d env.units st acc).2] at hp
      exact hinv.2 p hp
    · exact srcScan_acc env rootName d u hu hd hdp env.units st acc (fun v hv => hv) hacc

theorem procDeps_sound (env : ShakeEnv) (rootName : String)
    (u : CUnit) (hu : ReachSrc env rootName u) :
    ∀ (ds : List (Nat × String)) (st : ShakeState) (acc : List CUnit),
      (∀ d ∈ ds, d ∈ u.deps) →
      SoundInv env rootName st → (∀ v ∈ acc, ReachSrc env rootName v) →
      SoundInv env rootName (procDeps env st acc ds).1 ∧
      (∀ v ∈ (procDeps env st acc ds).2, ReachSrc env rootName v)
  | [], _, _, _, hinv, hacc => ⟨hinv, hacc⟩
  | d :: ds, st, acc, hds, hinv, hacc => by
      rw [procDeps]
      obtain ⟨hinv1, hacc1⟩ :=
        procDep_sound env rootName st acc d u hu (hds d (List.mem_cons_self _ _)) hinv hacc
      exact procDeps_sound env rootName u hu ds _ _
        (fun e he => hds e (List.mem_cons_of_mem _ he)) hinv1 hacc1

theorem procBatch_sound (env : ShakeEnv) (rootName : String) :
    ∀ (batch : List CUnit) (st : ShakeState) (acc : List CUnit),
      (∀ v ∈ batch, ReachSrc env rootName v) →
      SoundInv env rootName st → (∀ v ∈ acc, ReachSrc env rootName v) →
      SoundInv env rootName (procBatch env st acc batch).1 ∧
      (∀ v ∈ (procBatch env st acc batch).2, ReachSrc env rootName v)
  | [], _, _, _, hinv, hacc => ⟨hinv, hacc⟩
  | u :: us, st, acc, hbatch, hinv, hacc => by
      rw [procBatch]
      obtain ⟨hinv1, hacc1⟩ :=
        procDeps_sound env rootName u (hbatch u (List.mem_cons_self _ _)) u.deps st acc
          (fun d hd => hd) hinv hacc
      exact procBatch_sound env rootName us _ _
        (fun v hv => hbatch v (List.mem_cons_of_mem _ hv)) hinv1 hacc1

theorem phase1_sound (env : ShakeEnv) (rootName : String) :
    ∀ (fuel : Nat) (st : ShakeState) (wl : List CUnit),
      SoundInv env rootName st → (∀ v ∈ wl, ReachSrc env rootName v) →
      SoundInv env rootName (phase1 env fuel st wl)
  | 0, _, _, hinv, _ => hinv
  | _ + 1, _, [], hinv, _ => hinv
  | fuel + 1, st, u :: us, hinv, hwl => by
      rw [phase1]
      obtain ⟨hinv1, hacc1⟩ := procBatch_sound env rootName (u :: us) st [] hwl hinv
        (fun v hv => absurd hv (List.not_mem_nil v))
      exact phase1_sound env rootName fuel _ _ hinv1 hacc1

theorem procPubDep_sound (env : ShakeEnv) (rootName : String)
    (st : ShakeState) (d : Nat × String) (v : CUnit) (p : Nat)
    (hp : ReachPub env rootName p) (hv : v ∈ env.units) (hva : v.addr = p)
    (hd : d ∈ v.deps) (hinv : SoundInv env rootName st) :
    SoundInv env rootName (procPubDep env st d) := by
  unfold procPubDep
  by_cases hdp : d.1 ∈ env.published
  · rw [if_pos hdp]
    have hreach : ReachPub env rootName d.1 := ReachPub.step p v d hp hv hva hd hdp
    cases hlo : alLookup env.c2o d.1 with
    | none => exact hinv
    | some out =>
        dsimp only
        by_cases hk : out ∈ st.kept
        · rw [if_pos hk]
          exact hinv
        · rw [if_neg hk]
          by_cases hvc : d.1 ∈ st.visComp
          · rw [if_pos hvc]
            refine ⟨?_, hinv.2⟩
            intro a ha
            rcases List.mem_cons.mp ha with rfl | ha
            · exact ⟨d.1, hdp, hreach, hlo⟩
            · exact hinv.1 a ha
          · rw [if_neg hvc]
            refine ⟨?_, ?_⟩
            · intro a ha
              rcases List.mem_cons.mp ha with rfl | ha
              · exact ⟨d.1, hdp, hreach, hlo⟩
              · exact hinv.1 a ha
            · intro q hq
              rcases List.mem_cons.mp hq with rfl | hq
              · exact hreach
              · exact hinv.2 q hq
  · rw [if_neg hdp]
    exact hinv

theorem procPubDeps_sound (env : ShakeEnv) (rootName : String)
    (v : CUnit) (p : Nat) (hp : ReachPub env rootName p)
    (hv : v ∈ env.units) (hva : v.addr = p) :
    ∀ (ds : List (Nat × String)) (st : ShakeState),
      (∀ d ∈ ds, d ∈ v.deps) → SoundInv env rootName st →
      SoundInv env rootName (procPubDeps env st ds)
  | [], _, _, hinv => hinv
  | d :: ds, st, hds, hinv => by
      rw [procPubDeps]
      exact procPubDeps_sound env rootName v p hp hv hva ds _
        (fun e he => hds e (List.mem_cons_of_mem _ he))
        (procPubDep_sound env rootName st d v p hp hv hva (hds d (List.mem_cons_self _ _)) hinv)

theorem pubScan_sound (env : ShakeEnv) (rootName : String) (addr : Nat)
    (hp : ReachPub env rootName addr) :
    ∀ (l : List CUnit) (st : ShakeState),
      (∀ v ∈ l, v ∈ env.units) → SoundInv env rootName st →
      SoundInv env rootName (pubScan env addr st l)
  | [], _, _, hinv => hinv
  | v :: rest, st, hl, hinv => by
      rw [pubScan]
      by_cases hva : v.addr = addr
      · rw [if_pos hva]
        exact pubScan_sound env rootName addr hp rest _
          (fun w hw => hl w (List.mem_cons_of_mem _ hw))
          (procPubDeps_sound env rootName v addr hp (hl v (List.mem_cons_self _ _)) hva
            v.deps st (fun d hd => hd) hinv)
      · rw [if_neg hva]
        exact pubScan_sound env rootName addr hp rest st
          (fun w hw => hl w (List.mem_cons_of_mem _ hw)) hinv

theorem phase2_sound (env : ShakeEnv) (rootName : String) :
    ∀ (fuel : Nat) (st : ShakeState),
      SoundInv env rootName st → SoundInv env rootName (phase2 env fuel st)
  | 0, _, hinv => hinv
  | fuel + 1, st, hinv => by
      obtain ⟨kept, visComp, pubWl, visSrc⟩ := st
      cases pubWl with
      | nil => exact hinv
      | cons addr rest =>
          rw [phase2]
          dsimp only
          apply phase2_sound env rootName fuel
          apply pubScan_sound env rootName addr (hinv.2 addr (List.mem_cons_self _ _))
            env.units _ (fun v hv => hv)
          exact ⟨hinv.1, fun p hp => hinv.2 p (List.mem_cons_of_mem _ hp)⟩

theorem tree_shake_sound (units : List CUnit) (rootName : String)
    (known : List Nat) (c2o : List (Nat × Nat)) (a : Nat)
    (ha : a ∈ tree_shake units rootName known c2o) :
    ∃ p, p ∈ known ∧ ReachPub ⟨units, known, c2o⟩ rootName p ∧
      alLookup c2o p = some a := by
  unfold tree_shake at ha
  dsimp only at ha
  have hroots : ∀ v ∈ rootUnitsOf units rootName, ReachSrc ⟨units, known, c2o⟩ rootName v := by
    intro v hv
    rw [rootUnitsOf, List.mem_filter] at hv
    exact ReachSrc.root v hv.1 hv.2
  have hinv0 : SoundInv ⟨units, known, c2o⟩ rootName
      ⟨[], [], [], initVisSrc (rootUnitsOf units rootName) []⟩ :=
    ⟨fun x hx => absurd hx (List.not_mem_nil x), fun p hp => absurd hp (List.not_mem_nil p)⟩
  exact (phase2_sound ⟨units, known, c2o⟩ rootName _ _
    (phase1_sound ⟨units, known, c2o⟩ rootName _ _ _ hinv0 hroots)).1 a ha

theorem c3_reach_eq (a : Nat)
    (h : ReachPub c3Env (resolveRoot c3Services exFiles).packageName a) : a = 32 := by
  induction h with
  | ofSrc u d hsrc hd hdp =>
      have hu : u ∈ ([c3Root, c3UnitQ] : List CUnit) := reachSrc_mem _ _ _ hsrc
      rcases List.mem_cons.mp hu with rfl | hu
      · rcases List.mem_singleton.mp hd with rfl
        rfl
      · rcases List.mem_singleton.mp hu with rfl
        exact absurd hd (List.not_mem_nil d)
  | step p v d hp hv hva hd hdp ih =>
      have hv' : v ∈ ([c3Root, c3UnitQ] : List CUnit) := hv
      rcases List.mem_cons.mp hv' with rfl | hv'
      · rcases List.mem_singleton.mp hd with rfl
        rfl
      · rcases List.mem_singleton.mp hv' with rfl
        exact absurd hd (List.not_mem_nil d)

theorem c3w_no_src (u : CUnit)
    (h : ReachSrc ⟨[c3UnitQ], (depAccumOf c3wServices exFiles [c3GroupP]).known,
        (depAccumOf c3wServices exFiles [c3GroupP]).c2o⟩
      (resolveRoot c3wServices exFiles).packageName u) : False := by
  induction h with
  | root u hu hru =>
      rcases List.mem_singleton.mp hu with rfl
      exact absurd hru (by decide)
  | step u d v hu hd hdp hv hid ih => exact ih

theorem c3w_no_reach (a : Nat)
    (h : ReachPub ⟨[c3UnitQ], (depAccumOf c3wServices exFiles [c3GroupP]).known,
        (depAccumOf c3wServices exFiles [c3GroupP]).c2o⟩
      (resolveRoot c3wServices exFiles).packageName a) : False := by
  induction h with
  | ofSrc u d hsrc hd hdp => exact c3w_no_src u hsrc
  | step p v d hp hv hva hd hdp ih => exact ih

/-- C3 (counterexample): a dependency package can be unreachable by the two-phase traversal
and still contribute its output address to `dependencies`: with
`c3Groups`, package P (compilation address 0x10) is never reached yet its
output address 0x30 = 48 is returned, because the reached package Q shares
that output address. -/
theorem c3_counterexample :
    groupCompId c3Services c3GroupP = some 16 ∧
    groupOutId c3Services c3GroupP = some 48 ∧
    ¬ ReachPub c3Env (resolveRoot c3Services exFiles).packageName 16 ∧
    resultDeps (compile_core c3Services exFiles c3Groups defaultOptions) = some [48] :=
  ⟨rfl, rfl, fun h => absurd (c3_reach_eq 16 h) (by decide), rfl⟩

/-- C3 (amended): pruning is sound up to output-address aliasing.  For a
successful compilation, if the compilation-to-output map sends `pComp` to
`pOut`, no other known compilation address is sent to `pOut`, and `pComp`
is not reachable by the two-phase traversal, then `pOut` is absent from
the returned `dependencies`. -/
theorem c3_amended_pruning_sound (sv : Services) (files : List (String × String))
    (deps : List PackageGroup) (opts : CompileOptions) (out : CompilationOutput)
    (units : List CUnit) (pComp pOut : Nat)
    (hrun : sv.compilerRun (assemble_targets sv files deps) opts.testMode =
      CompilerOutcome.ok units)
    (h : compile_core sv files deps opts = CompileResult.success out)
    (hc2o : alLookup (depAccumOf sv files deps).c2o pComp = some pOut)
    (hinj : ∀ q, q ∈ (depAccumOf sv files deps).known →
      alLookup (depAccumOf sv files deps).c2o q = some pOut → q = pComp)
    (hnr : ¬ ReachPub ⟨units, (depAccumOf sv files deps).known,
        (depAccumOf sv files deps).c2o⟩ (resolveRoot sv files).packageName pComp) :
    pOut ∉ out.dependencies := by
  intro hmem
  obtain ⟨units', ids, hrun', hver, htopo, hout⟩ :=
    compile_core_success_inversion sv files deps opts out h
  rw [hrun] at hrun'
  obtain rfl : units = units' := CompilerOutcome.ok.inj hrun'
  rw [hout] at hmem
  dsimp only at hmem
  have hmem2 := (List.perm_insertionSort (α := Nat) (· ≤ ·) _).subset hmem
  have hsplit := List.mem_filter.mp hmem2
  have hkept : pOut ∈ tree_shake units (resolveRoot sv files).packageName
      (depAccumOf sv files deps).known (depAccumOf sv files deps).c2o :=
    List.mem_of_elem_eq_true hsplit.2
  obtain ⟨q, hq, hreach, hlq⟩ := tree_shake_sound units _ _ _ pOut hkept
  rw [hinj q hq hlq] at hreach
  exact hnr hreach

/-- C3 (amended, witness). -/
theorem c3_amended_witness :
    compile_core c3wServices exFiles [c3GroupP] defaultOptions =
      CompileResult.success ⟨[], [], []⟩ ∧
    alLookup (depAccumOf c3wServices exFiles [c3GroupP]).c2o 16 = some 48 ∧
    48 ∉ (CompilationOutput.mk [] [] []).dependencies := by
  refine ⟨rfl, rfl, ?_⟩
  refine c3_amended_pruning_sound c3wServices exFiles [c3GroupP] defaultOptions
    ⟨[], [], []⟩ [c3UnitQ] 16 48 rfl rfl rfl ?_ ?_
  · intro q hq _
    exact List.mem_singleton.mp hq
  · exact fun h => c3w_no_reach 16 h

theorem StExt.refl (st : ShakeState) : StExt st st :=
  ⟨fun _ h => h, fun _ h => h, fun _ h => h⟩

theorem StExt.trans {s1 s2 s3 : ShakeState} (h : StExt s1 s2) (h' : StExt s2 s3) :
    StExt s1 s3 :=
  ⟨fun a ha => h'.1 a (h.1 a ha), fun p hp => h'.2.1 p (h.2.1 p hp),
   fun i hi => h'.2.2 i (h.2.2 i hi)⟩

theorem edgeDone_mono {env : ShakeEnv} {d : Nat × String} {st st' : ShakeState}
    (h : EdgeDone env d st) (hext : StExt st st') : EdgeDone env d st' :=
  ⟨fun hp o ho => hext.1 o (h.1 hp o ho),
   fun hp v hv hid => hext.2.2 d (h.2 hp v hv hid)⟩

theorem unitDone_mono {env : ShakeEnv} {u : CUnit} {st st' : ShakeState}
    (h : UnitDone env u st) (hext : StExt st st') : UnitDone env u st' :=
  fun d hd => edgeDone_mono (h d hd) hext

theorem pubDone_mono {env : ShakeEnv} {p : Nat} {st st' : ShakeState}
    (h : PubDone env p st) (hext : StExt st st') : PubDone env p st' :=
  fun v hv hva d hd hdp o ho => hext.1 o (h v hv hva d hd hdp o ho)

/-! srcScan bookkeeping -/
theorem srcScan_fields (d : Nat × String) :
    ∀ (l : List CUnit) (st : ShakeState) (acc : List CUnit),
      (srcScan d l st acc).1.kept = st.kept ∧
      (srcScan d l st acc).1.visComp = st.visComp ∧
      (srcScan d l st acc).1.pubWl = st.pubWl
  | [], _, _ => ⟨rfl, rfl, rfl⟩
  | v :: rest, st, acc => by
      rw [srcScan]
      by_cases hv : unitId v = d
      · rw [if_pos hv]
        by_cases hvis : d ∈ st.visSrc
        · rw [if_pos hvis]
          exact srcScan_fields d rest st acc
        · rw [if_neg hvis]
          exact srcScan_fields d rest _ _
      · rw [if_neg hv]
        exact srcScan_fields d rest st acc

theorem srcScan_visSrc_mono (d : Nat × String) :
    ∀ (l : List CUnit) (st : ShakeState) (acc : List CUnit),
      ∀ i ∈ st.visSrc, i ∈ (srcScan d l st acc).1.visSrc
  | [], _, _, _, hi => hi
  | v :: rest, st, acc, i, hi => by
      rw [srcScan]
      by_cases hv : unitId v = d
      · rw [if_pos hv]
        by_cases hvis : d ∈ st.visSrc
        · rw [if_pos hvis]
          exact srcScan_visSrc_mono d rest st acc i hi
        · rw [if_neg hvis]
          exact srcScan_visSrc_mono d rest _ _ i (List.mem_cons_of_mem _ hi)
      · rw [if_neg hv]
        exact srcScan_visSrc_mono d rest st acc i hi

theorem srcScan_ext (d : Nat × String) (l : List CUnit) (st : ShakeState)
    (acc : List CUnit) : StExt st (srcScan d l st acc).1 :=
  ⟨fun a ha => ((srcScan_fields d l st acc).1).symm ▸ ha,
   fun p hp => ((srcScan_fields d l st acc).2.1).symm ▸ hp,
   fun i hi => srcScan_visSrc_mono d l st acc i hi⟩

theorem srcScan_acc_keep (d : Nat × String) :
    ∀ (l : List CUnit) (st : ShakeState) (acc : List CUnit),
      ∀ v ∈ acc, v ∈ (srcScan d l st acc).2
  | [], _, _, _, hv => hv
  | w :: rest, st, acc, v, hv => by
      rw [srcScan]
      by_cases hw : unitId w = d
      · rw [if_pos hw]
        by_cases hvis : d ∈ st.visSrc
        · rw [if_pos hvis]
          exact srcScan_acc_keep d rest st acc v hv
        · rw [if_neg hvis]
          exact srcScan_acc_keep d rest _ _ v (List.mem_append_left _ hv)
      · rw [if_neg hw]
        exact srcScan_acc_keep d rest st acc v hv

theorem srcScan_acc_sub (d : Nat × String) :
    ∀ (l : List CUnit) (st : ShakeState) (acc : List CUnit),
      ∀ v ∈ (srcScan d l st acc).2, v ∈ acc ∨ v ∈ l
  | [], _, _, _, hv => Or.inl hv
  | w :: rest, st, acc, v, hv => by
      rw [srcScan] at hv
      by_cases hw : unitId w = d
      · rw [if_pos hw] at hv
        by_cases hvis : d ∈ st.visSrc
        · rw [if_pos hvis] at hv
          rcases srcScan_acc_sub d rest st acc v hv with h | h
          · exact Or.inl h
          · exact Or.inr (List.mem_cons_of_mem _ h)
        · rw [if_neg hvis] at hv
          rcases srcScan_acc_sub d rest _ _ v hv with h | h
          · rcases List.mem_append.mp h with h | h
            · exact Or.inl h
            · rcases List.mem_singleton.mp h with rfl
              exact Or.inr (List.mem_cons_self _ _)
          · exact Or.inr (List.mem_cons_of_mem _ h)
      · rw [if_neg hw] at hv
        rcases srcScan_acc_sub d rest st acc v hv with h | h
        · exact Or.inl h
        · exact Or.inr (List.mem_cons_of_mem _ h)

theorem srcScan_visSrc_new (d : Nat × String) :
    ∀ (l : List CUnit) (st : ShakeState) (acc : List CUnit),
      ∀ i ∈ (srcScan d l st acc).1.visSrc, i ∈ st.visSrc ∨ i = d
  | [], _, _, _, hi => Or.inl hi
  | w :: rest, st, acc, i, hi => by
      rw [srcScan] at hi
      by_cases hw : unitId w = d
      · rw [if_pos hw] at hi
        by_cases hvis : d ∈ st.visSrc
        · rw [if_pos hvis] at hi
          exact srcScan_visSrc_new d rest st acc i hi
        · rw [if_neg hvis] at hi
          rcases srcScan_visSrc_new d rest _ _ i hi with h | h
          · rcases List.mem_cons.mp h with rfl | h
            · exact Or.inr rfl
            · exact Or.inl h
          · exact Or.inr h
      · rw [if_neg hw] at hi
        exact srcScan_visSrc_new d rest st acc i hi

theorem srcScan_covers (d : Nat × String) :
    ∀ (l : List CUnit) (st : ShakeState) (acc : List CUnit),
      ∀ v ∈ l, unitId v = d → d ∈ (srcScan d l st acc).1.visSrc
  | [], _, _, _, hv, _ => absurd hv (List.not_mem_nil _)
  | w :: rest, st, acc, v, hv, hvd => by
      rw [srcScan]
      by_cases hw : unitId w = d
      · rw [if_pos hw]
        by_cases hvis : d ∈ st.visSrc
        · rw [if_pos hvis]
          exact srcScan_visSrc_mono d rest st acc d hvis
        · rw [if_neg hvis]
          exact srcScan_visSrc_mono d rest _ _ d (List.mem_cons_self _ _)
      · rw [if_neg hw]
        rcases List.mem_cons.mp hv with rfl | hv'
        · exact absurd hvd hw
        · exact srcScan_covers d rest st acc v hv' hvd

theorem srcScan_mark_acc (d : Nat × String) :
    ∀ (l : List CUnit) (st : ShakeState) (acc : List CUnit),
      d ∉ st.visSrc → d ∈ (srcScan d l st acc).1.visSrc →
      ∃ v ∈ (srcScan d l st acc).2, unitId v = d
  | [], _, _, hvis, hmark => absurd hmark hvis
  | w :: rest, st, acc, hvis, hmark => by
      rw [srcScan] at hmark ⊢
      by_cases hw : unitId w = d
      · rw [if_pos hw] at hmark ⊢
        rw [if_neg hvis] at hmark ⊢
        exact ⟨w, srcScan_acc_keep d rest _ _ w
          (List.mem_append_right _ (List.mem_singleton.mpr rfl)), hw⟩
      · rw [if_neg hw] at hmark ⊢
        exact srcScan_mark_acc d rest st acc hvis hmark

/-! phase-1 step lemmas -/
theorem procDep_step (env : ShakeEnv) (hnodup : (env.units.map unitId).Nodup)
    (Q : CUnit → Prop) (st : ShakeState) (acc : List CUnit) (d : Nat × String)
    (hP : P1St env st) (hacc : ∀ v ∈ acc, v ∈ env.units)
    (hA : ∀ id ∈ st.visSrc, ∀ v ∈ env.units, unitId v = id →
      Q v ∨ v ∈ acc ∨ UnitDone env v st) :
    StExt st (procDep env st acc d).1 ∧
    P1St env (procDep env st acc d).1 ∧
    EdgeDone env d (procDep env st acc d).1 ∧
    (∀ v ∈ (procDep env st acc d).2, v ∈ env.units) ∧
    (∀ id ∈ (procDep env st acc d).1.visSrc, ∀ v ∈ env.units, unitId v = id →
      Q v ∨ v ∈ (procDep env st acc d).2 ∨ UnitDone env v (procDep env st acc d).1) := by
  unfold procDep
  by_cases hdp : d.1 ∈ env.published
  · rw [if_pos hdp]
    cases hlo : alLookup env.c2o d.1 with
    | none =>
        refine ⟨StExt.refl st, hP, ⟨?_, fun hnp => absurd hdp hnp⟩, hacc, hA⟩
        intro _ o ho
        rw [hlo] at ho
        cases ho
    | some out =>
        dsimp only
        by_cases hk : out ∈ st.kept
        · rw [if_pos hk]
          refine ⟨StExt.refl st, hP, ⟨?_, fun hnp => absurd hdp hnp⟩, hacc, hA⟩
          intro _ o ho
          rw [hlo] at ho
          exact (Option.some.inj ho) ▸ hk
        · rw [if_neg hk]
          by_cases hvc : d.1 ∈ st.visComp
          · rw [if_pos hvc]
            have hext : StExt st { st with kept := out :: st.kept } :=
              ⟨fun a ha => List.mem_cons_of_mem _ ha, fun p hp => hp, fun i hi => hi⟩
            refine ⟨hext, ⟨?_, ?_, hP.2.2.1, hP.2.2.2⟩,
              ⟨?_, fun hnp => absurd hdp hnp⟩, hacc, ?_⟩
            · intro a ha
              rcases List.mem_cons.mp ha with rfl | ha
              · exact ⟨d.1, hvc, hlo⟩
              · obtain ⟨p, hp1, hp2⟩ := hP.1 a ha
                exact ⟨p, hp1, hp2⟩
            · intro p hp
              obtain ⟨o, ho1, ho2⟩ := hP.2.1 p hp
              exact ⟨o, ho1, List.mem_cons_of_mem _ ho2⟩
            · intro _ o ho
              rw [hlo] at ho
              exact (Option.some.inj ho) ▸ List.mem_cons_self _ _
            · intro id hid v hv hvid
              rcases hA id hid v hv hvid with h | h | h
              · exact Or.inl h
              · exact Or.inr (Or.inl h)
              · exact Or.inr (Or.inr (unitDone_mono h hext))
          · rw [if_neg hvc]
            have hext : StExt st { st with kept := out :: st.kept, visComp := d.1 :: st.visComp, pubWl := d.1 :: st.pubWl } :=
              ⟨fun a ha => List.mem_cons_of_mem _ ha,
               fun p hp => List.mem_cons_of_mem _ hp, fun i hi => hi⟩
            refine ⟨hext, ⟨?_, ?_, ?_, ?_⟩, ⟨?_, fun hnp => absurd hdp hnp⟩, hacc, ?_⟩
            · intro a ha
              rcases List.mem_cons.mp ha with rfl | ha
              · exact ⟨d.1, List.mem_cons_self _ _, hlo⟩
              · obtain ⟨p, hp1, hp2⟩ := hP.1 a ha
                exact ⟨p, List.mem_cons_of_mem _ hp1, hp2⟩
            · intro p hp
              rcases List.mem_cons.mp hp with rfl | hp
              · exact ⟨out, hlo, List.mem_cons_self _ _⟩
              · obtain ⟨o, ho1, ho2⟩ := hP.2.1 p hp
                exact ⟨o, ho1, List.mem_cons_of_mem _ ho2⟩
            · intro p hp
              rcases List.mem_cons.mp hp with rfl | hp
              · exact List.mem_cons_self _ _
              · exact List.mem_cons_of_mem _ (hP.2.2.1 p hp)
            · intro p hp
              rcases List.mem_cons.mp hp with rfl | hp
              · exact List.mem_cons_self _ _
              · exact List.mem_cons_of_mem _ (hP.2.2.2 p hp)
            · intro _ o ho
              rw [hlo] at ho
              exact (Option.some.inj ho) ▸ List.mem_cons_self _ _
            · intro id hid v hv hvid
              rcases hA id hid v hv hvid with h | h | h
              · exact Or.inl h
              · exact Or.inr (Or.inl h)
              · exact Or.inr (Or.inr (unitDone_mono h hext))
  · rw [if_neg hdp]
    have hfields := srcScan_fields d env.units st acc
    have hext := srcScan_ext d env.units st acc
    refine ⟨hext, ⟨?_, ?_, ?_, ?_⟩, ⟨fun hp => absurd hp hdp, ?_⟩, ?_, ?_⟩
    · intro a ha
      rw [hfields.1] at ha
      obtain ⟨p, hp1, hp2⟩ := hP.1 a ha
      rw [hfields.2.1]
      exact ⟨p, hp1, hp2⟩
    · intro p hp
      rw [hfields.2.1] at hp
      obtain ⟨o, ho1, ho2⟩ := hP.2.1 p hp
      rw [hfields.1]
      exact ⟨o, ho1, ho2⟩
    · intro p hp
      rw [hfields.2.2] at hp
      rw [hfields.2.1]
      exact hP.2.2.1 p hp
    · intro p hp
      rw [hfields.2.1] at hp
      rw [hfields.2.2]
      exact hP.2.2.2 p hp
    · intro _ v hv hvid
      exact srcScan_covers d env.units st acc v hv hvid
    · intro v hv
      rcases srcScan_acc_sub d env.units st acc v hv with h | h
      · exact hacc v h
      · exact h
    · intro id hid v hv hvid
      rcases srcScan_visSrc_new d env.units st acc id hid with hold | heq
      · rcases hA id hold v hv hvid with h | h | h
        · exact Or.inl h
        · exact Or.inr (Or.inl (srcScan_acc_keep d env.units st acc v h))
        · exact Or.inr (Or.inr (unitDone_mono h hext))
      · have hvd : unitId v = d := by rw [hvid, heq]
        have hidd : d ∈ (srcScan d env.units st acc).1.visSrc := by
          have h0 := hid
          rw [heq] at h0
          exact h0
        by_cases hvis : d ∈ st.visSrc
        · rcases hA d hvis v hv hvd with h | h | h
          · exact Or.inl h
          · exact Or.inr (Or.inl (srcScan_acc_keep d env.units st acc v h))
          · exact Or.inr (Or.inr (unitDone_mono h hext))
        · obtain ⟨w, hw2, hwid⟩ := srcScan_mark_acc d env.units st acc hvis hidd
          have hwu : w ∈ env.units := by
            rcases srcScan_acc_sub d env.units st acc w hw2 with h | h
            · exact hacc w h
            · exact h
          have hvw : v = w := List.inj_on_of_nodup_map hnodup hv hwu (hvd.trans hwid.symm)
          rw [hvw]
          exact Or.inr (Or.inl hw2)

theorem procDeps_step (env : ShakeEnv) (hnodup : (env.units.map unitId).Nodup)
    (Q : CUnit → Prop) (u : CUnit) :
    ∀ (ds : List (Nat × String)) (st : ShakeState) (acc : List CUnit),
      (∀ d ∈ ds, d ∈ u.deps) →
      P1St env st → (∀ v ∈ acc, v ∈ env.units) →
      (∀ id ∈ st.visSrc, ∀ v ∈ env.units, unitId v = id →
        Q v ∨ v ∈ acc ∨ UnitDone env v st) →
      (∀ d ∈ u.deps, d ∈ ds ∨ EdgeDone env d st) →
      StExt st (procDeps env st acc ds).1 ∧
      P1St env (procDeps env st acc ds).1 ∧
      (∀ v ∈ (procDeps env st acc ds).2, v ∈ env.units) ∧
      (∀ id ∈ (procDeps env st acc ds).1.visSrc, ∀ v ∈ env.units, unitId v = id →
        Q v ∨ v ∈ (procDeps env st acc ds).2 ∨ UnitDone env v (procDeps env st acc ds).1) ∧
      UnitDone env u (procDeps env st acc ds).1
  | [], st, acc, _, hP, hacc, hA, hprog =>
      ⟨StExt.refl st, hP, hacc, hA,
       fun d hd => (hprog d hd).resolve_left (List.not_mem_nil d)⟩
  | d :: ds, st, acc, hds, hP, hacc, hA, hprog => by
      rw [procDeps]
      obtain ⟨hext, hP1, hED, hacc1, hA1⟩ := procDep_step env hnodup Q st acc d hP hacc hA
      have hprog1 : ∀ e ∈ u.deps, e ∈ ds ∨ EdgeDone env e (procDep env st acc d).1 := by
        intro e he
        rcases hprog e he with hin | hdone
        · rcases List.mem_cons.mp hin with rfl | hin'
          · exact Or.inr hED
          · exact Or.inl hin'
        · exact Or.inr (edgeDone_mono hdone hext)
      obtain ⟨hext2, hP2, hacc2, hA2, hUD⟩ := procDeps_step env hnodup Q u ds _ _
        (fun e he => hds e (List.mem_cons_of_mem _ he)) hP1 hacc1 hA1 hprog1
      exact ⟨hext.trans hext2, hP2, hacc2, hA2, hUD⟩

theorem procBatch_step (env : ShakeEnv) (hnodup : (env.units.map unitId).Nodup) :
    ∀ (batch : List CUnit) (st : ShakeState) (acc : List CUnit),
      (∀ v ∈ batch, v ∈ env.units) → P1St env st → (∀ v ∈ acc, v ∈ env.units) →
      (∀ id ∈ st.visSrc, ∀ v ∈ env.units, unitId v = id →
        v ∈ batch ∨ v ∈ acc ∨ UnitDone env v st) →
      StExt st (procBatch env st acc batch).1 ∧
      P1St env (procBatch env st acc batch).1 ∧
      (∀ v ∈ (procBatch env st acc batch).2, v ∈ env.units) ∧
      (∀ id ∈ (procBatch env st acc batch).1.visSrc, ∀ v ∈ env.units, unitId v = id →
        v ∈ (procBatch env st acc batch).2 ∨ UnitDone env v (procBatch env st acc batch).1)
  | [], st, acc, _, hP, hacc, hA =>
      ⟨StExt.refl st, hP, hacc, fun id hid v hv hvid =>
        (hA id hid v hv hvid).resolve_left (List.not_mem_nil v)⟩
  | u :: us, st, acc, hbatch, hP, hacc, hA => by
      rw [procBatch]
      have hA' : ∀ id ∈ st.visSrc, ∀ v ∈ env.units, unitId v = id →
          (v = u ∨ v ∈ us) ∨ v ∈ acc ∨ UnitDone env v st := by
        intro id hid v hv hvid
        rcases hA id hid v hv hvid with hb | h
        · exact Or.inl (List.mem_cons.mp hb)
        · exact Or.inr h
      obtain ⟨hext, hP1, hacc1, hA1, hUD⟩ :=
        procDeps_step env hnodup (fun v => v = u ∨ v ∈ us) u u.deps st acc
          (fun d hd => hd) hP hacc hA' (fun d hd => Or.inl hd)
      have hA2 : ∀ id ∈ (procDeps env st acc u.deps).1.visSrc, ∀ v ∈ env.units,
          unitId v = id → v ∈ us ∨ v ∈ (procDeps env st acc u.deps).2 ∨
            UnitDone env v (procDeps env st acc u.deps).1 := by
        intro id hid v hv hvid
        rcases hA1 id hid v hv hvid with (rfl | hus) | h | h
        · exact Or.inr (Or.inr hUD)
        · exact Or.inl hus
        · exact Or.inr (Or.inl h)
        · exact Or.inr (Or.inr h)
      obtain ⟨hext2, hP2, hacc2, hA3⟩ := procBatch_step env hnodup us _ _
        (fun v hv => hbatch v (List.mem_cons_of_mem _ hv)) hP1 hacc1 hA2
      exact ⟨hext.trans hext2, hP2, hacc2, hA3⟩

/-! fuel accounting for phase 1 -/
theorem filter_length_mono (p q : α → Bool) (himp : ∀ x, q x = true → p x = true) :
    ∀ l : List α, (l.filter q).length ≤ (l.filter p).length
  | [] => Nat.le_refl 0
  | x :: xs => by
      by_cases hq : q x = true
      · have hp := himp x hq
        simp only [List.filter_cons, hq, hp, if_true, List.length_cons]
        exact Nat.succ_le_succ (filter_length_mono p q himp xs)
      · by_cases hp : p x = true
        · simp only [List.filter_cons, hq, hp, if_true, if_false, List.length_cons]
          exact Nat.le_trans (filter_length_mono p q himp xs) (Nat.le_succ _)
        · simp only [List.filter_cons, hq, hp, if_false]
          exact filter_length_mono p q himp xs

theorem filter_length_lt (p q : α → Bool) (himp : ∀ x, q x = true → p x = true)
    (a : α) (hpa : p a = true) (hqa : q a = false) :
    ∀ l : List α, a ∈ l → (l.filter q).length < (l.filter p).length
  | [], hmem => absurd hmem (List.not_mem_nil a)
  | x :: xs, hmem => by
      rcases List.mem_cons.mp hmem with rfl | ha
      · simp only [List.filter_cons, hqa, hpa, if_true, if_false, List.length_cons]
        exact Nat.lt_succ_of_le (filter_length_mono p q himp xs)
      · by_cases hq : q x = true
        · have hp := himp x hq
          simp only [List.filter_cons, hq, hp, if_true, List.length_cons]
          exact Nat.succ_lt_succ (filter_length_lt p q himp a hpa hqa xs ha)
        · by_cases hp : p x = true
          · simp only [List.filter_cons, hq, hp, if_true, if_false, List.length_cons]
            exact Nat.lt_succ_of_lt (filter_length_lt p q himp a hpa hqa xs ha)
          · simp only [List.filter_cons, hq, hp, if_false]
            exact filter_length_lt p q himp a hpa hqa xs ha

theorem srcScan_meas (env : ShakeEnv) (d : Nat × String) :
    ∀ (l : List CUnit) (st : ShakeState) (acc : List CUnit),
      (∀ v ∈ l, v ∈ env.units) →
      nFresh env (srcScan d l st acc).1 + (srcScan d l st acc).2.length ≤
        nFresh env st + acc.length
  | [], _, _, _ => Nat.le_refl _
  | w :: rest, st, acc, hl => by
      rw [srcScan]
      by_cases hw : unitId w = d
      · rw [if_pos hw]
        by_cases hvis : d ∈ st.visSrc
        · rw [if_pos hvis]
          exact srcScan_meas env d rest st acc (fun v hv => hl v (List.mem_cons_of_mem _ hv))
        · rw [if_neg hvis]
          have h1 := srcScan_meas env d rest { st with visSrc := d :: st.visSrc }
            (acc ++ [w]) (fun v hv => hl v (List.mem_cons_of_mem _ hv))
          rw [List.length_append, List.length_singleton] at h1
          have h2 : nFresh env { st with visSrc := d :: st.visSrc } < nFresh env st := by
            simp only [nFresh]
            apply filter_length_lt _ _ ?_ w ?_ ?_ env.units (hl w (List.mem_cons_self _ _))
            · intro x hx
              simp only [decide_eq_true_eq] at hx ⊢
              exact fun hmem => hx (List.mem_cons_of_mem _ hmem)
            · simp only [decide_eq_true_eq]
              rw [hw]
              exact hvis
            · simp [hw]
          omega
      · rw [if_neg hw]
        exact srcScan_meas env d rest st acc (fun v hv => hl v (List.mem_cons_of_mem _ hv))

theorem procDep_meas (env : ShakeEnv) (st : ShakeState) (acc : List CUnit)
    (d : Nat × String) :
    nFresh env (procDep env st acc d).1 + (procDep env st acc d).2.length ≤
      nFresh env st + acc.length := by
  unfold procDep
  by_cases hdp : d.1 ∈ env.published
  · rw [if_pos hdp]
    cases alLookup env.c2o d.1 with
    | none => exact Nat.le_refl _
    | some out =>
        dsimp only
        by_cases hk : out ∈ st.kept
        · rw [if_pos hk]
          try exact Nat.le_refl _
        · rw [if_neg hk]
          by_cases hvc : d.1 ∈ st.visComp
          · rw [if_pos hvc]
            try exact Nat.le_refl _
          · rw [if_neg hvc]
            try exact Nat.le_refl _
  · rw [if_neg hdp]
    exact srcScan_meas env d env.units st acc (fun v hv => hv)

theorem procDeps_meas (env : ShakeEnv) :
    ∀ (ds : List (Nat × String)) (st : ShakeState) (acc : List CUnit),
      nFresh env (procDeps env st acc ds).1 + (procDeps env st acc ds).2.length ≤
        nFresh env st + acc.length
  | [], _, _ => Nat.le_refl _
  | d :: ds, st, acc => by
      rw [procDeps]
      exact Nat.le_trans (procDeps_meas env ds _ _) (procDep_meas env st acc d)

theorem procBatch_meas (env : ShakeEnv) :
    ∀ (batch : List CUnit) (st : ShakeState) (acc : List CUnit),
      nFresh env (procBatch env st acc batch).1 + (procBatch env st acc batch).2.length ≤
        nFresh env st + acc.length
  | [], _, _ => Nat.le_refl _
  | u :: us, st, acc => by
      rw [procBatch]
      exact Nat.le_trans (procBatch_meas env us _ _) (procDeps_meas env u.deps st acc)

theorem phase1_done (env : ShakeEnv) (hnodup : (env.units.map unitId).Nodup) :
    ∀ (fuel : Nat) (st : ShakeState) (batch : List CUnit),
      nFresh env st + batch.length < fuel →
      (∀ v ∈ batch, v ∈ env.units) → P1St env st →
      (∀ id ∈ st.visSrc, ∀ v ∈ env.units, unitId v = id →
        v ∈ batch ∨ UnitDone env v st) →
      StExt st (phase1 env fuel st batch) ∧
      P1St env (phase1 env fuel st batch) ∧
      (∀ id ∈ (phase1 env fuel st batch).visSrc, ∀ v ∈ env.units, unitId v = id →
        UnitDone env v (phase1 env fuel st batch))
  | 0, _, _, hfuel, _, _, _ => absurd hfuel (by omega)
  | fuel + 1, st, [], _, _, hP, hA =>
      ⟨StExt.refl st, hP, fun id hid v hv hvid =>
        (hA id hid v hv hvid).resolve_left (List.not_mem_nil v)⟩
  | fuel + 1, st, u :: us, hfuel, hbatch, hP, hA => by
      rw [phase1]
      have hA0 : ∀ id ∈ st.visSrc, ∀ v ∈ env.units, unitId v = id →
          v ∈ u :: us ∨ v ∈ ([] : List CUnit) ∨ UnitDone env v st := by
        intro id hid v hv hvid
        rcases hA id hid v hv hvid with h | h
        · exact Or.inl h
        · exact Or.inr (Or.inr h)
      obtain ⟨hext, hP1, hacc1, hA1⟩ := procBatch_step env hnodup (u :: us) st []
        hbatch hP (fun v hv => absurd hv (List.not_mem_nil v)) hA0
      have hmeas := procBatch_meas env (u :: us) st []
      rw [List.length_nil] at hmeas
      rw [List.length_cons] at hfuel
      have hfuel1 : nFresh env (procBatch env st [] (u :: us)).1 +
          (procBatch env st [] (u :: us)).2.length < fuel := by omega
      obtain ⟨hext2, hP2, hdone⟩ := phase1_done env hnodup fuel _ _ hfuel1 hacc1 hP1 hA1
      exact ⟨hext.trans hext2, hP2, hdone⟩

theorem procPubDep_step2 (env : ShakeEnv) (st : ShakeState) (d : Nat × String)
    (hP : P2St env st) :
    StExt st (procPubDep env st d) ∧
    P2St env (procPubDep env st d) ∧
    (d.1 ∈ env.published → ∀ o, alLookup env.c2o d.1 = some o →
      o ∈ (procPubDep env st d).kept) ∧
    (∀ p ∈ st.pubWl, p ∈ (procPubDep env st d).pubWl) ∧
    (∀ p ∈ (procPubDep env st d).visComp,
      p ∈ st.visComp ∨ p ∈ (procPubDep env st d).pubWl) ∧
    (procPubDep env st d).visSrc = st.visSrc := by
  unfold procPubDep
  by_cases hdp : d.1 ∈ env.published
  · rw [if_pos hdp]
    cases hlo : alLookup env.c2o d.1 with
    | none =>
        refine ⟨StExt.refl st, hP, ?_, fun p hp => hp, fun p hp => Or.inl hp, rfl⟩
        intro _ o ho
        cases ho
    | some out =>
        dsimp only
        by_cases hk : out ∈ st.kept
        · rw [if_pos hk]
          refine ⟨StExt.refl st, hP, ?_, fun p hp => hp, fun p hp => Or.inl hp, rfl⟩
          intro _ o ho
          exact (Option.some.inj ho) ▸ hk
        · rw [if_neg hk]
          by_cases hvc : d.1 ∈ st.visComp
          · rw [if_pos hvc]
            refine ⟨⟨fun a ha => List.mem_cons_of_mem _ ha, fun p hp => hp, fun i hi => hi⟩,
              ⟨?_, ?_, hP.2.2⟩, ?_, fun p hp => hp, fun p hp => Or.inl hp, rfl⟩
            · intro a ha
              rcases List.mem_cons.mp ha with rfl | ha
              · exact ⟨d.1, hvc, hlo⟩
              · obtain ⟨p, hp1, hp2⟩ := hP.1 a ha
                exact ⟨p, hp1, hp2⟩
            · intro p hp
              obtain ⟨o, ho1, ho2⟩ := hP.2.1 p hp
              exact ⟨o, ho1, List.mem_cons_of_mem _ ho2⟩
            · intro _ o ho
              exact (Option.some.inj ho) ▸ List.mem_cons_self _ _
          · rw [if_neg hvc]
            refine ⟨⟨fun a ha => List.mem_cons_of_mem _ ha,
                fun p hp => List.mem_cons_of_mem _ hp, fun i hi => hi⟩,
              ⟨?_, ?_, ?_⟩, ?_, fun p hp => List.mem_cons_of_mem _ hp, ?_, rfl⟩
            · intro a ha
              rcases List.mem_cons.mp ha with rfl | ha
              · exact ⟨d.1, List.mem_cons_self _ _, hlo⟩
              · obtain ⟨p, hp1, hp2⟩ := hP.1 a ha
                exact ⟨p, List.mem_cons_of_mem _ hp1, hp2⟩
            · intro p hp
              rcases List.mem_cons.mp hp with rfl | hp
              · exact ⟨out, hlo, List.mem_cons_self _ _⟩
              · obtain ⟨o, ho1, ho2⟩ := hP.2.1 p hp
                exact ⟨o, ho1, List.mem_cons_of_mem _ ho2⟩
            · intro p hp
              rcases List.mem_cons.mp hp with rfl | hp
              · exact List.mem_cons_self _ _
              · exact List.mem_cons_of_mem _ (hP.2.2 p hp)
            · intro _ o ho
              exact (Option.some.inj ho) ▸ List.mem_cons_self _ _
            · intro p hp
              rcases List.mem_cons.mp hp with rfl | hp
              · exact Or.inr (List.mem_cons_self _ _)
              · exact Or.inl hp
  · rw [if_neg hdp]
    exact ⟨StExt.refl st, hP, fun hp => absurd hp hdp, fun p hp => hp,
      fun p hp => Or.inl hp, rfl⟩

theorem procPubDeps_step2 (env : ShakeEnv) :
    ∀ (ds : List (Nat × String)) (st : ShakeState),
      P2St env st →
      StExt st (procPubDeps env st ds) ∧
      P2St env (procPubDeps env st ds) ∧
      (∀ d ∈ ds, d.1 ∈ env.published → ∀ o, alLookup env.c2o d.1 = some o →
        o ∈ (procPubDeps env st ds).kept) ∧
      (∀ p ∈ st.pubWl, p ∈ (procPubDeps env st ds).pubWl) ∧
      (∀ p ∈ (procPubDeps env st ds).visComp,
        p ∈ st.visComp ∨ p ∈ (procPubDeps env st ds).pubWl) ∧
      (procPubDeps env st ds).visSrc = st.visSrc
  | [], st, hP =>
      ⟨StExt.refl st, hP, fun d hd => absurd hd (List.not_mem_nil d),
       fun p hp => hp, fun p hp => Or.inl hp, rfl⟩
  | d :: ds, st, hP => by
      rw [procPubDeps]
      obtain ⟨hext1, hP1, hE1, hwl1, hvc1, hvs1⟩ := procPubDep_step2 env st d hP
      obtain ⟨hext2, hP2, hE2, hwl2, hvc2, hvs2⟩ := procPubDeps_step2 env ds _ hP1
      refine ⟨hext1.trans hext2, hP2, ?_, fun p hp => hwl2 p (hwl1 p hp), ?_, hvs2.trans hvs1⟩
      · intro e he hp o ho
        rcases List.mem_cons.mp he with rfl | he'
        · exact hext2.1 o (hE1 hp o ho)
        · exact hE2 e he' hp o ho
      · intro p hp
        rcases hvc2 p hp with h | h
        · rcases hvc1 p h with h' | h'
          · exact Or.inl h'
          · exact Or.inr (hwl2 p h')
        · exact Or.inr h

theorem pubScan_step2 (env : ShakeEnv) (addr : Nat) :
    ∀ (l : List CUnit) (st : ShakeState),
      (∀ v ∈ l, v ∈ env.units) → P2St env st →
      (∀ v ∈ env.units, v.addr = addr → v ∈ l ∨ ∀ d ∈ v.deps, d.1 ∈ env.published →
        ∀ o, alLookup env.c2o d.1 = some o → o ∈ st.kept) →
      StExt st (pubScan env addr st l) ∧
      P2St env (pubScan env addr st l) ∧
      PubDone env addr (pubScan env addr st l) ∧
      (∀ p ∈ st.pubWl, p ∈ (pubScan env addr st l).pubWl) ∧
      (∀ p ∈ (pubScan env addr st l).visComp,
        p ∈ st.visComp ∨ p ∈ (pubScan env addr st l).pubWl) ∧
      (pubScan env addr st l).visSrc = st.visSrc
  | [], st, _, hP, hpart =>
      ⟨StExt.refl st, hP,
       fun v hv hva d hd hp o ho =>
         ((hpart v hv hva).resolve_left (List.not_mem_nil v)) d hd hp o ho,
       fun p hp => hp, fun p hp => Or.inl hp, rfl⟩
  | v :: rest, st, hl, hP, hpart => by
      rw [pubScan]
      by_cases hva : v.addr = addr
      · rw [if_pos hva]
        obtain ⟨hext1, hP1, hE1, hwl1, hvc1, hvs1⟩ := procPubDeps_step2 env v.deps st hP
        have hpart1 : ∀ w ∈ env.units, w.addr = addr → w ∈ rest ∨
            ∀ d ∈ w.deps, d.1 ∈ env.published → ∀ o, alLookup env.c2o d.1 = some o →
              o ∈ (procPubDeps env st v.deps).kept := by
          intro w hw hwa
          rcases hpart w hw hwa with hin | hdone
          · rcases List.mem_cons.mp hin with rfl | hin'
            · exact Or.inr (fun d hd hp o ho => hE1 d hd hp o ho)
            · exact Or.inl hin'
          · exact Or.inr (fun d hd hp o ho => hext1.1 o (hdone d hd hp o ho))
        obtain ⟨hext2, hP2, hPD2, hwl2, hvc2, hvs2⟩ := pubScan_step2 env addr rest _
          (fun w hw => hl w (List.mem_cons_of_mem _ hw)) hP1 hpart1
        refine ⟨hext1.trans hext2, hP2, hPD2, fun p hp => hwl2 p (hwl1 p hp), ?_,
          hvs2.trans hvs1⟩
        intro p hp
        rcases hvc2 p hp with h | h
        · rcases hvc1 p h with h' | h'
          · exact Or.inl h'
          · exact Or.inr (hwl2 p h')
        · exact Or.inr h
      · rw [if_neg hva]
        have hpart1 : ∀ w ∈ env.units, w.addr = addr → w ∈ rest ∨
            ∀ d ∈ w.deps, d.1 ∈ env.published → ∀ o, alLookup env.c2o d.1 = some o →
              o ∈ st.kept := by
          intro w hw hwa
          rcases hpart w hw hwa with hin | hdone
          · rcases List.mem_cons.mp hin with rfl | hin'
            · exact absurd hwa hva
            · exact Or.inl hin'
          · exact Or.inr hdone
        exact pubScan_step2 env addr rest st
          (fun w hw => hl w (List.mem_cons_of_mem _ hw)) hP hpart1

theorem procPubDep_meas (env : ShakeEnv) (st : ShakeState) (d : Nat × String) :
    nFreshPub env (procPubDep env st d) + (procPubDep env st d).pubWl.length ≤
      nFreshPub env st + st.pubWl.length := by
  unfold procPubDep
  by_cases hdp : d.1 ∈ env.published
  · rw [if_pos hdp]
    cases alLookup env.c2o d.1 with
    | none => exact Nat.le_refl _
    | some out =>
        dsimp only
        by_cases hk : out ∈ st.kept
        · rw [if_pos hk]
          try exact Nat.le_refl _
        · rw [if_neg hk]
          by_cases hvc : d.1 ∈ st.visComp
          · rw [if_pos hvc]
            try exact Nat.le_refl _
          · rw [if_neg hvc]
            have h2 : nFreshPub env { st with kept := out :: st.kept, visComp := d.1 :: st.visComp, pubWl := d.1 :: st.pubWl } < nFreshPub env st := by
              simp only [nFreshPub]
              apply filter_length_lt _ _ ?_ d.1 ?_ ?_ env.published hdp
              · intro x hx
                simp only [decide_eq_true_eq] at hx ⊢
                exact fun hmem => hx (List.mem_cons_of_mem _ hmem)
              · simp only [decide_eq_true_eq]
                exact hvc
              · simp
            have h3 : ({ st with kept := out :: st.kept, visComp := d.1 :: st.visComp, pubWl := d.1 :: st.pubWl } : ShakeState).pubWl.length = st.pubWl.length + 1 := rfl
            omega
  all_goals rw [if_neg hdp]

theorem procPubDeps_meas (env : ShakeEnv) :
    ∀ (ds : List (Nat × String)) (st : ShakeState),
      nFreshPub env (procPubDeps env st ds) + (procPubDeps env st ds).pubWl.length ≤
        nFreshPub env st + st.pubWl.length
  | [], _ => Nat.le_refl _
  | d :: ds, st => by
      rw [procPubDeps]
      exact Nat.le_trans (procPubDeps_meas env ds _) (procPubDep_meas env st d)

theorem pubScan_meas (env : ShakeEnv) (addr : Nat) :
    ∀ (l : List CUnit) (st : ShakeState),
      nFreshPub env (pubScan env addr st l) + (pubScan env addr st l).pubWl.length ≤
        nFreshPub env st + st.pubWl.length
  | [], _ => Nat.le_refl _
  | v :: rest, st => by
      rw [pubScan]
      by_cases hva : v.addr = addr
      · rw [if_pos hva]
        exact Nat.le_trans (pubScan_meas env addr rest _) (procPubDeps_meas env v.deps st)
      · rw [if_neg hva]
        exact pubScan_meas env addr rest st

theorem phase2_done (env : ShakeEnv) :
    ∀ (fuel : Nat) (st : ShakeState),
      nFreshPub env st + st.pubWl.length < fuel →
      P2St env st →
      (∀ p ∈ st.visComp, p ∈ st.pubWl ∨ PubDone env p st) →
      StExt st (phase2 env fuel st) ∧
      P2St env (phase2 env fuel st) ∧
      (∀ p ∈ (phase2 env fuel st).visComp, PubDone env p (phase2 env fuel st)) ∧
      (phase2 env fuel st).visSrc = st.visSrc
  | 0, _, hfuel, _, _ => absurd hfuel (by omega)
  | fuel + 1, st, hfuel, hP, hD => by
      obtain ⟨kept, visComp, pubWl, visSrc⟩ := st
      cases pubWl with
      | nil =>
          exact ⟨StExt.refl _, hP,
            fun p hp => (hD p hp).resolve_left (List.not_mem_nil p), rfl⟩
      | cons addr rest =>
          rw [phase2]
          dsimp only
          have hP' : P2St env ⟨kept, visComp, rest, visSrc⟩ :=
            ⟨hP.1, hP.2.1, fun p hp => hP.2.2 p (List.mem_cons_of_mem _ hp)⟩
          obtain ⟨hext1, hP1, hPD1, hwl1, hvc1, hvs1⟩ := pubScan_step2 env addr env.units
            ⟨kept, visComp, rest, visSrc⟩ (fun w hw => hw) hP' (fun v hv hva => Or.inl hv)
          have hD1 : ∀ p ∈ (pubScan env addr ⟨kept, visComp, rest, visSrc⟩ env.units).visComp,
              p ∈ (pubScan env addr ⟨kept, visComp, rest, visSrc⟩ env.units).pubWl ∨
              PubDone env p (pubScan env addr ⟨kept, visComp, rest, visSrc⟩ env.units) := by
            intro p hp
            rcases hvc1 p hp with h | h
            · rcases hD p h with hw | hpd
              · rcases List.mem_cons.mp hw with rfl | hw'
                · exact Or.inr hPD1
                · exact Or.inl (hwl1 p hw')
              · exact Or.inr (pubDone_mono hpd hext1)
            · exact Or.inl h
          have hmeas := pubScan_meas env addr env.units ⟨kept, visComp, rest, visSrc⟩
          have hfuel1 : nFreshPub env (pubScan env addr ⟨kept, visComp, rest, visSrc⟩ env.units) +
              (pubScan env addr ⟨kept, visComp, rest, visSrc⟩ env.units).pubWl.length < fuel := by
            have e1 : nFreshPub env (⟨kept, visComp, addr :: rest, visSrc⟩ : ShakeState) =
                nFreshPub env (⟨kept, visComp, rest, visSrc⟩ : ShakeState) := rfl
            have e2 : (⟨kept, visComp, addr :: rest, visSrc⟩ : ShakeState).pubWl.length =
                (⟨kept, visComp, rest, visSrc⟩ : ShakeState).pubWl.length + 1 := rfl
            omega
          obtain ⟨hext2, hP2, hdone2, hvs2⟩ := phase2_done env fuel _ hfuel1 hP1 hD1
          have hext0 : StExt (⟨kept, visComp, addr :: rest, visSrc⟩ : ShakeState)
              (⟨kept, visComp, rest, visSrc⟩ : ShakeState) :=
            ⟨fun a ha => ha, fun p hp => hp, fun i hi => hi⟩
          exact ⟨(hext0.trans hext1).trans hext2, hP2, hdone2, (hvs2.trans hvs1)⟩

/-! assembling tree-shaker completeness -/
theorem filter_disjoint_length (p q : α → Bool) :
    ∀ l : List α, (∀ x ∈ l, ¬(p x = true ∧ q x = true)) →
      (l.filter p).length + (l.filter q).length ≤ l.length
  | [], _ => Nat.le_refl 0
  | x :: xs, hd => by
      have hrec := filter_disjoint_length p q xs
        (fun y hy => hd y (List.mem_cons_of_mem _ hy))
      by_cases hp : p x = true
      · have hq : q x = false := by
          cases hq' : q x
          · rfl
          · exact absurd ⟨hp, hq'⟩ (hd x (List.mem_cons_self _ _))
        simp only [List.filter_cons, hp, hq, Bool.false_eq_true, if_true, if_false,
          List.length_cons]
        omega
      · by_cases hq : q x = true
        · have hp' : p x = false := by
            cases hp2 : p x
            · rfl
            · exact absurd hp2 hp
          simp only [List.filter_cons, hp', hq, Bool.false_eq_true, if_true, if_false,
            List.length_cons]
          omega
        · have hp' : p x = false := by
            cases hp2 : p x
            · rfl
            · exact absurd hp2 hp
          have hq' : q x = false := by
            cases hq2 : q x
            · rfl
            · exact absurd hq2 hq
          simp only [List.filter_cons, hp', hq', Bool.false_eq_true, if_false,
            List.length_cons]
          omega

theorem initVisSrc_mono :
    ∀ (l : List CUnit) (vs : List (Nat × String)), ∀ i ∈ vs, i ∈ initVisSrc l vs
  | [], _, _, hi => hi
  | u :: us, vs, i, hi => by
      rw [initVisSrc]
      by_cases h : unitId u ∈ vs
      · rw [if_pos h]
        exact initVisSrc_mono us vs i hi
      · rw [if_neg h]
        exact initVisSrc_mono us _ i (List.mem_cons_of_mem _ hi)

theorem mem_initVisSrc :
    ∀ (l : List CUnit) (vs : List (Nat × String)), ∀ u ∈ l, unitId u ∈ initVisSrc l vs
  | [], _, u, hu => absurd hu (List.not_mem_nil u)
  | w :: us, vs, u, hu => by
      rw [initVisSrc]
      rcases List.mem_cons.mp hu with rfl | hu'
      · by_cases h : unitId u ∈ vs
        · rw [if_pos h]
          exact initVisSrc_mono us vs _ h
        · rw [if_neg h]
          exact initVisSrc_mono us _ _ (List.mem_cons_self _ _)
      · by_cases h : unitId w ∈ vs
        · rw [if_pos h]
          exact mem_initVisSrc us vs u hu'
        · rw [if_neg h]
          exact mem_initVisSrc us _ u hu'

theorem initVisSrc_src :
    ∀ (l : List CUnit) (vs : List (Nat × String)), ∀ i ∈ initVisSrc l vs,
      i ∈ vs ∨ ∃ u ∈ l, unitId u = i
  | [], _, _, hi => Or.inl hi
  | w :: us, vs, i, hi => by
      rw [initVisSrc] at hi
      by_cases h : unitId w ∈ vs
      · rw [if_pos h] at hi
        rcases initVisSrc_src us vs i hi with h' | ⟨u, hu, hui⟩
        · exact Or.inl h'
        · exact Or.inr ⟨u, List.mem_cons_of_mem _ hu, hui⟩
      · rw [if_neg h] at hi
        rcases initVisSrc_src us _ i hi with h' | ⟨u, hu, hui⟩
        · rcases List.mem_cons.mp h' with rfl | h''
          · exact Or.inr ⟨w, List.mem_cons_self _ _, rfl⟩
          · exact Or.inl h''
        · exact Or.inr ⟨u, List.mem_cons_of_mem _ hu, hui⟩

theorem reachPub_published (env : ShakeEnv) (rootName : String) (p : Nat)
    (h : ReachPub env rootName p) : p ∈ env.published := by
  cases h with
  | ofSrc u d _ _ hdp => exact hdp
  | step q v d _ _ _ _ hdp => exact hdp

/-- A saturated final state keeps the output address of every reachable
published compilation address (assuming injectivity of the c2o map and
unique unit ids). -/
theorem shake_final_complete (env : ShakeEnv) (rootName : String)
    (hnodup : (env.units.map unitId).Nodup)
    (hinj : ∀ p q o, alLookup env.c2o p = some o → alLookup env.c2o q = some o → p = q)
    (hkc : ∀ p ∈ env.published, (alLookup env.c2o p).isSome = true)
    (st2 : ShakeState)
    (Fsrc : ∀ id ∈ st2.visSrc, ∀ v ∈ env.units, unitId v = id → UnitDone env v st2)
    (Froot : ∀ u ∈ env.units, isRootUnit rootName u = true → unitId u ∈ st2.visSrc)
    (FP2 : ∀ q ∈ st2.visComp, PubDone env q st2)
    (FK : ∀ a ∈ st2.kept, ∃ p, p ∈ st2.visComp ∧ alLookup env.c2o p = some a)
    (FC : ∀ p ∈ st2.visComp, ∃ o, alLookup env.c2o p = some o ∧ o ∈ st2.kept)
    (p : Nat) (hp : ReachPub env rootName p) (o : Nat)
    (hlo : alLookup env.c2o p = some o) :
    o ∈ st2.kept := by
  have hsrcvis : ∀ u, ReachSrc env rootName u → unitId u ∈ st2.visSrc := by
    intro u hu
    induction hu with
    | root u huu hru => exact Froot u huu hru
    | step u d v hu hd hdp hv hid ih =>
        have hud := Fsrc (unitId u) ih u (reachSrc_mem env rootName u hu) rfl
        have hds := (hud d hd).2 hdp v hv hid
        rw [hid]
        exact hds
  have hmain : ∀ q, ReachPub env rootName q → q ∈ st2.visComp := by
    intro q hq
    induction hq with
    | ofSrc u d hsrc hd hdp =>
        have hvsrc := hsrcvis u hsrc
        have hud := Fsrc (unitId u) hvsrc u (reachSrc_mem env rootName u hsrc) rfl
        have hkcd := hkc d.1 hdp
        cases hld : alLookup env.c2o d.1 with
        | none =>
            rw [hld] at hkcd
            cases hkcd
        | some o1 =>
            have ho1 : o1 ∈ st2.kept := (hud d hd).1 hdp o1 hld
            obtain ⟨p1, hp1, hlp1⟩ := FK o1 ho1
            have hpd : p1 = d.1 := hinj p1 d.1 o1 hlp1 hld
            rw [← hpd]
            exact hp1
    | step q v d hq hv hva hd hdp ihq =>
        have hPD := FP2 q ihq
        have hkcd := hkc d.1 hdp
        cases hld : alLookup env.c2o d.1 with
        | none =>
            rw [hld] at hkcd
            cases hkcd
        | some o1 =>
            have ho1 : o1 ∈ st2.kept := hPD v hv hva d hd hdp o1 hld
            obtain ⟨p1, hp1, hlp1⟩ := FK o1 ho1
            have hpd : p1 = d.1 := hinj p1 d.1 o1 hlp1 hld
            rw [← hpd]
            exact hp1
  have hvc := hmain p hp
  obtain ⟨o2, hlo2, ho2⟩ := FC p hvc
  rw [hlo] at hlo2
  have hoe := Option.some.inj hlo2
  rw [hoe]
  exact ho2

theorem tree_shake_complete (units : List CUnit) (rootName : String)
    (known : List Nat) (c2o : List (Nat × Nat))
    (hnodup : (units.map unitId).Nodup)
    (hinj : ∀ p q o, alLookup c2o p = some o → alLookup c2o q = some o → p = q)
    (hkc : ∀ p ∈ known, (alLookup c2o p).isSome = true)
    (p : Nat) (hp : ReachPub ⟨units, known, c2o⟩ rootName p)
    (o : Nat) (hlo : alLookup c2o p = some o) :
    o ∈ tree_shake units rootName known c2o := by
  have hroots_units : ∀ v ∈ rootUnitsOf units rootName,
      v ∈ (⟨units, known, c2o⟩ : ShakeEnv).units := by
    intro v hv
    rw [rootUnitsOf, List.mem_filter] at hv
    exact hv.1
  have hP0 : P1St ⟨units, known, c2o⟩
      ⟨[], [], [], initVisSrc (rootUnitsOf units rootName) []⟩ :=
    ⟨fun a ha => absurd ha (List.not_mem_nil a), fun q hq => absurd hq (List.not_mem_nil q),
     fun q hq => absurd hq (List.not_mem_nil q), fun q hq => absurd hq (List.not_mem_nil q)⟩
  have hA0 : ∀ id ∈ (⟨[], [], [], initVisSrc (rootUnitsOf units rootName) []⟩ :
        ShakeState).visSrc,
      ∀ v ∈ (⟨units, known, c2o⟩ : ShakeEnv).units, unitId v = id →
      v ∈ rootUnitsOf units rootName ∨
        UnitDone ⟨units, known, c2o⟩ v
          ⟨[], [], [], initVisSrc (rootUnitsOf units rootName) []⟩ := by
    intro id hid v hv hvid
    rcases initVisSrc_src (rootUnitsOf units rootName) [] id hid with h | ⟨u, hu, hui⟩
    · exact absurd h (List.not_mem_nil id)
    · have hvu : v = u := List.inj_on_of_nodup_map hnodup hv (hroots_units u hu)
        (by rw [hvid, hui])
      rw [hvu]
      exact Or.inl hu
  have hfuel1 : nFresh ⟨units, known, c2o⟩
      ⟨[], [], [], initVisSrc (rootUnitsOf units rootName) []⟩ +
      (rootUnitsOf units rootName).length < units.length + 1 := by
    have hdisj := filter_disjoint_length
      (fun v => decide (unitId v ∉ initVisSrc (rootUnitsOf units rootName) []))
      (isRootUnit rootName) units ?_
    · have e1 : nFresh ⟨units, known, c2o⟩
          ⟨[], [], [], initVisSrc (rootUnitsOf units rootName) []⟩ =
          (units.filter (fun v =>
            decide (unitId v ∉ initVisSrc (rootUnitsOf units rootName) []))).length := rfl
      have e2 : (rootUnitsOf units rootName).length =
          (units.filter (isRootUnit rootName)).length := rfl
      omega
    · intro x hx hboth
      have hxr : x ∈ rootUnitsOf units rootName := by
        rw [rootUnitsOf, List.mem_filter]
        exact ⟨hx, hboth.2⟩
      have := mem_initVisSrc (rootUnitsOf units rootName) [] x hxr
      have hfresh := hboth.1
      rw [decide_eq_true_eq] at hfresh
      exact hfresh this
  obtain ⟨hext1, hP1, hdone1⟩ := phase1_done ⟨units, known, c2o⟩ hnodup (units.length + 1)
    ⟨[], [], [], initVisSrc (rootUnitsOf units rootName) []⟩ (rootUnitsOf units rootName)
    hfuel1 hroots_units hP0 hA0
  have hP2init : P2St ⟨units, known, c2o⟩
      (phase1 ⟨units, known, c2o⟩ (units.length + 1)
        ⟨[], [], [], initVisSrc (rootUnitsOf units rootName) []⟩
        (rootUnitsOf units rootName)) :=
    ⟨hP1.1, hP1.2.1, hP1.2.2.1⟩
  have hD0 : ∀ q ∈ (phase1 ⟨units, known, c2o⟩ (units.length + 1)
        ⟨[], [], [], initVisSrc (rootUnitsOf units rootName) []⟩
        (rootUnitsOf units rootName)).visComp,
      q ∈ (phase1 ⟨units, known, c2o⟩ (units.length + 1)
        ⟨[], [], [], initVisSrc (rootUnitsOf units rootName) []⟩
        (rootUnitsOf units rootName)).pubWl ∨
      PubDone ⟨units, known, c2o⟩ q
        (phase1 ⟨units, known, c2o⟩ (units.length + 1)
          ⟨[], [], [], initVisSrc (rootUnitsOf units rootName) []⟩
          (rootUnitsOf units rootName)) :=
    fun q hq => Or.inl (hP1.2.2.2 q hq)
  have hfuel2 : nFreshPub ⟨units, known, c2o⟩
      (phase1 ⟨units, known, c2o⟩ (units.length + 1)
        ⟨[], [], [], initVisSrc (rootUnitsOf units rootName) []⟩
        (rootUnitsOf units rootName)) +
      (phase1 ⟨units, known, c2o⟩ (units.length + 1)
        ⟨[], [], [], initVisSrc (rootUnitsOf units rootName) []⟩
        (rootUnitsOf units rootName)).pubWl.length <
      (⟨units, known, c2o⟩ : ShakeEnv).published.length +
      (phase1 ⟨units, known, c2o⟩ (units.length + 1)
        ⟨[], [], [], initVisSrc (rootUnitsOf units rootName) []⟩
        (rootUnitsOf units rootName)).pubWl.length + 1 := by
    have hle : nFreshPub ⟨units, known, c2o⟩
        (phase1 ⟨units, known, c2o⟩ (units.length + 1)
          ⟨[], [], [], initVisSrc (rootUnitsOf units rootName) []⟩
          (rootUnitsOf units rootName)) ≤
        (⟨units, known, c2o⟩ : ShakeEnv).published.length :=
      List.length_filter_le _ _
    omega
  obtain ⟨hext2, hP2, hdone2, hvs2⟩ := phase2_done ⟨units, known, c2o⟩
    ((⟨units, known, c2o⟩ : ShakeEnv).published.length +
      (phase1 ⟨units, known, c2o⟩ (units.length + 1)
        ⟨[], [], [], initVisSrc (rootUnitsOf units rootName) []⟩
        (rootUnitsOf units rootName)).pubWl.length + 1)
    (phase1 ⟨units, known, c2o⟩ (units.length + 1)
      ⟨[], [], [], initVisSrc (rootUnitsOf units rootName) []⟩
      (rootUnitsOf units rootName))
    hfuel2 hP2init hD0
  refine shake_final_complete ⟨units, known, c2o⟩ rootName hnodup hinj hkc _
    ?_ ?_ hdone2 hP2.1 hP2.2.1 p hp o hlo
  · intro id hid v hv hvid
    rw [hvs2] at hid
    exact unitDone_mono (hdone1 id hid v hv hvid) hext2
  · intro u hu hru
    rw [hvs2]
    apply hext1.2.2
    apply mem_initVisSrc (rootUnitsOf units rootName) []
    rw [rootUnitsOf, List.mem_filter]
    exact ⟨hu, hru⟩

/-! every known compilation address has a c2o entry (by construction) -/
theorem known_lookup_isSome (sv : Services) :
    ∀ (gs : List PackageGroup) (acc : DepAccum),
      (∀ p ∈ acc.known, (alLookup acc.c2o p).isSome = true) →
      ∀ p ∈ (processGroups sv acc gs).known,
        (alLookup (processGroups sv acc gs).c2o p).isSome = true
  | [], _, hbase => hbase
  | g :: gs, acc, hbase => by
      rw [processGroups]
      apply known_lookup_isSome sv gs
      intro p hp
      rw [processGroup_known] at hp
      rw [processGroup_c2o_lookup]
      cases hc : groupCompId sv g with
      | none =>
          rw [hc] at hp
          cases hE : groupC2oEntry sv g p with
          | none =>
              simp only [optOr]
              exact hbase p hp
          | some y => rfl
      | some c =>
          rw [hc] at hp
          rw [mem_addIfAbsent] at hp
          rcases hp with rfl | hp
          · unfold groupC2oEntry
            rw [hc]
            cases ho : groupOutId sv g <;> dsimp only <;> rw [if_pos rfl] <;> rfl
          · cases hE : groupC2oEntry sv g p with
            | none =>
                simp only [optOr]
                exact hbase p hp
            | some y => rfl

theorem depAccumOf_known_isSome (sv : Services) (files : List (String × String))
    (deps : List PackageGroup) :
    ∀ p ∈ (depAccumOf sv files deps).known,
      (alLookup (depAccumOf sv files deps).c2o p).isSome = true :=
  known_lookup_isSome sv deps (initAccum (resolveRoot sv files))
    (fun q hq => absurd hq (List.not_mem_nil q))

/-! ### claim C2 -/
/-- C2 (counterexample): the transitive published closure can drop a reachable published
dependency: with `c2Groups`, package A and package C share the output
address 0x30, so when C's edge inserts 0x30 first, A's compilation address
0x10 is never enqueued and B's output address 0x40 = 64 is missing from
`dependencies` although A imports B and the root imports A. -/
theorem c2_counterexample :
    ReachPub c2Env (resolveRoot c2Services exFiles).packageName 18 ∧
    alLookup (depAccumOf c2Services exFiles c2Groups).c2o 18 = some 64 ∧
    64 ∈ (depAccumOf c2Services exFiles c2Groups).depIds ∧
    resultDeps (compile_core c2Services exFiles c2Groups defaultOptions) = some [48] ∧
    (64 : Nat) ∉ ([48] : List Nat) := by
  refine ⟨?_, rfl, by decide, rfl, by decide⟩
  have hroot : ReachSrc c2Env (resolveRoot c2Services exFiles).packageName c2Root :=
    ReachSrc.root c2Root (by decide) (by decide)
  have h16 : ReachPub c2Env (resolveRoot c2Services exFiles).packageName 16 :=
    ReachPub.ofSrc c2Root (16, "a") hroot (by decide) (by decide)
  exact ReachPub.step 16 c2UnitA (18, "b") h16 (by decide) rfl (by decide) (by decide)

/-- C2 (amended): for a successful compilation with pairwise-distinct unit
ids and an injective compilation-to-output map, the output address of
every published compilation address reachable by the two-phase traversal
that was recorded in the dependency-identifier list appears in the
returned `dependencies`. -/
theorem c2_amended_transitive_closure (sv : Services) (files : List (String × String))
    (deps : List PackageGroup) (opts : CompileOptions) (out : CompilationOutput)
    (units : List CUnit) (bComp bOut : Nat)
    (hrun : sv.compilerRun (assemble_targets sv files deps) opts.testMode =
      CompilerOutcome.ok units)
    (h : compile_core sv files deps opts = CompileResult.success out)
    (hnodup : (units.map unitId).Nodup)
    (hinj : ∀ p q o, alLookup (depAccumOf sv files deps).c2o p = some o →
      alLookup (depAccumOf sv files deps).c2o q = some o → p = q)
    (hB : alLookup (depAccumOf sv files deps).c2o bComp = some bOut)
    (hdep : bOut ∈ (depAccumOf sv files deps).depIds)
    (hreach : ReachPub ⟨units, (depAccumOf sv files deps).known,
        (depAccumOf sv files deps).c2o⟩ (resolveRoot sv files).packageName bComp) :
    bOut ∈ out.dependencies := by
  obtain ⟨units', ids, hrun', hver, htopo, hout⟩ :=
    compile_core_success_inversion sv files deps opts out h
  rw [hrun] at hrun'
  obtain rfl : units = units' := CompilerOutcome.ok.inj hrun'
  rw [hout]
  dsimp only
  apply (List.perm_insertionSort (α := Nat) (· ≤ ·) _).symm.subset
  apply List.mem_filter.mpr
  refine ⟨hdep, ?_⟩
  have hkept : bOut ∈ tree_shake units (resolveRoot sv files).packageName
      (depAccumOf sv files deps).known (depAccumOf sv files deps).c2o :=
    tree_shake_complete units _ _ _ hnodup hinj
      (depAccumOf_known_isSome sv files deps) bComp hreach bOut hB
  exact List.elem_eq_true_of_mem hkept

/-- C2 (amended, witness). -/
theorem c2_amended_witness :
    compile_core c1Services exFiles [c1GroupA] defaultOptions =
      CompileResult.success ⟨[[]], [33], []⟩ ∧
    33 ∈ (CompilationOutput.mk [[]] [33] []).dependencies := by
  have hrun : c1Services.compilerRun (assemble_targets c1Services exFiles [c1GroupA])
      defaultOptions.testMode = CompilerOutcome.ok [c1Root] := rfl
  have h : compile_core c1Services exFiles [c1GroupA] defaultOptions =
      CompileResult.success ⟨[[]], [33], []⟩ := rfl
  have hnodup : (([c1Root]).map unitId).Nodup := by decide
  have hinj : ∀ p q o, alLookup (depAccumOf c1Services exFiles [c1GroupA]).c2o p = some o →
      alLookup (depAccumOf c1Services exFiles [c1GroupA]).c2o q = some o → p = q := by
    intro p q o hp hq
    have hone : ∀ x y, alLookup ([((16 : Nat), (33 : Nat))]) x = some y → x = 16 := by
      intro x y hx
      by_cases h16 : (16 : Nat) = x
      · exact h16.symm
      · rw [show alLookup [((16 : Nat), (33 : Nat))] x =
            (if (16 : Nat) = x then some 33 else none) from rfl, if_neg h16] at hx
        cases hx
    have hp' : p = 16 := hone p o hp
    have hq' : q = 16 := hone q o hq
    rw [hp', hq']
  have hB : alLookup (depAccumOf c1Services exFiles [c1GroupA]).c2o 16 = some 33 := rfl
  have hdep : (33 : Nat) ∈ (depAccumOf c1Services exFiles [c1GroupA]).depIds := by decide
  have hreach : ReachPub ⟨[c1Root], (depAccumOf c1Services exFiles [c1GroupA]).known,
      (depAccumOf c1Services exFiles [c1GroupA]).c2o⟩
      (resolveRoot c1Services exFiles).packageName 16 :=
    ReachPub.ofSrc c1Root (16, "x")
      (ReachSrc.root c1Root (by decide) (by decide))
      (by decide) (by decide)
  exact ⟨h, c2_amended_transitive_closure c1Services exFiles [c1GroupA] defaultOptions
    ⟨[[]], [33], []⟩ [c1Root] 16 33 hrun h hnodup hinj hB hdep hreach⟩

end SMB
